import Mathlib

/-!
# Route optimizer: a shallow embedding and its verified properties

The Go program computes a minimal-time delivery route for a courier.  This file
embeds its data model and its two search strategies and proves properties of
them.

Conventions of the embedding

* A `float64` duration is a rational number (exact arithmetic); `math.MaxFloat64`
  is the rational `2^1024 - 2^971`.
* A Go `int` has 64 bits.  One used as a bit mask is represented by its two's
  complement pattern, a natural number below `2^64`; shifts and the subtraction in
  `(1 << n) - 1` wrap modulo `2^64` exactly as the machine does.  Loop indices and
  slice indices are natural numbers.
* A slice that may be `nil` is an `Option (List _)`, `none` being `nil`.
* A function that may panic, or recurse without bound, returns an `Outcome`;
  recursion depth is bounded by an explicit budget (`fuel`).
* The arrival order of the results on the channel of the concurrent strategy is
  decided by a schedule, an explicit argument.
* The speed held by the builder and the preparation time read by the validation
  are `float64` values with NaN and the two infinities (`Float64`), because the
  checks `x <= 0` made on them are false on NaN; on values that are numbers they
  agree with the exact model.
-/

namespace RouteOptimizer

/-! ## Outcomes of an execution -/

/-- Ways in which a Go call ends without returning. -/
inductive Fault where
  | panic (msg : String)
  | outOfFuel
  deriving DecidableEq, Repr

/-- Result of running a Go function: a returned value or a fault. -/
abbrev Outcome (α : Type) := Except Fault α

/-- Error values of the package: the package-level variables and the errors made
in place with `errors.New`. -/
inductive GoError where
  | ErrRouteImpossible
  | ErrEmptyLocation
  | ErrEmptyStartLocation
  | ErrInvalidSpeed
  | ErrNoDistanceCalculatorSet
  | New (msg : String)
  deriving DecidableEq, Repr

/-! ## models.go -/

/-- GeoLocation: latitude and longitude, each a pointer that may be nil. -/
structure GeoLocation where
  Lat : Option ℚ
  Lon : Option ℚ
  deriving DecidableEq, Repr

/-- The coordinate is absent when either pointer is nil. -/
def GeoLocation.IsNil (g : GeoLocation) : Bool :=
  g.Lat.isNone || g.Lon.isNone

/-- Order: the customer order. -/
structure Order where
  ConsumerName : String
  RestaurantName : String
  Consumer : GeoLocation
  Restaurant : GeoLocation
  PrepTime : ℚ
  deriving DecidableEq, Repr

/-- RouteStep: an action and the place where it happens. -/
structure RouteStep where
  Action : String
  Location : GeoLocation
  deriving DecidableEq, Repr

/-- The triple `(float64, []RouteStep, error)` every strategy returns. -/
structure RouteResult where
  totalTime : ℚ
  steps : Option (List RouteStep)
  err : Option GoError
  deriving DecidableEq, Repr

/-- Go `append` on a slice that may be nil: the result is never nil. -/
def appendStep (steps : Option (List RouteStep)) (x : RouteStep) : Option (List RouteStep) :=
  some (steps.getD [] ++ [x])

/-- Indexing `orders[i]`: panics when the index is out of range. -/
def indexOrder (orders : List Order) (i : Nat) : Outcome Order :=
  match orders[i]? with
  | some o => pure o
  | none => throw (Fault.panic "index out of range")

/-! ## calculators.go -/

/-- The feasibility ceiling: 24 hours in minutes. -/
def maxReasonableTravelTime : ℚ := 24 * 60

/-- The value of `math.MaxFloat64`. -/
def MaxFloat64 : ℚ := 2 ^ 1024 - 2 ^ 971

/-- DistanceCalculator: the interface, a (non-nil) function of two coordinates. -/
abbrev DistanceCalculator := GeoLocation → GeoLocation → ℚ

/-- TravelTimeCalculator: the cost model, a distance function and a speed in km/h. -/
structure TravelTimeCalculator where
  DistanceCalculator : DistanceCalculator
  Speed : ℚ

/-- Travel time in minutes. -/
def TravelTimeCalculator.Calculate (ttc : TravelTimeCalculator) (start finish : GeoLocation) : ℚ :=
  let distance := ttc.DistanceCalculator start finish
  (distance / ttc.Speed) * 60

/-! ## routing_algo.go: the concurrent brute-force strategy -/

/-- ConcurrentNaiveStrategy: holds the cost model. -/
structure ConcurrentNaiveStrategy where
  travelTimeCalculator : TravelTimeCalculator

/-- The candidate index sequences of the brute-force search. -/
def generatePermutations : Nat → List (List Nat)
  | 1 => [[0]]
  | 0 => []
  | n + 2 =>
    (List.range (n + 2)).foldl
      (fun result i =>
        (generatePermutations (n + 1)).foldl (fun result perm => result ++ [i :: perm]) result)
      []

/-- The loop of `calculateRouteTime`, with its three local variables as arguments. -/
def ConcurrentNaiveStrategy.calculateRouteTimeLoop (s : ConcurrentNaiveStrategy)
    (orders : List Order) :
    List Nat → ℚ → GeoLocation → Option (List RouteStep) → Outcome RouteResult
  | [], totalTime, _, steps => pure ⟨totalTime, steps, none⟩
  | index :: rest, totalTime, currentLocation, steps => do
    let order ← indexOrder orders index
    -- Travel to the restaurant
    let travelTime := s.travelTimeCalculator.Calculate currentLocation order.Restaurant
    let currentLocation := order.Restaurant
    let totalTime := totalTime + travelTime
    if totalTime > maxReasonableTravelTime then
      pure ⟨-1, none, some GoError.ErrRouteImpossible⟩
    else
      let steps := appendStep steps ⟨"Pick up from " ++ order.RestaurantName, currentLocation⟩
      let totalTime := totalTime + order.PrepTime
      -- Travel to the consumer
      let travelTime := s.travelTimeCalculator.Calculate currentLocation order.Consumer
      let currentLocation := order.Consumer
      let totalTime := totalTime + travelTime
      let steps := appendStep steps ⟨"Deliver to " ++ order.ConsumerName, currentLocation⟩
      s.calculateRouteTimeLoop orders rest totalTime currentLocation steps

/-- Time to deliver all the orders in the sequence `orderIndices`. -/
def ConcurrentNaiveStrategy.calculateRouteTime (s : ConcurrentNaiveStrategy)
    (orderIndices : List Nat) (orders : List Order) (start : GeoLocation) : Outcome RouteResult :=
  s.calculateRouteTimeLoop orders orderIndices 0 start none

/-- What one worker sends on the channel, in order: the result of every candidate
that `calculateRouteTime` returns without error. -/
def ConcurrentNaiveStrategy.workerSends (s : ConcurrentNaiveStrategy)
    (orders : List Order) (start : GeoLocation) :
    List (List Nat) → Outcome (List (ℚ × Option (List RouteStep)))
  | [] => pure []
  | perm :: perms => do
    let r ← s.calculateRouteTime perm orders start
    let sent ← s.workerSends orders start perms
    if r.err.isSome then pure sent else pure ((r.totalTime, r.steps) :: sent)

/-- The fixed size of the worker pool. -/
def numWorkers : Nat := 5

/-- Merge of the workers' send queues into the order in which the consumer
receives them.  Each entry of the schedule names the worker whose next send is
received next (an entry naming a worker with nothing left is skipped); when the
schedule is used up the remaining sends arrive worker by worker. -/
def interleave {α : Type} : List Nat → List (List α) → List α
  | [], queues => queues.flatten
  | k :: sched, queues =>
    match queues[k % numWorkers]? with
    | some (x :: q) => x :: interleave sched (queues.set (k % numWorkers) q)
    | _ => interleave sched queues

/-- The reduction over the received results: keep the strictly smallest total
time and its steps. -/
def reduceBest (received : List (ℚ × Option (List RouteStep))) : ℚ × Option (List RouteStep) :=
  received.foldl
    (fun best result => if result.1 < best.1 then (result.1, result.2) else best)
    (MaxFloat64, none)

/-- CalculateRoute of the concurrent brute-force strategy: five workers each walk
all candidates, the consumer keeps the best result received. -/
def ConcurrentNaiveStrategy.CalculateRoute (s : ConcurrentNaiveStrategy) (sched : List Nat)
    (orders : List Order) (start : GeoLocation) : Outcome RouteResult := do
  let sends ← s.workerSends orders start (generatePermutations orders.length)
  let received := interleave sched (List.replicate numWorkers sends)
  let best := reduceBest received
  pure ⟨best.1, best.2, none⟩

/-! ## routing_algo.go: the dynamic-programming strategy -/

/-- DynamicProgrammingStrategy: holds the cost model. -/
structure DynamicProgrammingStrategy where
  travelTimeCalculator : TravelTimeCalculator

/-- The memo `map[[2]int]float64`, an association list with the newest entry first. -/
abbrev Memo := List ((Nat × Nat) × ℚ)

/-- The Go expression `1 << i` on a 64-bit `int`, as a bit pattern: a shift by 64
or more leaves zero. -/
def shl1 (i : Nat) : Nat := if i < 64 then 2 ^ i else 0

/-- The Go expression `(1 << n) - 1` on a 64-bit `int`, as a bit pattern: the
subtraction wraps modulo `2^64`. -/
def fullMask (n : Nat) : Nat := (shl1 n + (2 ^ 64 - 1)) % 2 ^ 64

/-- Cost of visiting order `o` next when standing at `src`: travel to the
restaurant, preparation, travel to the consumer. -/
def legCost (ttc : TravelTimeCalculator) (src : GeoLocation) (o : Order) : ℚ :=
  ttc.Calculate src o.Restaurant + o.PrepTime + ttc.Calculate o.Restaurant o.Consumer

/-- Body of the loop `for i := 0; i < n; i++` inside `dp`, for the state
`(visited, last)`: the accumulator is the running minimum `res` and the memo; the
recursive call `dp(newVisited, i)` is the argument `call`. -/
def DynamicProgrammingStrategy.dpLoopBody (s : DynamicProgrammingStrategy) (orders : List Order)
    (call : Memo → Nat → Nat → Outcome (ℚ × Memo)) (visited last : Nat)
    (acc : ℚ × Memo) (i : Nat) : Outcome (ℚ × Memo) :=
  if visited &&& shl1 i = 0 then do
    let newVisited := visited ||| shl1 i
    let (sub, memo) ← call acc.2 newVisited i
    let oLast ← indexOrder orders last
    let oI ← indexOrder orders i
    pure (min acc.1 (sub + legCost s.travelTimeCalculator oLast.Consumer oI), memo)
  else pure acc

/-- The closure `dp` of `findOptimalRoute`: minimal remaining time from the state
`(visited, last)`.  The memo is passed in and out; `fuel` bounds the recursion depth. -/
def DynamicProgrammingStrategy.dp (s : DynamicProgrammingStrategy) (orders : List Order) :
    Nat → Memo → Nat → Nat → Outcome (ℚ × Memo)
  | 0, _, _, _ => throw Fault.outOfFuel
  | fuel + 1, memo, visited, last =>
    if visited = fullMask orders.length then pure (0, memo)
    else
      match memo.lookup (visited, last) with
      | some val => pure (val, memo)
      | none => do
        let (res, memo) ← (List.range orders.length).foldlM
          (s.dpLoopBody orders (s.dp orders fuel) visited last) (MaxFloat64, memo)
        pure (res, ((visited, last), res) :: memo)

/-- Body of the selection loop of `findOptimalRoute`: the accumulator is `last`,
`bestTime` and the memo.  The variable `last` is `-1` or a loop index; it is an
`Option Nat`, `none` standing for `-1`. -/
def DynamicProgrammingStrategy.selectFirstBody (s : DynamicProgrammingStrategy) (fuel : Nat)
    (orders : List Order) (start : GeoLocation)
    (acc : Option Nat × ℚ × Memo) (i : Nat) : Outcome (Option Nat × ℚ × Memo) := do
  let (sub, memo) ← s.dp orders fuel acc.2.2 (shl1 i) i
  let oI ← indexOrder orders i
  let time := sub + legCost s.travelTimeCalculator start oI
  if time < acc.2.1 then pure (some i, time, memo) else pure (acc.1, acc.2.1, memo)

/-- The selection loop of `findOptimalRoute`: the best first order. -/
def DynamicProgrammingStrategy.selectFirst (s : DynamicProgrammingStrategy) (fuel : Nat)
    (orders : List Order) (start : GeoLocation) : Outcome (Option Nat × ℚ × Memo) :=
  (List.range orders.length).foldlM (s.selectFirstBody fuel orders start) (none, MaxFloat64, [])

/-- Body of the inner loop of the reconstruction: the accumulator is `bestNext`
(`-1`, here `none`, or a loop index), `bestNextTime` and the memo. -/
def DynamicProgrammingStrategy.selectNextBody (s : DynamicProgrammingStrategy) (fuel : Nat)
    (orders : List Order) (visited last : Nat)
    (acc : Option Nat × ℚ × Memo) (i : Nat) : Outcome (Option Nat × ℚ × Memo) :=
  if visited &&& shl1 i = 0 then do
    let nextVisited := visited ||| shl1 i
    let (sub, memo) ← s.dp orders fuel acc.2.2 nextVisited i
    let oLast ← indexOrder orders last
    let oI ← indexOrder orders i
    let nextTime := sub + legCost s.travelTimeCalculator oLast.Consumer oI
    if nextTime < acc.2.1 then pure (some i, nextTime, memo) else pure (acc.1, acc.2.1, memo)
  else pure acc

/-- The inner loop of the reconstruction: the best next order after `last`. -/
def DynamicProgrammingStrategy.selectNext (s : DynamicProgrammingStrategy) (fuel : Nat)
    (orders : List Order) (visited last : Nat) (memo : Memo) : Outcome (Option Nat × ℚ × Memo) :=
  (List.range orders.length).foldlM (s.selectNextBody fuel orders visited last)
    (none, MaxFloat64, memo)

/-- The reconstruction loop `for len(optimalRoute) < n`.  Every iteration that
does not leave the loop appends one index, so the first argument, the number of
iterations still allowed, starts at `n`. -/
def DynamicProgrammingStrategy.reconstruct (s : DynamicProgrammingStrategy) (fuel : Nat)
    (orders : List Order) : Nat → List Nat → Nat → Option Nat → Memo → Outcome (List Nat)
  | 0, optimalRoute, _, _, _ =>
    if optimalRoute.length < orders.length then throw Fault.outOfFuel else pure optimalRoute
  | k + 1, optimalRoute, visited, last, memo =>
    if optimalRoute.length < orders.length then
      match last with
      | none => pure optimalRoute -- No next node found
      | some last => do
        let optimalRoute := optimalRoute ++ [last]
        let (bestNext, _, memo) ← s.selectNext fuel orders visited last memo
        match bestNext with
        | none => pure optimalRoute -- No next node found
        | some bestNext =>
          let visited := visited ||| shl1 bestNext
          s.reconstruct fuel orders k optimalRoute visited (some bestNext) memo
    else pure optimalRoute

/-- The optimal route and its total time, by dynamic programming. -/
def DynamicProgrammingStrategy.findOptimalRoute (s : DynamicProgrammingStrategy) (fuel : Nat)
    (orders : List Order) (start : GeoLocation) :
    Outcome (Option (List Nat) × ℚ × Option GoError) :=
  if orders.length = 0 then pure (none, 0, some (GoError.New "no orders provided"))
  else do
    -- Find optimal route
    let (last, bestTime, memo) ← s.selectFirst fuel orders start
    -- Reconstruct the route
    match last with
    | none => throw (Fault.panic "negative shift amount")
    | some first =>
      let visited := shl1 first
      let optimalRoute ← s.reconstruct fuel orders orders.length [] visited (some first) memo
      pure (some optimalRoute, bestTime, none)

/-- Route steps of a route: pick-up then delivery for each index, in order. -/
def generateRouteSteps (orders : List Order) : List Nat → Outcome (List RouteStep)
  | [] => pure []
  | index :: rest => do
    let order ← indexOrder orders index
    let routeSteps ← generateRouteSteps orders rest
    pure (⟨"Pick up from " ++ order.RestaurantName, order.Restaurant⟩ ::
      ⟨"Deliver to " ++ order.ConsumerName, order.Consumer⟩ :: routeSteps)

/-- CalculateRoute of the dynamic-programming strategy. -/
def DynamicProgrammingStrategy.CalculateRoute (s : DynamicProgrammingStrategy) (fuel : Nat)
    (orders : List Order) (start : GeoLocation) : Outcome RouteResult :=
  if orders.length = 0 then pure ⟨0, none, some (GoError.New "no orders provided")⟩
  else do
    let (optimalRoute, totalTime, err) ← s.findOptimalRoute fuel orders start
    if err.isSome then pure ⟨0, none, err⟩
    else
      let routeSteps ← generateRouteSteps orders (optimalRoute.getD [])
      if totalTime > maxReasonableTravelTime then
        pure ⟨-1, none, some GoError.ErrRouteImpossible⟩
      else pure ⟨totalTime, some routeSteps, none⟩

/-! ## routes.go -/

/-- What a run depends on besides its inputs: the schedule of the channel and the
recursion budget. -/
structure Env where
  sched : List Nat
  fuel : Nat

/-- RouteCalculationStrategy: the interface, with its two implementations in the
package and any other implementation of the method. -/
inductive RouteCalculationStrategy where
  | concurrentNaive (s : ConcurrentNaiveStrategy)
  | dynamicProgramming (s : DynamicProgrammingStrategy)
  | custom (impl : Env → List Order → GeoLocation → Outcome RouteResult)

/-- Dynamic dispatch of `CalculateRoute`. -/
def RouteCalculationStrategy.CalculateRoute (env : Env) :
    RouteCalculationStrategy → List Order → GeoLocation → Outcome RouteResult
  | concurrentNaive s, orders, start => s.CalculateRoute env.sched orders start
  | dynamicProgramming s, orders, start => s.CalculateRoute env.fuel orders start
  | custom impl, orders, start => impl env orders start

/-- A method call on an interface value that may be nil. -/
def callCalculateRoute (env : Env) (strategy : Option RouteCalculationStrategy)
    (orders : List Order) (start : GeoLocation) : Outcome RouteResult :=
  match strategy with
  | none => throw (Fault.panic "nil pointer dereference")
  | some st => st.CalculateRoute env orders start

/-- RouteCalculator: the orchestrator, a cost model and the active strategy. -/
structure RouteCalculator where
  TravelTimeCalculator : TravelTimeCalculator
  strategy : Option RouteCalculationStrategy

/-- SetRoutingAlgo replaces the active strategy. -/
def RouteCalculator.SetRoutingAlgo (rc : RouteCalculator)
    (strategy : Option RouteCalculationStrategy) : RouteCalculator :=
  { rc with strategy := strategy }

/-- ComputeBestRoute: check the preconditions, then delegate to the strategy. -/
def RouteCalculator.ComputeBestRoute (rc : RouteCalculator) (env : Env)
    (orders : List Order) (start : GeoLocation) : Outcome RouteResult :=
  if orders.length = 0 then pure ⟨0, none, some (GoError.New "no orders to process")⟩
  else if start.IsNil then pure ⟨0, none, some GoError.ErrEmptyStartLocation⟩
  else
    -- Delegate route calculation to the strategy
    callCalculateRoute env rc.strategy orders start

/-! ## route_calculator_builder.go -/

/-- RouteCalculatorBuilder: a distance function (nil until set) and a speed. -/
structure RouteCalculatorBuilder where
  distanceCalculator : Option DistanceCalculator
  speed : ℚ

/-- A fresh builder: the zero value. -/
def NewRouteCalculatorBuilder : RouteCalculatorBuilder := ⟨none, 0⟩

/-- SetDistanceCalculator stores the distance function. -/
def RouteCalculatorBuilder.SetDistanceCalculator (b : RouteCalculatorBuilder)
    (calculator : Option DistanceCalculator) : RouteCalculatorBuilder :=
  { b with distanceCalculator := calculator }

/-- SetSpeed stores the speed. -/
def RouteCalculatorBuilder.SetSpeed (b : RouteCalculatorBuilder) (speed : ℚ) :
    RouteCalculatorBuilder :=
  { b with speed := speed }

/-- Build builds the route calculator, or fails on an invalid configuration. -/
def RouteCalculatorBuilder.Build (b : RouteCalculatorBuilder) :
    Option RouteCalculator × Option GoError :=
  if b.speed ≤ 0 then (none, some GoError.ErrInvalidSpeed)
  else
    match b.distanceCalculator with
    | none => (none, some GoError.ErrNoDistanceCalculatorSet)
    | some dc =>
      let ttc : TravelTimeCalculator := ⟨dc, b.speed⟩
      -- Default Strategy
      (some ⟨ttc, some (RouteCalculationStrategy.concurrentNaive ⟨ttc⟩)⟩, none)

/-! ## Specification-side definitions -/

/-- Cost of a route, following the words of the specification: standing at `src`,
visit the orders of the sequence one after the other; each visit costs the travel
to the restaurant, the preparation time and the travel from the restaurant to the
consumer, and leaves the courier at the consumer.  An index that names no order
ends the sum. -/
def routeCost (ttc : TravelTimeCalculator) (orders : List Order) : GeoLocation → List Nat → ℚ
  | _, [] => 0
  | src, i :: rest =>
    match orders[i]? with
    | some o => legCost ttc src o + routeCost ttc orders o.Consumer rest
    | none => 0

/-- Where the courier stands after the visits `pre`, having set out from `start`. -/
def endOf (orders : List Order) (start : GeoLocation) (pre : List Nat) : GeoLocation :=
  match pre.getLast? with
  | none => start
  | some i =>
    match orders[i]? with
    | some o => o.Consumer
    | none => start

/-- Every route cost is below the sentinel: for every visiting order of all the
orders, the cost of the whole route and of what remains of it after any number of
visits is smaller than `math.MaxFloat64`. -/
def CostsBelowSentinel (ttc : TravelTimeCalculator) (orders : List Order)
    (start : GeoLocation) : Prop :=
  ∀ pre suf : List Nat, (pre ++ suf).Perm (List.range orders.length) →
    routeCost ttc orders (endOf orders start pre) suf < MaxFloat64

/-- The pick-up and delivery steps of a sequence of orders, following the words of
the specification: for each order in turn, pick up at the restaurant, then deliver
to the consumer. -/
def expandRoute (orders : List Order) (p : List Nat) : List RouteStep :=
  p.flatMap (fun i =>
    match orders[i]? with
    | some o =>
      [⟨"Pick up from " ++ o.RestaurantName, o.Restaurant⟩,
       ⟨"Deliver to " ++ o.ConsumerName, o.Consumer⟩]
    | none => [])

/-! ## Sample data -/

/-- A coordinate with both components present. -/
def sampleLoc (x y : ℚ) : GeoLocation := ⟨some x, some y⟩

/-- Order A of the samples: short preparation. -/
def orderA : Order := ⟨"Consumer A", "Restaurant A", sampleLoc 1 1, sampleLoc 2 2, 1⟩

/-- Order B of the samples: long preparation. -/
def orderB : Order := ⟨"Consumer B", "Restaurant B", sampleLoc 3 3, sampleLoc 4 4, 100⟩

/-- A cost model in which every leg takes no time. -/
def zeroModel : TravelTimeCalculator := ⟨fun _ _ => 0, 1⟩

/-- A cost model in which every leg is 200 km at 10 km/h, that is 1200 minutes. -/
def slowModel : TravelTimeCalculator := ⟨fun _ _ => 200, 10⟩

/-- The cost model of the no-route test: every distance is 1000000, the speed 10. -/
def mockModel : TravelTimeCalculator := ⟨fun _ _ => 1000000, 10⟩

/-! ## Definitions used to state and prove the properties of the dynamic program -/

/-- The order at an index, with a placeholder outside the list. -/
def orderAt (orders : List Order) (i : Nat) : Order :=
  orders.getD i ⟨"", "", ⟨none, none⟩, ⟨none, none⟩, 0⟩

/-- Cost of visiting the order of index `i` next when standing at `src`. -/
def stepCost (ttc : TravelTimeCalculator) (orders : List Order) (src : GeoLocation) (i : Nat) : ℚ :=
  legCost ttc src (orderAt orders i)

/-- The indices below `n` that a mask leaves unvisited, in increasing order: those
for which the test `visited & (1 << i) == 0` of the loops succeeds. -/
def unvisited (n visited : Nat) : List Nat :=
  (List.range n).filter (fun i => visited &&& shl1 i = 0)

/-- The recurrence of the dynamic program on lists: the minimum, started at the
sentinel, over the next order `i` of `rest`, of the value for the others plus the
cost of visiting `i` after `last`.  The first argument is the length of `rest`. -/
def optRest (ttc : TravelTimeCalculator) (orders : List Order) : Nat → Nat → List Nat → ℚ
  | 0, _, _ => 0
  | k + 1, last, rest =>
    rest.foldl
      (fun res i =>
        min res (optRest ttc orders k i (rest.erase i) +
          stepCost ttc orders (orderAt orders last).Consumer i))
      MaxFloat64

/-- The value of the state `(visited, last)`. -/
def stateValue (ttc : TravelTimeCalculator) (orders : List Order) (visited last : Nat) : ℚ :=
  optRest ttc orders (unvisited orders.length visited).length last
    (unvisited orders.length visited)

/-- Every entry of the memo holds the value of its state. -/
def MemoOK (ttc : TravelTimeCalculator) (orders : List Order) (memo : Memo) : Prop :=
  ∀ visited last x, memo.lookup (visited, last) = some x → x = stateValue ttc orders visited last

/-- The scan `if time < best { best = time; arg = i }` over a list of candidates,
started at the sentinel with no candidate chosen. -/
def pickBest (cands : List (Nat × ℚ)) (init : Option Nat × ℚ) : Option Nat × ℚ :=
  cands.foldl (fun acc c => if c.2 < acc.2 then (some c.1, c.2) else acc) init

/-- The candidates of the selection loop with their times. -/
def firstCands (ttc : TravelTimeCalculator) (orders : List Order) (start : GeoLocation)
    (is : List Nat) : List (Nat × ℚ) :=
  is.map (fun i => (i, stateValue ttc orders (shl1 i) i + stepCost ttc orders start i))

/-- The candidates of the inner loop of the reconstruction with their times. -/
def nextCands (ttc : TravelTimeCalculator) (orders : List Order) (visited last : Nat)
    (is : List Nat) : List (Nat × ℚ) :=
  (is.filter (fun i => visited &&& shl1 i = 0)).map
    (fun i => (i, stateValue ttc orders (visited ||| shl1 i) i +
      stepCost ttc orders (orderAt orders last).Consumer i))

/-- The route the reconstruction builds from the state `(visited, last)`: `last`,
then the best next order, and so on. -/
def routeFrom (ttc : TravelTimeCalculator) (orders : List Order) : Nat → Nat → Nat → List Nat
  | 0, _, _ => []
  | k + 1, visited, last =>
    last ::
      match (pickBest (nextCands ttc orders visited last (List.range orders.length))
          (none, MaxFloat64)).1 with
      | none => []
      | some next => routeFrom ttc orders k (visited ||| shl1 next) next

/-- Every tail of a route costs less than the sentinel: standing at the consumer
of `last`, visiting distinct other orders. -/
def TailsBelowSentinel (ttc : TravelTimeCalculator) (orders : List Order) : Prop :=
  ∀ (last : Nat) (q : List Nat), last < orders.length → q.Nodup →
    (∀ i ∈ q, i < orders.length) → last ∉ q →
    routeCost ttc orders (orderAt orders last).Consumer q < MaxFloat64

/-- The outcome of the selection loop of `findOptimalRoute`: the first order chosen
(none when no candidate is below the sentinel) and the best time. -/
def bestFirst (ttc : TravelTimeCalculator) (orders : List Order) (start : GeoLocation) :
    Option Nat × ℚ :=
  pickBest (firstCands ttc orders start (List.range orders.length)) (none, MaxFloat64)

/-! ## The float64 values that the two validity checks compare with zero -/

/-- A float64 value: not a number, an infinity, or a finite value, which is a
rational number (the two zeros are `num 0`). -/
inductive Float64 where
  | NaN
  | negInf
  | posInf
  | num (q : ℚ)
  deriving DecidableEq, Repr

/-- The Go comparison `x <= y` on float64: false as soon as one side is NaN. -/
def Float64.le : Float64 → Float64 → Bool
  | Float64.NaN, _ => false
  | Float64.negInf, Float64.NaN => false
  | Float64.negInf, _ => true
  | Float64.posInf, Float64.posInf => true
  | Float64.posInf, _ => false
  | Float64.num _, Float64.NaN => false
  | Float64.num _, Float64.negInf => false
  | Float64.num _, Float64.posInf => true
  | Float64.num a, Float64.num b => decide (a ≤ b)

/-- The Go comparison `x < y` on float64: false as soon as one side is NaN. -/
def Float64.lt : Float64 → Float64 → Bool
  | Float64.NaN, _ => false
  | Float64.negInf, Float64.NaN => false
  | Float64.negInf, Float64.negInf => false
  | Float64.negInf, _ => true
  | Float64.posInf, _ => false
  | Float64.num _, Float64.NaN => false
  | Float64.num _, Float64.negInf => false
  | Float64.num _, Float64.posInf => true
  | Float64.num a, Float64.num b => decide (a < b)

/-! ## route_calculator_builder.go, with the speed as the float64 it is -/

/-- TravelTimeCalculator as Build fills it in: the speed is the float64 of the builder. -/
structure TravelTimeCalculator64 where
  DistanceCalculator : DistanceCalculator
  Speed : Float64

/-- The strategy that Build installs: ConcurrentNaiveStrategy with a copy of the cost model. -/
structure ConcurrentNaiveStrategy64 where
  travelTimeCalculator : TravelTimeCalculator64

/-- RouteCalculator as Build returns it. -/
structure RouteCalculator64 where
  TravelTimeCalculator : TravelTimeCalculator64
  strategy : ConcurrentNaiveStrategy64

/-- RouteCalculatorBuilder with its two fields as declared: an interface value
that may be nil, and a float64. -/
structure RouteCalculatorBuilder64 where
  distanceCalculator : Option DistanceCalculator
  speed : Float64

/-- The builder with both fields at their zero values. -/
def NewRouteCalculatorBuilder64 : RouteCalculatorBuilder64 := ⟨none, Float64.num 0⟩

/-- SetDistanceCalculator overwrites the distance function only. -/
def RouteCalculatorBuilder64.SetDistanceCalculator (b : RouteCalculatorBuilder64)
    (calculator : Option DistanceCalculator) : RouteCalculatorBuilder64 :=
  { b with distanceCalculator := calculator }

/-- SetSpeed overwrites the speed only. -/
def RouteCalculatorBuilder64.SetSpeed (b : RouteCalculatorBuilder64) (speed : Float64) :
    RouteCalculatorBuilder64 :=
  { b with speed := speed }

/-- Build on the float64 speed: the guard is the comparison `b.speed <= 0`. -/
def RouteCalculatorBuilder64.Build (b : RouteCalculatorBuilder64) :
    Option RouteCalculator64 × Option GoError :=
  if Float64.le b.speed (Float64.num 0) then (none, some GoError.ErrInvalidSpeed)
  else
    match b.distanceCalculator with
    | none => (none, some GoError.ErrNoDistanceCalculatorSet)
    | some dc =>
      let ttc : TravelTimeCalculator64 := ⟨dc, b.speed⟩
      -- Default Strategy
      (some ⟨ttc, ⟨ttc⟩⟩, none)

/-- The builder of the exact model seen as a builder with a float64 speed. -/
def RouteCalculatorBuilder.toFloat (b : RouteCalculatorBuilder) : RouteCalculatorBuilder64 :=
  ⟨b.distanceCalculator, Float64.num b.speed⟩

/-! ## validation.go -/

/-- Order as ValidateOrders reads it: the preparation time is a float64.  Of a
coordinate the validation reads only whether its pointers are nil. -/
structure Order64 where
  ConsumerName : String
  RestaurantName : String
  Consumer : GeoLocation
  Restaurant : GeoLocation
  PrepTime : Float64
  deriving DecidableEq, Repr

/-- An order of the exact model seen as an order with a float64 preparation time. -/
def Order.toFloat (o : Order) : Order64 :=
  ⟨o.ConsumerName, o.RestaurantName, o.Consumer, o.Restaurant, Float64.num o.PrepTime⟩

/-- The loop of ValidateOrders: the first order that fails a check decides the error. -/
def ValidateOrdersLoop : List Order64 → Option GoError
  | [] => none
  | order :: rest =>
    if order.ConsumerName = "" ∨ order.RestaurantName = "" then
      some (GoError.New "orders must have consumer and restaurant names")
    else if order.Restaurant.IsNil || order.Consumer.IsNil then
      some GoError.ErrEmptyLocation
    else if Float64.le order.PrepTime (Float64.num 0) then
      some (GoError.New "preparation time must be positive")
    else ValidateOrdersLoop rest

/-- ValidateOrders: `none` is the nil error. -/
def ValidateOrders (orders : List Order64) : Option GoError :=
  if orders.length = 0 then some (GoError.New "no orders provided")
  else ValidateOrdersLoop orders

/-- An order that passes every check but whose preparation time is NaN. -/
def orderNaN : Order64 :=
  ⟨"Consumer", "Restaurant", ⟨some 1, some 1⟩, ⟨some 0, some 0⟩, Float64.NaN⟩

/-- The candidates one worker submits, following the words of the specification:
the total time and the steps of every candidate sequence that `calculateRouteTime`
returns without error. -/
def feasibleCandidates (s : ConcurrentNaiveStrategy) (orders : List Order)
    (start : GeoLocation) (perms : List (List Nat)) : List (ℚ × Option (List RouteStep)) :=
  perms.filterMap (fun perm =>
    match s.calculateRouteTime perm orders start with
    | Except.ok r => if r.err.isSome then none else some (r.totalTime, r.steps)
    | Except.error _ => none)

/-! # Theorems -/

/-! ## The candidate sequences of the brute-force search -/

theorem generatePermutations_succ_succ (n : Nat) :
    generatePermutations (n + 2) =
      (List.range (n + 2)).flatMap
        (fun i => (generatePermutations (n + 1)).map (fun perm => i :: perm)) := by
  have inner : ∀ (i : Nat) (l acc : List (List Nat)),
      l.foldl (fun result perm => result ++ [i :: perm]) acc
        = acc ++ l.map (fun perm => i :: perm) := by
    intro i l
    induction l with
    | nil => intro acc; simp
    | cons a l ih => intro acc; simp [ih]
  have outer : ∀ (is : List Nat) (acc : List (List Nat)),
      is.foldl (fun result i =>
          (generatePermutations (n + 1)).foldl (fun result perm => result ++ [i :: perm]) result) acc
        = acc ++ is.flatMap
            (fun i => (generatePermutations (n + 1)).map (fun perm => i :: perm)) := by
    intro is
    induction is with
    | nil => intro acc; simp
    | cons a l ih =>
      intro acc
      have h := ih (acc ++ (generatePermutations (n + 1)).map (fun perm => a :: perm))
      simp only [inner] at h
      simp only [List.foldl_cons, List.flatMap_cons, inner, h, List.append_assoc]
  rw [generatePermutations, outer]
  simp

theorem generatePermutations_head {n : Nat} {p : List Nat} (h : p ∈ generatePermutations n) :
    ∃ i rest, p = i :: rest ∧ i < n := by
  match n, h with
  | 1, h =>
    simp [generatePermutations] at h
    exact ⟨0, [], h, by decide⟩
  | 0, h => simp [generatePermutations] at h
  | n + 2, h =>
    rw [generatePermutations_succ_succ] at h
    simp only [List.mem_flatMap, List.mem_map, List.mem_range] at h
    obtain ⟨i, hi, q, _, rfl⟩ := h
    exact ⟨i, q, rfl, hi⟩

/-- C3: `generatePermutations 2` is not the permutation space of the indices 0, 1:
it holds the sequence 0, 0, which is no permutation, and misses 0, 1. -/
theorem generatePermutations_two :
    generatePermutations 2 = [[0, 0], [1, 0]] ∧
      [0, 1] ∉ generatePermutations 2 ∧
      [0, 0] ∈ generatePermutations 2 ∧ ¬ List.Perm [0, 0] (List.range 2) := by
  decide


/-! ## The feasibility ceiling in the brute-force strategy -/

/-- C5: a candidate whose accumulated time passes the ceiling only after the
preparation wait and the leg to the consumer is not abandoned: with every leg
taking 1200 minutes, the single order A is returned without error with a total
of 2401 minutes, above the ceiling of 1440. -/
theorem calculateRouteTime_above_ceiling :
    (ConcurrentNaiveStrategy.mk slowModel).calculateRouteTime [0] [orderA] (sampleLoc 0 0) =
        Except.ok ⟨2401,
          some [⟨"Pick up from Restaurant A", sampleLoc 2 2⟩,
            ⟨"Deliver to Consumer A", sampleLoc 1 1⟩], none⟩ ∧
      (2401 : ℚ) > maxReasonableTravelTime := by
  constructor
  · simp [ConcurrentNaiveStrategy.calculateRouteTime,
      ConcurrentNaiveStrategy.calculateRouteTimeLoop, indexOrder, slowModel, orderA,
      TravelTimeCalculator.Calculate, maxReasonableTravelTime, appendStep]
    norm_num
    rfl
  · norm_num [maxReasonableTravelTime]


theorem interleave_nil {α : Type} (sched : List Nat) (queues : List (List α))
    (h : ∀ q ∈ queues, q = []) : interleave sched queues = [] := by
  induction sched with
  | nil =>
    simp only [interleave, List.flatten_eq_nil_iff]
    exact h
  | cons k sched ih =>
    rw [interleave]
    split
    · next x q hq =>
      have := h _ (List.getElem?_mem hq)
      simp at this
    · exact ih

theorem indexOrder_of_lt {orders : List Order} {i : Nat} (h : i < orders.length) :
    indexOrder orders i = Except.ok (orders[i]) := by
  simp [indexOrder, List.getElem?_eq_getElem h]
  rfl

theorem calculateRouteTime_far (s : ConcurrentNaiveStrategy) (orders : List Order)
    (start : GeoLocation) (i : Nat) (rest : List Nat) (hi : i < orders.length)
    (hfar : ∀ o ∈ orders,
      s.travelTimeCalculator.Calculate start o.Restaurant > maxReasonableTravelTime) :
    s.calculateRouteTime (i :: rest) orders start =
      Except.ok ⟨-1, none, some GoError.ErrRouteImpossible⟩ := by
  have h := hfar _ (List.getElem_mem hi)
  simp only [ConcurrentNaiveStrategy.calculateRouteTime,
    ConcurrentNaiveStrategy.calculateRouteTimeLoop, indexOrder_of_lt hi, zero_add]
  simp only [bind, Except.bind, h, if_true]
  rfl

theorem workerSends_far (s : ConcurrentNaiveStrategy) (orders : List Order)
    (start : GeoLocation)
    (hfar : ∀ o ∈ orders,
      s.travelTimeCalculator.Calculate start o.Restaurant > maxReasonableTravelTime)
    (perms : List (List Nat))
    (hp : ∀ p ∈ perms, ∃ i rest, p = i :: rest ∧ i < orders.length) :
    s.workerSends orders start perms = Except.ok [] := by
  induction perms with
  | nil => rfl
  | cons p perms ih =>
    obtain ⟨i, rest, rfl, hi⟩ := hp _ (List.mem_cons_self _ _)
    have ih2 := ih (fun q hq => hp q (List.mem_cons_of_mem _ hq))
    simp only [ConcurrentNaiveStrategy.workerSends, calculateRouteTime_far s orders start i rest hi hfar,
      ih2, bind, Except.bind]
    rfl

theorem CalculateRoute_far (s : ConcurrentNaiveStrategy) (orders : List Order)
    (start : GeoLocation)
    (hfar : ∀ o ∈ orders,
      s.travelTimeCalculator.Calculate start o.Restaurant > maxReasonableTravelTime)
    (sched : List Nat) :
    s.CalculateRoute sched orders start = Except.ok ⟨MaxFloat64, none, none⟩ := by
  have hw := workerSends_far s orders start hfar (generatePermutations orders.length)
    (fun p hp => generatePermutations_head hp)
  have hi : interleave sched
      (List.replicate numWorkers ([] : List (ℚ × Option (List RouteStep)))) = [] :=
    interleave_nil _ _ (fun q hq => List.eq_of_mem_replicate hq)
  simp only [ConcurrentNaiveStrategy.CalculateRoute, hw, bind, Except.bind, hi]
  rfl

/-! ## The orchestrator -/

/-- C8: on an empty order list ComputeBestRoute fails with the empty-input error,
total 0 and nil steps, whatever the orchestrator (its strategy may be nil, or one
that always panics: it is not called), the schedule, the budget and the start. -/
theorem ComputeBestRoute_empty_orders (rc : RouteCalculator) (env : Env) (start : GeoLocation) :
    rc.ComputeBestRoute env [] start =
      Except.ok ⟨0, none, some (GoError.New "no orders to process")⟩ := by
  rfl

/-- C9, as stated, fails on an empty order list: with an absent start and no
orders the error is the empty-input error, not ErrEmptyStartLocation. -/
theorem ComputeBestRoute_absent_start_empty_orders :
    (RouteCalculator.mk zeroModel none).ComputeBestRoute ⟨[], 0⟩ [] ⟨none, none⟩ =
        Except.ok ⟨0, none, some (GoError.New "no orders to process")⟩ ∧
      GoError.New "no orders to process" ≠ GoError.ErrEmptyStartLocation ∧
      (GeoLocation.mk none none).IsNil = true := by
  refine ⟨rfl, ?_, rfl⟩
  intro h
  cases h

theorem computeBestRoute_of_start_nil (rc : RouteCalculator) (env : Env) (orders : List Order)
    (start : GeoLocation) (hne : orders ≠ []) (hnil : start.IsNil = true) :
    rc.ComputeBestRoute env orders start =
      Except.ok ⟨0, none, some GoError.ErrEmptyStartLocation⟩ := by
  have hlen : orders.length ≠ 0 := by
    simpa [List.length_eq_zero] using hne
  simp only [RouteCalculator.ComputeBestRoute, hlen, hnil, if_false, if_true]
  rfl

theorem computeBestRoute_of_strategy (rc : RouteCalculator) (env : Env) (orders : List Order)
    (start : GeoLocation) (hne : orders ≠ []) (hstart : start.IsNil = false)
    (st : RouteCalculationStrategy) (hst : rc.strategy = some st) :
    rc.ComputeBestRoute env orders start = st.CalculateRoute env orders start := by
  have hlen : orders.length ≠ 0 := by
    simpa [List.length_eq_zero] using hne
  simp only [RouteCalculator.ComputeBestRoute, hlen, hstart, if_false, hst,
    callCalculateRoute, Bool.false_eq_true]

theorem build_of_pos (dc : DistanceCalculator) (speed : ℚ) (h : 0 < speed) :
    ((NewRouteCalculatorBuilder.SetDistanceCalculator (some dc)).SetSpeed speed).Build =
      (some ⟨⟨dc, speed⟩, some (RouteCalculationStrategy.concurrentNaive ⟨⟨dc, speed⟩⟩)⟩,
        none) := by
  simp [RouteCalculatorBuilder.Build, RouteCalculatorBuilder.SetSpeed,
    RouteCalculatorBuilder.SetDistanceCalculator, NewRouteCalculatorBuilder, not_le.mpr h]

/-- C9, amended: on a non-empty order list and an absent start coordinate
ComputeBestRoute fails with ErrEmptyStartLocation, total 0 and nil steps, whatever
the orchestrator and its strategy. -/
theorem ComputeBestRoute_absent_start (rc : RouteCalculator) (env : Env) (orders : List Order)
    (start : GeoLocation) (hne : orders ≠ []) (hnil : start.IsNil = true) :
    rc.ComputeBestRoute env orders start =
      Except.ok ⟨0, none, some GoError.ErrEmptyStartLocation⟩ :=
  computeBestRoute_of_start_nil rc env orders start hne hnil

theorem ComputeBestRoute_absent_start_witness :
    (RouteCalculator.mk zeroModel none).ComputeBestRoute ⟨[], 0⟩ [orderA] ⟨none, some 1⟩ =
      Except.ok ⟨0, none, some GoError.ErrEmptyStartLocation⟩ :=
  ComputeBestRoute_absent_start _ _ [orderA] ⟨none, some 1⟩ (by simp) rfl

theorem build_strategy (b : RouteCalculatorBuilder) (built : RouteCalculator)
    (h : b.Build = (some built, none)) :
    built.strategy =
      some (RouteCalculationStrategy.concurrentNaive ⟨built.TravelTimeCalculator⟩) := by
  unfold RouteCalculatorBuilder.Build at h
  split at h
  · simp at h
  · split at h
    · simp at h
    · simp only [Prod.mk.injEq, Option.some.injEq, and_true] at h
      rw [← h]

/-- C10: on a non-empty order list and a start with latitude and longitude
present, ComputeBestRoute returns exactly what the CalculateRoute of the active
strategy returns; after SetRoutingAlgo the active strategy is the one passed in,
the last one when it is called twice, and the cost model of the orchestrator is
unchanged; on an orchestrator fresh from Build the active strategy is the
brute-force strategy with the cost model of the orchestrator. -/
theorem ComputeBestRoute_delegates (rc : RouteCalculator) (env : Env) (orders : List Order)
    (start : GeoLocation) (hne : orders ≠ []) (hstart : start.IsNil = false) :
    (∀ st, rc.strategy = some st →
        rc.ComputeBestRoute env orders start = st.CalculateRoute env orders start) ∧
      (∀ st : RouteCalculationStrategy,
        (rc.SetRoutingAlgo (some st)).ComputeBestRoute env orders start =
          st.CalculateRoute env orders start) ∧
      (∀ (st0 : Option RouteCalculationStrategy) (st : RouteCalculationStrategy),
        ((rc.SetRoutingAlgo st0).SetRoutingAlgo (some st)).ComputeBestRoute env orders start =
          st.CalculateRoute env orders start) ∧
      (∀ st : Option RouteCalculationStrategy,
        (rc.SetRoutingAlgo st).TravelTimeCalculator = rc.TravelTimeCalculator ∧
          (rc.SetRoutingAlgo st).strategy = st) ∧
      (∀ b : RouteCalculatorBuilder, b.Build = (some rc, none) →
        rc.ComputeBestRoute env orders start =
          (ConcurrentNaiveStrategy.mk rc.TravelTimeCalculator).CalculateRoute env.sched
            orders start) := by
  have key : ∀ (r : RouteCalculator) (st : RouteCalculationStrategy), r.strategy = some st →
      r.ComputeBestRoute env orders start = st.CalculateRoute env orders start :=
    fun r st hst => computeBestRoute_of_strategy r env orders start hne hstart st hst
  refine ⟨key rc, fun st => key _ st rfl, fun _ st => key _ st rfl, fun _ => ⟨rfl, rfl⟩, ?_⟩
  intro b hb
  rw [key rc _ (build_strategy b rc hb)]
  rfl

theorem ComputeBestRoute_delegates_witness :
    (∀ st, (RouteCalculator.mk zeroModel
          (some (RouteCalculationStrategy.dynamicProgramming ⟨zeroModel⟩))).strategy = some st →
        (RouteCalculator.mk zeroModel
          (some (RouteCalculationStrategy.dynamicProgramming ⟨zeroModel⟩))).ComputeBestRoute
            ⟨[], 2⟩ [orderA, orderB] (sampleLoc 0 0) =
          st.CalculateRoute ⟨[], 2⟩ [orderA, orderB] (sampleLoc 0 0)) ∧
      (∀ st : RouteCalculationStrategy,
        ((RouteCalculator.mk zeroModel
          (some (RouteCalculationStrategy.dynamicProgramming ⟨zeroModel⟩))).SetRoutingAlgo
            (some st)).ComputeBestRoute ⟨[], 2⟩ [orderA, orderB] (sampleLoc 0 0) =
          st.CalculateRoute ⟨[], 2⟩ [orderA, orderB] (sampleLoc 0 0)) ∧
      (∀ (st0 : Option RouteCalculationStrategy) (st : RouteCalculationStrategy),
        (((RouteCalculator.mk zeroModel
          (some (RouteCalculationStrategy.dynamicProgramming ⟨zeroModel⟩))).SetRoutingAlgo
            st0).SetRoutingAlgo (some st)).ComputeBestRoute ⟨[], 2⟩ [orderA, orderB]
              (sampleLoc 0 0) =
          st.CalculateRoute ⟨[], 2⟩ [orderA, orderB] (sampleLoc 0 0)) ∧
      (∀ st : Option RouteCalculationStrategy,
        ((RouteCalculator.mk zeroModel
          (some (RouteCalculationStrategy.dynamicProgramming ⟨zeroModel⟩))).SetRoutingAlgo
            st).TravelTimeCalculator =
            (RouteCalculator.mk zeroModel
              (some (RouteCalculationStrategy.dynamicProgramming
                ⟨zeroModel⟩))).TravelTimeCalculator ∧
          ((RouteCalculator.mk zeroModel
            (some (RouteCalculationStrategy.dynamicProgramming ⟨zeroModel⟩))).SetRoutingAlgo
              st).strategy = st) ∧
      (∀ b : RouteCalculatorBuilder,
        b.Build = (some (RouteCalculator.mk zeroModel
          (some (RouteCalculationStrategy.dynamicProgramming ⟨zeroModel⟩))), none) →
        (RouteCalculator.mk zeroModel
          (some (RouteCalculationStrategy.dynamicProgramming ⟨zeroModel⟩))).ComputeBestRoute
            ⟨[], 2⟩ [orderA, orderB] (sampleLoc 0 0) =
          (ConcurrentNaiveStrategy.mk (RouteCalculator.mk zeroModel
            (some (RouteCalculationStrategy.dynamicProgramming
              ⟨zeroModel⟩))).TravelTimeCalculator).CalculateRoute
            (Env.mk [] 2).sched [orderA, orderB] (sampleLoc 0 0)) :=
  ComputeBestRoute_delegates
    (RouteCalculator.mk zeroModel (some (RouteCalculationStrategy.dynamicProgramming ⟨zeroModel⟩)))
    ⟨[], 2⟩ [orderA, orderB] (sampleLoc 0 0) (by simp) rfl

/-! ## No feasible route -/

/-- C7, as stated, fails for an absent start: the orchestrator built with the
constant distance 1000000 and the speed 10 answers a non-empty order list and an
absent start with the error ErrEmptyStartLocation, not with a nil error. -/
theorem ComputeBestRoute_no_route_absent_start :
    ∃ rc : RouteCalculator,
      ((NewRouteCalculatorBuilder.SetDistanceCalculator (some (fun _ _ => 1000000))).SetSpeed
        10).Build = (some rc, none) ∧
      rc.ComputeBestRoute ⟨[], 0⟩ [orderA] ⟨none, none⟩ =
        Except.ok ⟨0, none, some GoError.ErrEmptyStartLocation⟩ :=
  ⟨_, build_of_pos _ 10 (by norm_num),
    computeBestRoute_of_start_nil _ _ [orderA] ⟨none, none⟩ (by simp) rfl⟩

/-- C7, amended: when the leg from the start to the restaurant of every order of
a non-empty list takes more than the ceiling of 1440 minutes (as with a constant
distance d and a speed s > 0 with (d / s) * 60 > 1440), CalculateRoute of the
brute-force strategy returns MaxFloat64 with nil steps and a nil error under every
schedule, and so does ComputeBestRoute on the orchestrator that Build yields for
this cost model, with its default strategy, when the start coordinate is present. -/
theorem CalculateRoute_no_route (ttc : TravelTimeCalculator) (orders : List Order)
    (start : GeoLocation) (hne : orders ≠ [])
    (hfar : ∀ o ∈ orders, ttc.Calculate start o.Restaurant > maxReasonableTravelTime) :
    (∀ sched, (ConcurrentNaiveStrategy.mk ttc).CalculateRoute sched orders start =
        Except.ok ⟨MaxFloat64, none, none⟩) ∧
      (0 < ttc.Speed → start.IsNil = false →
        ∃ rc : RouteCalculator,
          ((NewRouteCalculatorBuilder.SetDistanceCalculator
            (some ttc.DistanceCalculator)).SetSpeed ttc.Speed).Build = (some rc, none) ∧
          ∀ env, rc.ComputeBestRoute env orders start =
            Except.ok ⟨MaxFloat64, none, none⟩) := by
  refine ⟨fun sched => CalculateRoute_far ⟨ttc⟩ orders start hfar sched, ?_⟩
  intro hs hstart
  refine ⟨_, build_of_pos _ _ hs, fun env => ?_⟩
  rw [computeBestRoute_of_strategy _ env orders start hne hstart _ rfl]
  exact CalculateRoute_far ⟨ttc⟩ orders start hfar env.sched

theorem CalculateRoute_no_route_witness :
    (∀ sched, (ConcurrentNaiveStrategy.mk mockModel).CalculateRoute sched [orderA]
        (sampleLoc 0 0) = Except.ok ⟨MaxFloat64, none, none⟩) ∧
      (0 < mockModel.Speed → (sampleLoc 0 0).IsNil = false →
        ∃ rc : RouteCalculator,
          ((NewRouteCalculatorBuilder.SetDistanceCalculator
            (some mockModel.DistanceCalculator)).SetSpeed mockModel.Speed).Build =
              (some rc, none) ∧
          ∀ env, rc.ComputeBestRoute env [orderA] (sampleLoc 0 0) =
            Except.ok ⟨MaxFloat64, none, none⟩) :=
  CalculateRoute_no_route mockModel [orderA] (sampleLoc 0 0) (by simp)
    (by
      intro o _
      norm_num [TravelTimeCalculator.Calculate, mockModel, maxReasonableTravelTime])


/-! ## The channel and the reduction of the brute-force strategy -/

theorem flatten_set_perm {α : Type} (queues : List (List α)) (j : Nat) (x : α) (q : List α)
    (h : queues[j]? = some (x :: q)) :
    (x :: (queues.set j q).flatten).Perm queues.flatten := by
  induction queues generalizing j with
  | nil => simp at h
  | cons a queues ih =>
    cases j with
    | zero =>
      simp at h
      subst h
      simp
    | succ j =>
      simp at h
      have := ih j h
      simp only [List.set_cons_succ, List.flatten_cons]
      exact (List.perm_middle.symm.trans (List.Perm.append_left a this))

theorem interleave_perm {α : Type} (sched : List Nat) (queues : List (List α)) :
    (interleave sched queues).Perm queues.flatten := by
  induction sched generalizing queues with
  | nil => simp [interleave]
  | cons k sched ih =>
    rw [interleave]
    split
    · next x q hq =>
      exact ((ih _).cons x).trans (flatten_set_perm queues _ x q hq)
    · exact ih queues

theorem mem_interleave_replicate {α : Type} (sched : List Nat) (sends : List α) (x : α) :
    x ∈ interleave sched (List.replicate numWorkers sends) ↔ x ∈ sends := by
  rw [(interleave_perm sched _).mem_iff]
  simp [numWorkers, List.mem_flatten]

theorem foldl_best_spec (l : List (ℚ × Option (List RouteStep)))
    (init : ℚ × Option (List RouteStep)) :
    (l.foldl (fun best result => if result.1 < best.1 then (result.1, result.2) else best) init
        = init ∨
      (l.foldl (fun best result => if result.1 < best.1 then (result.1, result.2) else best) init
          ∈ l ∧
        (l.foldl (fun best result => if result.1 < best.1 then (result.1, result.2) else best)
          init).1 < init.1)) ∧
    (l.foldl (fun best result => if result.1 < best.1 then (result.1, result.2) else best)
      init).1 ≤ init.1 ∧
    ∀ x ∈ l,
      (l.foldl (fun best result => if result.1 < best.1 then (result.1, result.2) else best)
        init).1 ≤ x.1 := by
  induction l generalizing init with
  | nil => simp
  | cons a l ih =>
    simp only [List.foldl_cons]
    by_cases h : a.1 < init.1
    · simp only [h, if_true]
      obtain ⟨h1, h2, h3⟩ := ih (a.1, a.2)
      refine ⟨?_, le_trans h2 (le_of_lt h), ?_⟩
      · rcases h1 with h1 | ⟨h1, h1b⟩
        · right
          rw [h1]
          exact ⟨List.mem_cons_self _ _, h⟩
        · right
          exact ⟨List.mem_cons_of_mem _ h1, lt_trans h1b h⟩
      · intro x hx
        rcases List.mem_cons.mp hx with rfl | hx
        · exact h2
        · exact h3 x hx
    · simp only [h, if_false]
      obtain ⟨h1, h2, h3⟩ := ih init
      refine ⟨?_, h2, ?_⟩
      · rcases h1 with h1 | ⟨h1, h1b⟩
        · left; exact h1
        · right; exact ⟨List.mem_cons_of_mem _ h1, h1b⟩
      · intro x hx
        rcases List.mem_cons.mp hx with rfl | hx
        · exact le_trans h2 (not_lt.mp h)
        · exact h3 x hx

theorem reduceBest_spec (l : List (ℚ × Option (List RouteStep))) :
    (reduceBest l = (MaxFloat64, none) ∨ (reduceBest l ∈ l ∧ (reduceBest l).1 < MaxFloat64)) ∧
      (reduceBest l).1 ≤ MaxFloat64 ∧ ∀ x ∈ l, (reduceBest l).1 ≤ x.1 :=
  foldl_best_spec l (MaxFloat64, none)

theorem lt_MaxFloat64 {x : ℚ} (h : x ≤ 2 ^ 64) : x < MaxFloat64 := by
  refine lt_of_le_of_lt h ?_
  unfold MaxFloat64
  norm_num


/-! ## The brute-force strategy on two sample orders -/

theorem naive_sample_sends :
    (ConcurrentNaiveStrategy.mk zeroModel).workerSends [orderA, orderB] (sampleLoc 0 0)
        (generatePermutations 2) =
      Except.ok [(2, some [⟨"Pick up from Restaurant A", sampleLoc 2 2⟩,
            ⟨"Deliver to Consumer A", sampleLoc 1 1⟩, ⟨"Pick up from Restaurant A", sampleLoc 2 2⟩,
            ⟨"Deliver to Consumer A", sampleLoc 1 1⟩]),
        (101, some [⟨"Pick up from Restaurant B", sampleLoc 4 4⟩,
            ⟨"Deliver to Consumer B", sampleLoc 3 3⟩, ⟨"Pick up from Restaurant A", sampleLoc 2 2⟩,
            ⟨"Deliver to Consumer A", sampleLoc 1 1⟩])] := by
  simp [generatePermutations, ConcurrentNaiveStrategy.workerSends,
    ConcurrentNaiveStrategy.calculateRouteTime, ConcurrentNaiveStrategy.calculateRouteTimeLoop,
    indexOrder, zeroModel, orderA, orderB, TravelTimeCalculator.Calculate,
    maxReasonableTravelTime, appendStep, List.range, List.range.loop]
  norm_num
  rfl

theorem naive_sample (sched : List Nat) :
    (ConcurrentNaiveStrategy.mk zeroModel).CalculateRoute sched [orderA, orderB] (sampleLoc 0 0) =
      Except.ok ⟨2, some [⟨"Pick up from Restaurant A", sampleLoc 2 2⟩,
            ⟨"Deliver to Consumer A", sampleLoc 1 1⟩, ⟨"Pick up from Restaurant A", sampleLoc 2 2⟩,
            ⟨"Deliver to Consumer A", sampleLoc 1 1⟩], none⟩ := by
  have hs := naive_sample_sends
  simp only [List.length_cons, List.length_nil, Nat.reduceAdd] at hs ⊢
  simp only [ConcurrentNaiveStrategy.CalculateRoute, List.length_cons, List.length_nil,
    Nat.reduceAdd, hs, bind, Except.bind]
  obtain ⟨h1, -, h3⟩ := reduceBest_spec (interleave sched (List.replicate numWorkers
    [((2 : ℚ), some [(⟨"Pick up from Restaurant A", sampleLoc 2 2⟩ : RouteStep),
            ⟨"Deliver to Consumer A", sampleLoc 1 1⟩, ⟨"Pick up from Restaurant A", sampleLoc 2 2⟩,
            ⟨"Deliver to Consumer A", sampleLoc 1 1⟩]),
        (101, some [⟨"Pick up from Restaurant B", sampleLoc 4 4⟩,
            ⟨"Deliver to Consumer B", sampleLoc 3 3⟩, ⟨"Pick up from Restaurant A", sampleLoc 2 2⟩,
            ⟨"Deliver to Consumer A", sampleLoc 1 1⟩])]))
  have h2 := h3 _ ((mem_interleave_replicate sched _ _).mpr (List.mem_cons_self _ _))
  simp only at h2
  rcases h1 with h1 | ⟨h1, -⟩
  · rw [h1] at h2
    exact absurd (lt_MaxFloat64 (by norm_num : (2 : ℚ) ≤ 2 ^ 64)) (not_lt.mpr h2)
  · rw [mem_interleave_replicate] at h1
    simp only [List.mem_cons, List.mem_singleton, List.mem_nil_iff, or_false] at h1
    rcases h1 with h1 | h1
    · rw [h1]; rfl
    · rw [h1] at h2
      norm_num at h2


/-- C4: on the orders A and B with legs that take no time, CalculateRoute of the
brute-force strategy returns, under every schedule, steps that pick up and deliver
order A twice and never visit order B: they are the expansion of no permutation of
the indices 0, 1. -/
theorem CalculateRoute_visits_twice (sched : List Nat) :
    (ConcurrentNaiveStrategy.mk zeroModel).CalculateRoute sched [orderA, orderB] (sampleLoc 0 0) =
        Except.ok ⟨2, some [⟨"Pick up from Restaurant A", sampleLoc 2 2⟩,
            ⟨"Deliver to Consumer A", sampleLoc 1 1⟩, ⟨"Pick up from Restaurant A", sampleLoc 2 2⟩,
            ⟨"Deliver to Consumer A", sampleLoc 1 1⟩], none⟩ ∧
      ∀ p : List Nat, p.Perm (List.range 2) →
        expandRoute [orderA, orderB] p ≠
          [⟨"Pick up from Restaurant A", sampleLoc 2 2⟩,
            ⟨"Deliver to Consumer A", sampleLoc 1 1⟩, ⟨"Pick up from Restaurant A", sampleLoc 2 2⟩,
            ⟨"Deliver to Consumer A", sampleLoc 1 1⟩] := by
  refine ⟨naive_sample sched, ?_⟩
  intro p hp heq
  have h1 : 1 ∈ p := hp.mem_iff.mpr (by decide)
  have hmem : (⟨"Pick up from Restaurant B", sampleLoc 4 4⟩ : RouteStep) ∈
      expandRoute [orderA, orderB] p := by
    unfold expandRoute
    rw [List.mem_flatMap]
    exact ⟨1, h1, by simp [orderB]⟩
  rw [heq] at hmem
  revert hmem
  decide


/-! ## Bit masks -/

theorem shl1_of_lt {i : Nat} (h : i < 64) : shl1 i = 2 ^ i := by
  simp [shl1, h]

theorem fullMask_of_le {n : Nat} (h : n ≤ 64) : fullMask n = 2 ^ n - 1 := by
  rcases Nat.lt_or_ge n 64 with h1 | h1
  · have h2 : 2 ^ n < 2 ^ 64 := Nat.pow_lt_pow_right (by decide) h1
    have h3 : 0 < 2 ^ n := Nat.pow_pos (by decide)
    simp only [fullMask, shl1, h1, if_true]
    omega
  · have : n = 64 := le_antisymm h h1
    subst this
    decide

theorem and_two_pow_eq_zero (x i : Nat) : x &&& 2 ^ i = 0 ↔ x.testBit i = false := by
  constructor
  · intro h
    have := congrArg (fun y => Nat.testBit y i) h
    simpa [Nat.testBit_two_pow_self] using this
  · intro h
    apply Nat.eq_of_testBit_eq
    intro j
    rw [Nat.testBit_and, Nat.testBit_two_pow, Nat.zero_testBit]
    by_cases hij : i = j
    · subst hij; simp [h]
    · simp [hij]

theorem mem_unvisited {n v i : Nat} (hn : n ≤ 64) :
    i ∈ unvisited n v ↔ i < n ∧ v.testBit i = false := by
  unfold unvisited
  rw [List.mem_filter, List.mem_range]
  constructor
  · rintro ⟨h1, h2⟩
    refine ⟨h1, ?_⟩
    rw [shl1_of_lt (lt_of_lt_of_le h1 hn)] at h2
    exact (and_two_pow_eq_zero v i).mp (by simpa using h2)
  · rintro ⟨h1, h2⟩
    refine ⟨h1, ?_⟩
    rw [shl1_of_lt (lt_of_lt_of_le h1 hn)]
    simpa using (and_two_pow_eq_zero v i).mpr h2

theorem unvisited_nodup (n v : Nat) : (unvisited n v).Nodup :=
  (List.nodup_range n).filter _

theorem unvisited_lt {n v i : Nat} (h : i ∈ unvisited n v) : i < n := by
  unfold unvisited at h
  exact List.mem_range.mp (List.mem_filter.mp h).1

theorem unvisited_or {n v i : Nat} (hn : n ≤ 64) (hi : i < n) :
    unvisited n (v ||| shl1 i) = (unvisited n v).erase i := by
  rw [(unvisited_nodup n v).erase_eq_filter]
  unfold unvisited
  rw [List.filter_filter]
  apply List.filter_congr
  intro j hj
  have hj' : j < n := List.mem_range.mp hj
  rw [shl1_of_lt (lt_of_lt_of_le hi hn), shl1_of_lt (lt_of_lt_of_le hj' hn)]
  have h1 := and_two_pow_eq_zero (v ||| 2 ^ i) j
  have h2 := and_two_pow_eq_zero v j
  rw [Nat.testBit_or, Nat.testBit_two_pow] at h1
  by_cases hij : i = j
  · subst hij
    simp [h1]
  · have hji : j ≠ i := fun h => hij h.symm
    simp [h1, h2, hij, hji]

theorem unvisited_zero (n : Nat) : unvisited n 0 = List.range n := by
  unfold unvisited
  simp

theorem unvisited_shl1 {n i : Nat} (hn : n ≤ 64) (hi : i < n) :
    unvisited n (shl1 i) = (List.range n).erase i := by
  have := unvisited_or (v := 0) hn hi
  rwa [Nat.zero_or, unvisited_zero] at this

theorem unvisited_eq_nil_iff {n v : Nat} (hn : n ≤ 64) (hv : v < 2 ^ n) :
    unvisited n v = [] ↔ v = fullMask n := by
  rw [fullMask_of_le hn]
  constructor
  · intro h
    apply Nat.eq_of_testBit_eq
    intro j
    rw [Nat.testBit_two_pow_sub_one]
    by_cases hj : j < n
    · have : j ∉ unvisited n v := by rw [h]; exact List.not_mem_nil _
      rw [mem_unvisited hn] at this
      simp only [hj, true_and, Bool.not_eq_false] at this
      simp [this, hj]
    · have h1 : 2 ^ n ≤ 2 ^ j := Nat.pow_le_pow_right (by decide) (not_lt.mp hj)
      rw [Nat.testBit_lt_two_pow (lt_of_lt_of_le hv h1)]
      simp [hj]
  · intro h
    rw [List.eq_nil_iff_forall_not_mem]
    intro j hj
    rw [mem_unvisited hn] at hj
    rw [h, Nat.testBit_two_pow_sub_one] at hj
    simp [hj.1] at hj

theorem shl1_lt {n i : Nat} (hn : n ≤ 64) (hi : i < n) : shl1 i < 2 ^ n := by
  rw [shl1_of_lt (lt_of_lt_of_le hi hn)]
  exact Nat.pow_lt_pow_right (by decide) hi

theorem or_shl1_lt {n v i : Nat} (hn : n ≤ 64) (hv : v < 2 ^ n) (hi : i < n) :
    v ||| shl1 i < 2 ^ n :=
  Nat.or_lt_two_pow hv (shl1_lt hn hi)


/-! ## The recurrence on lists and the cost of routes -/

theorem getElem?_orderAt {orders : List Order} {i : Nat} (h : i < orders.length) :
    orders[i]? = some (orderAt orders i) := by
  simp [orderAt, List.getD, List.getElem?_eq_getElem h]

theorem indexOrder_orderAt {orders : List Order} {i : Nat} (h : i < orders.length) :
    indexOrder orders i = Except.ok (orderAt orders i) := by
  simp only [indexOrder, getElem?_orderAt h]
  rfl

theorem routeCost_cons (ttc : TravelTimeCalculator) {orders : List Order} (src : GeoLocation)
    {i : Nat} (rest : List Nat) (h : i < orders.length) :
    routeCost ttc orders src (i :: rest) =
      stepCost ttc orders src i + routeCost ttc orders (orderAt orders i).Consumer rest := by
  simp only [routeCost, getElem?_orderAt h, stepCost]

theorem foldl_min_le_init {α : Type} (f : α → ℚ) (l : List α) (init : ℚ) :
    l.foldl (fun res i => min res (f i)) init ≤ init := by
  induction l generalizing init with
  | nil => simp
  | cons a l ih => exact le_trans (ih _) (min_le_left _ _)

theorem foldl_min_le_mem {α : Type} (f : α → ℚ) (l : List α) (init : ℚ) {i : α} (h : i ∈ l) :
    l.foldl (fun res i => min res (f i)) init ≤ f i := by
  induction l generalizing init with
  | nil => simp at h
  | cons a l ih =>
    rcases List.mem_cons.mp h with rfl | h
    · exact le_trans (foldl_min_le_init f l _) (min_le_right _ _)
    · exact ih _ h

theorem foldl_min_eq {α : Type} (f : α → ℚ) (l : List α) (init : ℚ) :
    l.foldl (fun res i => min res (f i)) init = init ∨
      ∃ i ∈ l, l.foldl (fun res i => min res (f i)) init = f i := by
  induction l generalizing init with
  | nil => left; rfl
  | cons a l ih =>
    rcases ih (min init (f a)) with h | ⟨i, hi, h⟩
    · rcases min_choice init (f a) with h2 | h2
      · left
        rw [List.foldl_cons, h, h2]
      · right
        exact ⟨a, List.mem_cons_self _ _, by rw [List.foldl_cons, h, h2]⟩
    · right
      exact ⟨i, List.mem_cons_of_mem _ hi, h⟩

theorem optRest_le (ttc : TravelTimeCalculator) (orders : List Order) :
    ∀ (k last : Nat) (rest q : List Nat), rest.length = k → (∀ i ∈ rest, i < orders.length) →
      q.Perm rest →
      optRest ttc orders k last rest ≤ routeCost ttc orders (orderAt orders last).Consumer q := by
  intro k
  induction k with
  | zero =>
    intro last rest q hlen _ hq
    have : rest = [] := List.length_eq_zero.mp hlen
    subst this
    have : q = [] := hq.eq_nil
    subst this
    simp [optRest, routeCost]
  | succ k ih =>
    intro last rest q hlen hlt hq
    cases q with
    | nil =>
      have := hq.length_eq
      simp [hlen] at this
    | cons i q =>
      have hi : i ∈ rest := hq.subset (List.mem_cons_self _ _)
      have hq2 : q.Perm (rest.erase i) := List.cons_perm_iff_perm_erase.mp hq |>.2
      have hlen2 : (rest.erase i).length = k := by
        rw [List.length_erase_of_mem hi, hlen]; rfl
      have hlt2 : ∀ j ∈ rest.erase i, j < orders.length :=
        fun j hj => hlt j (List.mem_of_mem_erase hj)
      rw [routeCost_cons ttc _ q (hlt i hi), optRest]
      refine le_trans (foldl_min_le_mem _ rest MaxFloat64 hi) ?_
      have := ih i (rest.erase i) q hlen2 hlt2 hq2
      linarith

theorem optRest_attained (ttc : TravelTimeCalculator) (orders : List Order)
    (hb : TailsBelowSentinel ttc orders) :
    ∀ (k last : Nat) (rest : List Nat), rest.length = k → rest.Nodup →
      (∀ i ∈ rest, i < orders.length) → last < orders.length → last ∉ rest →
      ∃ q : List Nat, q.Perm rest ∧
        optRest ttc orders k last rest = routeCost ttc orders (orderAt orders last).Consumer q := by
  intro k
  induction k with
  | zero =>
    intro last rest hlen _ _ _ _
    have : rest = [] := List.length_eq_zero.mp hlen
    subst this
    exact ⟨[], List.Perm.refl _, by simp [optRest, routeCost]⟩
  | succ k ih =>
    intro last rest hlen hnd hlt hlast hnot
    have cand : ∀ i ∈ rest, ∃ q : List Nat, (i :: q).Perm rest ∧
        optRest ttc orders k i (rest.erase i) +
            stepCost ttc orders (orderAt orders last).Consumer i =
          routeCost ttc orders (orderAt orders last).Consumer (i :: q) := by
      intro i hi
      have hlen2 : (rest.erase i).length = k := by
        rw [List.length_erase_of_mem hi, hlen]; rfl
      obtain ⟨q, hq, he⟩ := ih i (rest.erase i) hlen2 (hnd.erase i)
        (fun j hj => hlt j (List.mem_of_mem_erase hj)) (hlt i hi)
        (fun h => (List.Nodup.mem_erase_iff hnd).mp h |>.1 rfl)
      refine ⟨q, (List.Perm.cons i hq).trans (List.perm_cons_erase hi).symm, ?_⟩
      rw [routeCost_cons ttc _ q (hlt i hi), he]
      ring
    rw [optRest]
    rcases foldl_min_eq (fun i => optRest ttc orders k i (rest.erase i) +
        stepCost ttc orders (orderAt orders last).Consumer i) rest MaxFloat64 with h | ⟨i, hi, h⟩
    · exfalso
      obtain ⟨i, hi⟩ : ∃ i, i ∈ rest :=
        List.exists_mem_of_length_pos (by rw [hlen]; exact Nat.succ_pos k)
      obtain ⟨q, hq, he⟩ := cand i hi
      have h1 := foldl_min_le_mem (fun i => optRest ttc orders k i (rest.erase i) +
        stepCost ttc orders (orderAt orders last).Consumer i) rest MaxFloat64 hi
      rw [h] at h1
      simp only [he] at h1
      have h2 := hb last (i :: q) hlast (hq.nodup_iff.mpr hnd)
        (fun j hj => hlt j (hq.subset hj)) (fun hm => hnot (hq.subset hm))
      exact absurd h2 (not_lt.mpr h1)
    · obtain ⟨q, hq, he⟩ := cand i hi
      exact ⟨i :: q, hq, h.trans he⟩


/-! ## The memoised recursion computes the recurrence -/

theorem stateValue_or (ttc : TravelTimeCalculator) (orders : List Order) {v i : Nat}
    (hn : orders.length ≤ 64) (hi : i ∈ unvisited orders.length v) :
    stateValue ttc orders (v ||| shl1 i) i =
      optRest ttc orders ((unvisited orders.length v).length - 1) i
        ((unvisited orders.length v).erase i) := by
  unfold stateValue
  rw [unvisited_or hn (unvisited_lt hi), List.length_erase_of_mem hi]

theorem stateValue_full (ttc : TravelTimeCalculator) (orders : List Order) {v : Nat} (l : Nat)
    (h : unvisited orders.length v = []) : stateValue ttc orders v l = 0 := by
  unfold stateValue
  rw [h]
  rfl

theorem stateValue_step (ttc : TravelTimeCalculator) (orders : List Order) {v : Nat} (l : Nat)
    (hn : orders.length ≤ 64) (h : unvisited orders.length v ≠ []) :
    stateValue ttc orders v l =
      (unvisited orders.length v).foldl
        (fun res i => min res (stateValue ttc orders (v ||| shl1 i) i +
          stepCost ttc orders (orderAt orders l).Consumer i))
        MaxFloat64 := by
  have hpos : 0 < (unvisited orders.length v).length := List.length_pos.mpr h
  obtain ⟨k, hk⟩ : ∃ k, (unvisited orders.length v).length = k + 1 :=
    ⟨(unvisited orders.length v).length - 1, by omega⟩
  conv_lhs => unfold stateValue
  rw [hk, optRest]
  apply List.foldl_ext
  intro res i hi
  rw [stateValue_or ttc orders hn hi, hk]
  rfl

theorem memoOK_nil (ttc : TravelTimeCalculator) (orders : List Order) : MemoOK ttc orders [] := by
  intro v l x h
  simp at h

theorem memoOK_cons (ttc : TravelTimeCalculator) (orders : List Order) {memo : Memo} (v l : Nat)
    (h : MemoOK ttc orders memo) :
    MemoOK ttc orders (((v, l), stateValue ttc orders v l) :: memo) := by
  intro v' l' x hx
  rw [List.lookup_cons] at hx
  by_cases hk : ((v', l') == (v, l)) = true
  · rw [hk] at hx
    simp only [Option.some.injEq] at hx
    have : (v', l') = (v, l) := by simpa using hk
    cases this
    exact hx.symm
  · simp only [Bool.not_eq_true] at hk
    rw [hk] at hx
    exact h v' l' x hx

theorem dpLoop_spec (s : DynamicProgrammingStrategy) (orders : List Order)
    (hn : orders.length ≤ 64) (fuel v l : Nat) (hv : v < 2 ^ orders.length)
    (hl : l < orders.length) (hfuel : (unvisited orders.length v).length ≤ fuel)
    (ih : ∀ (memo : Memo) (v2 l2 : Nat), v2 < 2 ^ orders.length → l2 < orders.length →
      MemoOK s.travelTimeCalculator orders memo → (unvisited orders.length v2).length < fuel →
      ∃ memo2, s.dp orders fuel memo v2 l2 =
          Except.ok (stateValue s.travelTimeCalculator orders v2 l2, memo2) ∧
        MemoOK s.travelTimeCalculator orders memo2) :
    ∀ (is : List Nat) (acc : ℚ × Memo), (∀ i ∈ is, i < orders.length) →
      MemoOK s.travelTimeCalculator orders acc.2 →
      ∃ memo2, is.foldlM (s.dpLoopBody orders (s.dp orders fuel) v l) acc =
          Except.ok ((is.filter (fun i => v &&& shl1 i = 0)).foldl
            (fun res i => min res (stateValue s.travelTimeCalculator orders (v ||| shl1 i) i +
              stepCost s.travelTimeCalculator orders (orderAt orders l).Consumer i)) acc.1, memo2) ∧
        MemoOK s.travelTimeCalculator orders memo2 := by
  intro is
  induction is with
  | nil =>
    intro acc _ hm
    exact ⟨acc.2, rfl, hm⟩
  | cons i is ihl =>
    intro acc hlt hm
    have hi : i < orders.length := hlt i (List.mem_cons_self _ _)
    have hlt2 : ∀ j ∈ is, j < orders.length := fun j hj => hlt j (List.mem_cons_of_mem _ hj)
    by_cases hvis : v &&& shl1 i = 0
    · have himem : i ∈ unvisited orders.length v := by
        unfold unvisited
        exact List.mem_filter.mpr ⟨List.mem_range.mpr hi, by simpa using hvis⟩
      have hlen : (unvisited orders.length (v ||| shl1 i)).length < fuel := by
        rw [unvisited_or hn hi, List.length_erase_of_mem himem]
        have := List.length_pos_of_mem himem
        omega
      obtain ⟨memo1, h1, hm1⟩ := ih acc.2 (v ||| shl1 i) i (or_shl1_lt hn hv hi) hi hm hlen
      obtain ⟨memo2, h2, hm2⟩ := ihl
        (min acc.1 (stateValue s.travelTimeCalculator orders (v ||| shl1 i) i +
          stepCost s.travelTimeCalculator orders (orderAt orders l).Consumer i), memo1) hlt2 hm1
      refine ⟨memo2, ?_, hm2⟩
      rw [List.foldlM_cons]
      simp only [DynamicProgrammingStrategy.dpLoopBody, hvis, if_true, h1, indexOrder_orderAt hl,
        indexOrder_orderAt hi, bind, Except.bind, pure, Except.pure]
      rw [List.filter_cons_of_pos (by simpa using hvis), List.foldl_cons]
      exact h2
    · obtain ⟨memo2, h2, hm2⟩ := ihl acc hlt2 hm
      refine ⟨memo2, ?_, hm2⟩
      rw [List.foldlM_cons]
      simp only [DynamicProgrammingStrategy.dpLoopBody, hvis, if_false, bind, Except.bind, pure,
        Except.pure]
      rw [List.filter_cons_of_neg (by simpa using hvis)]
      exact h2

theorem dp_spec (s : DynamicProgrammingStrategy) (orders : List Order)
    (hn : orders.length ≤ 64) :
    ∀ (fuel : Nat) (memo : Memo) (v l : Nat), v < 2 ^ orders.length → l < orders.length →
      MemoOK s.travelTimeCalculator orders memo → (unvisited orders.length v).length < fuel →
      ∃ memo2, s.dp orders fuel memo v l =
          Except.ok (stateValue s.travelTimeCalculator orders v l, memo2) ∧
        MemoOK s.travelTimeCalculator orders memo2 := by
  intro fuel
  induction fuel with
  | zero =>
    intro memo v l _ _ _ h
    exact absurd h (Nat.not_lt_zero _)
  | succ fuel ih =>
    intro memo v l hv hl hm hfuel
    rw [DynamicProgrammingStrategy.dp]
    by_cases hfull : v = fullMask orders.length
    · rw [if_pos hfull]
      refine ⟨memo, ?_, hm⟩
      rw [stateValue_full _ _ l ((unvisited_eq_nil_iff hn hv).mpr hfull)]
      rfl
    · rw [if_neg hfull]
      cases hlook : memo.lookup (v, l) with
      | some val =>
        refine ⟨memo, ?_, hm⟩
        rw [hm v l val hlook]
        rfl
      | none =>
        obtain ⟨memo2, h2, hm2⟩ := dpLoop_spec s orders hn fuel v l hv hl
          (Nat.lt_succ_iff.mp hfuel) ih (List.range orders.length) (MaxFloat64, memo)
          (fun i hi => List.mem_range.mp hi) hm
        have hne : unvisited orders.length v ≠ [] :=
          fun h => hfull ((unvisited_eq_nil_iff hn hv).mp h)
        have hval := stateValue_step s.travelTimeCalculator orders l hn hne
        unfold unvisited at hval
        rw [← hval] at h2
        refine ⟨_, ?_, memoOK_cons s.travelTimeCalculator orders v l hm2⟩
        simp only [h2, bind, Except.bind, pure, Except.pure]


/-! ## The selection scans -/

theorem pickBest_spec (cands : List (Nat × ℚ)) (init : Option Nat × ℚ) :
    (pickBest cands init = init ∨
      ∃ c ∈ cands, pickBest cands init = (some c.1, c.2) ∧ c.2 < init.2) ∧
    (pickBest cands init).2 ≤ init.2 ∧ ∀ c ∈ cands, (pickBest cands init).2 ≤ c.2 := by
  induction cands generalizing init with
  | nil => simp [pickBest]
  | cons a l ih =>
    have hstep : pickBest (a :: l) init =
        pickBest l (if a.2 < init.2 then (some a.1, a.2) else init) := rfl
    rw [hstep]
    by_cases h : a.2 < init.2
    · simp only [h, if_true]
      obtain ⟨h1, h2, h3⟩ := ih (some a.1, a.2)
      refine ⟨?_, le_trans h2 (le_of_lt h), ?_⟩
      · right
        rcases h1 with h1 | ⟨c, hc, h1, h1b⟩
        · exact ⟨a, List.mem_cons_self _ _, h1, h⟩
        · exact ⟨c, List.mem_cons_of_mem _ hc, h1, lt_trans h1b h⟩
      · intro x hx
        rcases List.mem_cons.mp hx with rfl | hx
        · exact h2
        · exact h3 x hx
    · simp only [h, if_false]
      obtain ⟨h1, h2, h3⟩ := ih init
      refine ⟨?_, h2, ?_⟩
      · rcases h1 with h1 | ⟨c, hc, h1, h1b⟩
        · left; exact h1
        · right; exact ⟨c, List.mem_cons_of_mem _ hc, h1, h1b⟩
      · intro x hx
        rcases List.mem_cons.mp hx with rfl | hx
        · exact le_trans h2 (not_lt.mp h)
        · exact h3 x hx

theorem pickBest_snd (cands : List (Nat × ℚ)) (init : Option Nat × ℚ) :
    (pickBest cands init).2 = cands.foldl (fun res c => min res c.2) init.2 := by
  induction cands generalizing init with
  | nil => rfl
  | cons a l ih =>
    have hstep : pickBest (a :: l) init =
        pickBest l (if a.2 < init.2 then (some a.1, a.2) else init) := rfl
    rw [hstep, ih, List.foldl_cons]
    by_cases h : a.2 < init.2
    · simp only [h, if_true, min_eq_right (le_of_lt h)]
    · simp only [h, if_false, min_eq_left (not_lt.mp h)]

theorem selectFirst_loop (s : DynamicProgrammingStrategy) (orders : List Order)
    (start : GeoLocation) (hn : orders.length ≤ 64) (fuel : Nat) (hfuel : orders.length ≤ fuel) :
    ∀ (is : List Nat) (acc : Option Nat × ℚ × Memo), (∀ i ∈ is, i < orders.length) →
      MemoOK s.travelTimeCalculator orders acc.2.2 →
      ∃ memo2, is.foldlM (s.selectFirstBody fuel orders start) acc =
          Except.ok
            ((pickBest (firstCands s.travelTimeCalculator orders start is) (acc.1, acc.2.1)).1,
              (pickBest (firstCands s.travelTimeCalculator orders start is) (acc.1, acc.2.1)).2,
              memo2) ∧
        MemoOK s.travelTimeCalculator orders memo2 := by
  intro is
  induction is with
  | nil =>
    intro acc _ hm
    exact ⟨acc.2.2, rfl, hm⟩
  | cons i is ihl =>
    intro acc hlt hm
    have hi : i < orders.length := hlt i (List.mem_cons_self _ _)
    have hlt2 : ∀ j ∈ is, j < orders.length := fun j hj => hlt j (List.mem_cons_of_mem _ hj)
    have hlen : (unvisited orders.length (shl1 i)).length < fuel := by
      rw [unvisited_shl1 hn hi, List.length_erase_of_mem (List.mem_range.mpr hi),
        List.length_range]
      omega
    obtain ⟨memo1, h1, hm1⟩ := dp_spec s orders hn fuel acc.2.2 (shl1 i) i (shl1_lt hn hi) hi
      hm hlen
    have hstep : firstCands s.travelTimeCalculator orders start (i :: is) =
        (i, stateValue s.travelTimeCalculator orders (shl1 i) i +
          stepCost s.travelTimeCalculator orders start i) ::
          firstCands s.travelTimeCalculator orders start is := rfl
    have hpick : ∀ (c : Nat × ℚ) (l : List (Nat × ℚ)) (init : Option Nat × ℚ),
        pickBest (c :: l) init = pickBest l (if c.2 < init.2 then (some c.1, c.2) else init) :=
      fun _ _ _ => rfl
    rw [List.foldlM_cons, hstep, hpick]
    simp only [DynamicProgrammingStrategy.selectFirstBody, h1, indexOrder_orderAt hi, bind,
      Except.bind, pure, Except.pure]
    by_cases hlt3 : stateValue s.travelTimeCalculator orders (shl1 i) i +
        stepCost s.travelTimeCalculator orders start i < acc.2.1
    · have hlt4 : stateValue s.travelTimeCalculator orders (shl1 i) i +
          legCost s.travelTimeCalculator start (orderAt orders i) < acc.2.1 := hlt3
      simp only [hlt3, hlt4, if_true]
      exact ihl (some i, stateValue s.travelTimeCalculator orders (shl1 i) i +
        stepCost s.travelTimeCalculator orders start i, memo1) hlt2 hm1
    · have hlt4 : ¬ stateValue s.travelTimeCalculator orders (shl1 i) i +
          legCost s.travelTimeCalculator start (orderAt orders i) < acc.2.1 := hlt3
      simp only [hlt3, hlt4, if_false]
      exact ihl (acc.1, acc.2.1, memo1) hlt2 hm1

theorem selectNext_loop (s : DynamicProgrammingStrategy) (orders : List Order)
    (hn : orders.length ≤ 64) (fuel v l : Nat) (hv : v < 2 ^ orders.length)
    (hl : l < orders.length) (hfuel : (unvisited orders.length v).length ≤ fuel) :
    ∀ (is : List Nat) (acc : Option Nat × ℚ × Memo), (∀ i ∈ is, i < orders.length) →
      MemoOK s.travelTimeCalculator orders acc.2.2 →
      ∃ memo2, is.foldlM (s.selectNextBody fuel orders v l) acc =
          Except.ok
            ((pickBest (nextCands s.travelTimeCalculator orders v l is) (acc.1, acc.2.1)).1,
              (pickBest (nextCands s.travelTimeCalculator orders v l is) (acc.1, acc.2.1)).2,
              memo2) ∧
        MemoOK s.travelTimeCalculator orders memo2 := by
  intro is
  induction is with
  | nil =>
    intro acc _ hm
    exact ⟨acc.2.2, rfl, hm⟩
  | cons i is ihl =>
    intro acc hlt hm
    have hi : i < orders.length := hlt i (List.mem_cons_self _ _)
    have hlt2 : ∀ j ∈ is, j < orders.length := fun j hj => hlt j (List.mem_cons_of_mem _ hj)
    have hpick : ∀ (c : Nat × ℚ) (l : List (Nat × ℚ)) (init : Option Nat × ℚ),
        pickBest (c :: l) init = pickBest l (if c.2 < init.2 then (some c.1, c.2) else init) :=
      fun _ _ _ => rfl
    by_cases hvis : v &&& shl1 i = 0
    · have himem : i ∈ unvisited orders.length v := by
        unfold unvisited
        exact List.mem_filter.mpr ⟨List.mem_range.mpr hi, by simpa using hvis⟩
      have hlen : (unvisited orders.length (v ||| shl1 i)).length < fuel := by
        rw [unvisited_or hn hi, List.length_erase_of_mem himem]
        have := List.length_pos_of_mem himem
        omega
      obtain ⟨memo1, h1, hm1⟩ := dp_spec s orders hn fuel acc.2.2 (v ||| shl1 i) i
        (or_shl1_lt hn hv hi) hi hm hlen
      have hstep : nextCands s.travelTimeCalculator orders v l (i :: is) =
          (i, stateValue s.travelTimeCalculator orders (v ||| shl1 i) i +
            stepCost s.travelTimeCalculator orders (orderAt orders l).Consumer i) ::
            nextCands s.travelTimeCalculator orders v l is := by
        unfold nextCands
        rw [List.filter_cons_of_pos (by simpa using hvis), List.map_cons]
      rw [List.foldlM_cons, hstep, hpick]
      simp only [DynamicProgrammingStrategy.selectNextBody, hvis, if_true, h1,
        indexOrder_orderAt hi, indexOrder_orderAt hl, bind, Except.bind, pure, Except.pure]
      by_cases hlt3 : stateValue s.travelTimeCalculator orders (v ||| shl1 i) i +
          stepCost s.travelTimeCalculator orders (orderAt orders l).Consumer i < acc.2.1
      · have hlt4 : stateValue s.travelTimeCalculator orders (v ||| shl1 i) i +
            legCost s.travelTimeCalculator (orderAt orders l).Consumer (orderAt orders i) <
              acc.2.1 := hlt3
        simp only [hlt3, hlt4, if_true]
        exact ihl (some i, stateValue s.travelTimeCalculator orders (v ||| shl1 i) i +
          stepCost s.travelTimeCalculator orders (orderAt orders l).Consumer i, memo1) hlt2 hm1
      · have hlt4 : ¬ stateValue s.travelTimeCalculator orders (v ||| shl1 i) i +
            legCost s.travelTimeCalculator (orderAt orders l).Consumer (orderAt orders i) <
              acc.2.1 := hlt3
        simp only [hlt3, hlt4, if_false]
        exact ihl (acc.1, acc.2.1, memo1) hlt2 hm1
    · have hstep : nextCands s.travelTimeCalculator orders v l (i :: is) =
          nextCands s.travelTimeCalculator orders v l is := by
        unfold nextCands
        rw [List.filter_cons_of_neg (by simpa using hvis)]
      rw [List.foldlM_cons, hstep]
      simp only [DynamicProgrammingStrategy.selectNextBody, hvis, if_false, bind, Except.bind,
        pure, Except.pure]
      exact ihl acc hlt2 hm


/-! ## The reconstruction and the whole of `findOptimalRoute` -/

theorem mem_nextCands {ttc : TravelTimeCalculator} {orders : List Order} {v l : Nat}
    {c : Nat × ℚ} (h : c ∈ nextCands ttc orders v l (List.range orders.length)) :
    c.1 ∈ unvisited orders.length v ∧
      c.2 = stateValue ttc orders (v ||| shl1 c.1) c.1 +
        stepCost ttc orders (orderAt orders l).Consumer c.1 := by
  unfold nextCands at h
  rw [List.mem_map] at h
  obtain ⟨i, hi, rfl⟩ := h
  exact ⟨hi, rfl⟩

theorem pickBest_next_mem {ttc : TravelTimeCalculator} {orders : List Order} {v l j : Nat}
    (h : (pickBest (nextCands ttc orders v l (List.range orders.length))
      (none, MaxFloat64)).1 = some j) :
    j ∈ unvisited orders.length v := by
  obtain ⟨h1, -, -⟩ := pickBest_spec (nextCands ttc orders v l (List.range orders.length))
    (none, MaxFloat64)
  rcases h1 with h1 | ⟨c, hc, h1, -⟩
  · rw [h1] at h
    cases h
  · rw [h1] at h
    simp only [Option.some.injEq] at h
    rw [← h]
    exact (mem_nextCands hc).1

theorem reconstruct_eq (s : DynamicProgrammingStrategy) (orders : List Order)
    (hn : orders.length ≤ 64) (fuel : Nat) :
    ∀ (k : Nat) (route : List Nat) (v last : Nat) (memo : Memo), v < 2 ^ orders.length →
      last < orders.length → MemoOK s.travelTimeCalculator orders memo →
      (unvisited orders.length v).length < k → (unvisited orders.length v).length ≤ fuel →
      route.length + (unvisited orders.length v).length + 1 = orders.length →
      s.reconstruct fuel orders k route v (some last) memo =
        Except.ok (route ++ routeFrom s.travelTimeCalculator orders k v last) := by
  intro k
  induction k with
  | zero =>
    intro route v last memo _ _ _ h
    exact absurd h (Nat.not_lt_zero _)
  | succ k ih =>
    intro route v last memo hv hl hm hk hfuel hlen
    have hcond : route.length < orders.length := by omega
    obtain ⟨memo2, h2, hm2⟩ := selectNext_loop s orders hn fuel v last hv hl hfuel
      (List.range orders.length) (none, MaxFloat64, memo) (fun i hi => List.mem_range.mp hi) hm
    rw [DynamicProgrammingStrategy.reconstruct, routeFrom]
    simp only [hcond, if_true, DynamicProgrammingStrategy.selectNext, h2, bind, Except.bind]
    cases hbest : (pickBest (nextCands s.travelTimeCalculator orders v last
        (List.range orders.length)) (none, MaxFloat64)).1 with
    | none => rfl
    | some j =>
      have hj : j ∈ unvisited orders.length v := pickBest_next_mem hbest
      have hjlt : j < orders.length := unvisited_lt hj
      have hlen2 : (unvisited orders.length (v ||| shl1 j)).length =
          (unvisited orders.length v).length - 1 := by
        rw [unvisited_or hn hjlt, List.length_erase_of_mem hj]
      have hpos := List.length_pos_of_mem hj
      have := ih (route ++ [last]) (v ||| shl1 j) j memo2 (or_shl1_lt hn hv hjlt) hjlt hm2
        (by omega) (by omega) (by rw [List.length_append, List.length_singleton]; omega)
      simp only [this, List.append_assoc, List.singleton_append]

theorem routeFrom_lt (ttc : TravelTimeCalculator) (orders : List Order) :
    ∀ (k v last : Nat), last < orders.length →
      ∀ i ∈ routeFrom ttc orders k v last, i < orders.length := by
  intro k
  induction k with
  | zero =>
    intro v last _ i hi
    simp [routeFrom] at hi
  | succ k ih =>
    intro v last hl i hi
    rw [routeFrom] at hi
    rcases List.mem_cons.mp hi with rfl | hi
    · exact hl
    · cases hbest : (pickBest (nextCands ttc orders v last (List.range orders.length))
          (none, MaxFloat64)).1 with
      | none =>
        rw [hbest] at hi
        simp at hi
      | some j =>
        rw [hbest] at hi
        exact ih _ j (unvisited_lt (pickBest_next_mem hbest)) i hi

theorem findOptimalRoute_eq (s : DynamicProgrammingStrategy) (orders : List Order)
    (start : GeoLocation) (hne : orders ≠ []) (hn : orders.length ≤ 64) (fuel : Nat)
    (hfuel : orders.length ≤ fuel) (first : Nat)
    (hfirst : (bestFirst s.travelTimeCalculator orders start).1 = some first)
    (hlt : first < orders.length) :
    s.findOptimalRoute fuel orders start =
      Except.ok (some (routeFrom s.travelTimeCalculator orders orders.length (shl1 first) first),
        (bestFirst s.travelTimeCalculator orders start).2, none) := by
  have hlen : orders.length ≠ 0 := by
    simpa [List.length_eq_zero] using hne
  obtain ⟨memo2, h2, hm2⟩ := selectFirst_loop s orders start hn fuel hfuel
    (List.range orders.length) (none, MaxFloat64, []) (fun i hi => List.mem_range.mp hi)
    (memoOK_nil _ _)
  have hu : (unvisited orders.length (shl1 first)).length = orders.length - 1 := by
    rw [unvisited_shl1 hn hlt, List.length_erase_of_mem (List.mem_range.mpr hlt),
      List.length_range]
  have hr := reconstruct_eq s orders hn fuel orders.length [] (shl1 first) first memo2
    (shl1_lt hn hlt) hlt hm2 (by omega) (by omega) (by simp only [List.length_nil]; omega)
  unfold bestFirst at hfirst ⊢
  simp only [DynamicProgrammingStrategy.findOptimalRoute, hlen, if_false,
    DynamicProgrammingStrategy.selectFirst, h2, hfirst, bind, Except.bind, hr, List.nil_append]
  rfl


/-! ## The best time is the minimum over all visiting orders -/

theorem costs_full {ttc : TravelTimeCalculator} {orders : List Order} {start : GeoLocation}
    (hc : CostsBelowSentinel ttc orders start) (p : List Nat)
    (hp : p.Perm (List.range orders.length)) : routeCost ttc orders start p < MaxFloat64 := by
  have := hc [] p (by simpa using hp)
  simpa [endOf] using this

theorem costs_tails {ttc : TravelTimeCalculator} {orders : List Order} {start : GeoLocation}
    (hc : CostsBelowSentinel ttc orders start) : TailsBelowSentinel ttc orders := by
  intro last q hl hnd hlt hnot
  have hnd2 : (last :: q).Nodup := List.nodup_cons.mpr ⟨hnot, hnd⟩
  have hperm1 : ((List.range orders.length).filter (fun i => decide (i ∈ last :: q))).Perm
      (last :: q) := by
    apply (List.perm_ext_iff_of_nodup ((List.nodup_range _).filter _) hnd2).mpr
    intro a
    simp only [List.mem_filter, List.mem_range, decide_eq_true_eq]
    constructor
    · exact fun h => h.2
    · intro h
      refine ⟨?_, h⟩
      rcases List.mem_cons.mp h with rfl | h
      · exact hl
      · exact hlt a h
  have hperm2 := List.filter_append_perm (fun i => decide (i ∈ last :: q))
    (List.range orders.length)
  have hperm : (((List.range orders.length).filter (fun i => !decide (i ∈ last :: q)) ++
      [last]) ++ q).Perm (List.range orders.length) := by
    refine List.Perm.trans ?_ hperm2
    rw [List.append_assoc]
    refine List.Perm.trans List.perm_append_comm ?_
    exact List.Perm.append (by simpa using hperm1.symm) (List.Perm.refl _)
  have := hc _ q hperm
  simpa [endOf, getElem?_orderAt hl] using this

theorem stateValue_first (ttc : TravelTimeCalculator) (orders : List Order) {i : Nat}
    (hn : orders.length ≤ 64) (hi : i < orders.length) :
    stateValue ttc orders (shl1 i) i =
      optRest ttc orders (orders.length - 1) i ((List.range orders.length).erase i) := by
  unfold stateValue
  rw [unvisited_shl1 hn hi, List.length_erase_of_mem (List.mem_range.mpr hi), List.length_range]

theorem mem_firstCands (ttc : TravelTimeCalculator) (orders : List Order) (start : GeoLocation)
    {i : Nat} (hi : i < orders.length) :
    (i, stateValue ttc orders (shl1 i) i + stepCost ttc orders start i) ∈
      firstCands ttc orders start (List.range orders.length) := by
  unfold firstCands
  exact List.mem_map.mpr ⟨i, List.mem_range.mpr hi, rfl⟩

theorem erase_range_length {n i : Nat} (hi : i < n) : ((List.range n).erase i).length = n - 1 := by
  rw [List.length_erase_of_mem (List.mem_range.mpr hi), List.length_range]

theorem bestFirst_le (ttc : TravelTimeCalculator) (orders : List Order) (start : GeoLocation)
    (hne : orders ≠ []) (hn : orders.length ≤ 64) (p : List Nat)
    (hp : p.Perm (List.range orders.length)) :
    (bestFirst ttc orders start).2 ≤ routeCost ttc orders start p := by
  have hpos : 0 < orders.length := List.length_pos.mpr hne
  cases p with
  | nil =>
    have := hp.length_eq
    simp only [List.length_nil, List.length_range] at this
    omega
  | cons i q =>
    have hi : i < orders.length := List.mem_range.mp (hp.subset (List.mem_cons_self _ _))
    have hq : q.Perm ((List.range orders.length).erase i) :=
      (List.cons_perm_iff_perm_erase.mp hp).2
    obtain ⟨-, -, h3⟩ := pickBest_spec (firstCands ttc orders start (List.range orders.length))
      (none, MaxFloat64)
    have h4 := h3 _ (mem_firstCands ttc orders start hi)
    have h5 := optRest_le ttc orders (orders.length - 1) i ((List.range orders.length).erase i) q
      (erase_range_length hi)
      (fun j hj => List.mem_range.mp (List.mem_of_mem_erase hj)) hq
    rw [routeCost_cons ttc start q hi]
    unfold bestFirst
    simp only [stateValue_first ttc orders hn hi] at h4
    linarith

theorem bestFirst_attained (ttc : TravelTimeCalculator) (orders : List Order)
    (start : GeoLocation) (hne : orders ≠ []) (hn : orders.length ≤ 64)
    (hc : CostsBelowSentinel ttc orders start) :
    ∃ (first : Nat) (q : List Nat), first < orders.length ∧
      (bestFirst ttc orders start).1 = some first ∧
      (first :: q).Perm (List.range orders.length) ∧
      (bestFirst ttc orders start).2 = routeCost ttc orders start (first :: q) ∧
      (bestFirst ttc orders start).2 < MaxFloat64 ∧
      (bestFirst ttc orders start).2 =
        stateValue ttc orders (shl1 first) first + stepCost ttc orders start first := by
  have hpos : 0 < orders.length := List.length_pos.mpr hne
  have cand : ∀ i, i < orders.length → ∃ q : List Nat,
      (i :: q).Perm (List.range orders.length) ∧
      stateValue ttc orders (shl1 i) i + stepCost ttc orders start i =
        routeCost ttc orders start (i :: q) := by
    intro i hi
    obtain ⟨q, hq, he⟩ := optRest_attained ttc orders (costs_tails hc) (orders.length - 1) i
      ((List.range orders.length).erase i) (erase_range_length hi)
      ((List.nodup_range _).erase i)
      (fun j hj => List.mem_range.mp (List.mem_of_mem_erase hj)) hi
      (fun h => ((List.nodup_range _).mem_erase_iff.mp h).1 rfl)
    refine ⟨q, (List.Perm.cons i hq).trans (List.perm_cons_erase (List.mem_range.mpr hi)).symm, ?_⟩
    rw [routeCost_cons ttc start q hi, stateValue_first ttc orders hn hi, he]
    ring
  obtain ⟨h1, -, h3⟩ := pickBest_spec (firstCands ttc orders start (List.range orders.length))
    (none, MaxFloat64)
  rcases h1 with h1 | ⟨c, hc2, h1, h1b⟩
  · exfalso
    obtain ⟨q, hq, he⟩ := cand 0 hpos
    have h4 := h3 _ (mem_firstCands ttc orders start hpos)
    rw [h1] at h4
    simp only [he] at h4
    exact absurd (costs_full hc _ hq) (not_lt.mpr h4)
  · unfold firstCands at hc2
    rw [List.mem_map] at hc2
    obtain ⟨i, hi, rfl⟩ := hc2
    have hi2 : i < orders.length := List.mem_range.mp hi
    obtain ⟨q, hq, he⟩ := cand i hi2
    refine ⟨i, q, hi2, ?_, hq, ?_, ?_, ?_⟩
    · unfold bestFirst; rw [h1]
    · unfold bestFirst; rw [h1]; exact he
    · unfold bestFirst; rw [h1]; exact h1b
    · unfold bestFirst; rw [h1]


/-! ## The reconstructed route visits every order and costs the best time -/

theorem pickBest_map_snd {α : Type} (f : α → Nat × ℚ) (l : List α) (init : Option Nat × ℚ) :
    (pickBest (l.map f) init).2 = l.foldl (fun res i => min res (f i).2) init.2 := by
  rw [pickBest_snd, List.foldl_map]

theorem nextCands_snd (ttc : TravelTimeCalculator) (orders : List Order) (v l : Nat)
    (hn : orders.length ≤ 64) (h : unvisited orders.length v ≠ []) :
    (pickBest (nextCands ttc orders v l (List.range orders.length)) (none, MaxFloat64)).2 =
      stateValue ttc orders v l := by
  rw [stateValue_step ttc orders l hn h]
  unfold nextCands
  rw [pickBest_map_snd]
  rfl

theorem routeFrom_spec (ttc : TravelTimeCalculator) (orders : List Order)
    (hn : orders.length ≤ 64) (hb : TailsBelowSentinel ttc orders) :
    ∀ (k v last : Nat), last < orders.length → last ∉ unvisited orders.length v →
      (unvisited orders.length v).length < k →
      ∃ ext : List Nat, routeFrom ttc orders k v last = last :: ext ∧
        ext.Perm (unvisited orders.length v) ∧
        routeCost ttc orders (orderAt orders last).Consumer ext = stateValue ttc orders v last := by
  intro k
  induction k with
  | zero =>
    intro v last _ _ h
    exact absurd h (Nat.not_lt_zero _)
  | succ k ih =>
    intro v last hl hnot hk
    rw [routeFrom]
    by_cases hU : unvisited orders.length v = []
    · have hc : nextCands ttc orders v last (List.range orders.length) = [] := by
        unfold nextCands
        have : (List.range orders.length).filter (fun i => v &&& shl1 i = 0) = [] := hU
        rw [this]
        rfl
      rw [hc]
      refine ⟨[], rfl, by rw [hU], ?_⟩
      rw [stateValue_full ttc orders last hU]
      rfl
    · have hval := nextCands_snd ttc orders v last hn hU
      obtain ⟨h1, -, h3⟩ := pickBest_spec (nextCands ttc orders v last (List.range orders.length))
        (none, MaxFloat64)
      have hlast : ∀ i ∈ unvisited orders.length v, ∃ q : List Nat,
          q.Perm ((unvisited orders.length v).erase i) ∧
          stateValue ttc orders (v ||| shl1 i) i =
            routeCost ttc orders (orderAt orders i).Consumer q := by
        intro i hi
        rw [stateValue_or ttc orders hn hi]
        exact optRest_attained ttc orders hb _ i _
          (by rw [List.length_erase_of_mem hi]) ((unvisited_nodup _ _).erase i)
          (fun j hj => unvisited_lt (List.mem_of_mem_erase hj)) (unvisited_lt hi)
          (fun h => ((unvisited_nodup _ _).mem_erase_iff.mp h).1 rfl)
      rcases h1 with h1 | ⟨c, hc, h1, -⟩
      · exfalso
        obtain ⟨i, hi⟩ : ∃ i, i ∈ unvisited orders.length v :=
          List.exists_mem_of_length_pos (List.length_pos.mpr hU)
        obtain ⟨q, hq, he⟩ := hlast i hi
        have hcand : (i, stateValue ttc orders (v ||| shl1 i) i +
            stepCost ttc orders (orderAt orders last).Consumer i) ∈
            nextCands ttc orders v last (List.range orders.length) := by
          unfold nextCands
          exact List.mem_map.mpr ⟨i, hi, rfl⟩
        have h4 := h3 _ hcand
        rw [h1] at h4
        simp only [he] at h4
        have hperm : (i :: q).Perm (unvisited orders.length v) :=
          (List.Perm.cons i hq).trans (List.perm_cons_erase hi).symm
        have h5 := hb last (i :: q) hl (hperm.nodup_iff.mpr (unvisited_nodup _ _))
          (fun j hj => unvisited_lt (hperm.subset hj)) (fun hm => hnot (hperm.subset hm))
        rw [routeCost_cons ttc _ q (unvisited_lt hi)] at h5
        linarith
      · obtain ⟨hj, hc2⟩ := mem_nextCands hc
        have hjlt : c.1 < orders.length := unvisited_lt hj
        have hnotj : c.1 ∉ unvisited orders.length (v ||| shl1 c.1) := by
          rw [unvisited_or hn hjlt]
          exact fun h => ((unvisited_nodup _ _).mem_erase_iff.mp h).1 rfl
        have hlen : (unvisited orders.length (v ||| shl1 c.1)).length < k := by
          rw [unvisited_or hn hjlt, List.length_erase_of_mem hj]
          have := List.length_pos_of_mem hj
          omega
        obtain ⟨ext, he1, he2, he3⟩ := ih (v ||| shl1 c.1) c.1 hjlt hnotj hlen
        rw [h1] at hval ⊢
        simp only at hval ⊢
        refine ⟨c.1 :: ext, by rw [he1], ?_, ?_⟩
        · rw [unvisited_or hn hjlt] at he2
          exact (List.Perm.cons c.1 he2).trans (List.perm_cons_erase hj).symm
        · rw [routeCost_cons ttc _ ext hjlt, he3, ← hval, hc2]
          ring

/-! ## More than 64 orders: the recursion does not end -/

theorem shl1_of_ge {i : Nat} (h : 64 ≤ i) : shl1 i = 0 := by
  simp [shl1, not_lt.mpr h]

theorem fullMask_of_gt {n : Nat} (h : 65 ≤ n) : fullMask n = 2 ^ 64 - 1 := by
  have : ¬ n < 64 := by omega
  simp [fullMask, shl1, this]

theorem dp_full_or (s : DynamicProgrammingStrategy) (orders : List Order) (fuel l : Nat) :
    s.dp orders fuel [] (fullMask orders.length) l = Except.error Fault.outOfFuel ∨
      s.dp orders fuel [] (fullMask orders.length) l = Except.ok (0, []) := by
  cases fuel with
  | zero => left; rfl
  | succ fuel =>
    right
    rw [DynamicProgrammingStrategy.dp, if_pos rfl]
    rfl

theorem dpLoop_diverges (s : DynamicProgrammingStrategy) (orders : List Order)
    (fuel v l : Nat) (hv : v ≠ fullMask orders.length) (hl : l < orders.length)
    (ih : ∀ (v2 l2 : Nat), v2 ≠ fullMask orders.length → l2 < orders.length →
      s.dp orders fuel [] v2 l2 = Except.error Fault.outOfFuel) :
    ∀ (is : List Nat) (res : ℚ), 64 ∈ is → (∀ i ∈ is, i < orders.length) →
      is.foldlM (s.dpLoopBody orders (s.dp orders fuel) v l) (res, []) =
        Except.error Fault.outOfFuel := by
  intro is
  induction is with
  | nil =>
    intro res h
    simp at h
  | cons i is ihl =>
    intro res hmem hlt
    have hi : i < orders.length := hlt i (List.mem_cons_self _ _)
    have hlt2 : ∀ j ∈ is, j < orders.length := fun j hj => hlt j (List.mem_cons_of_mem _ hj)
    rw [List.foldlM_cons]
    by_cases hvis : v &&& shl1 i = 0
    · by_cases hfull : v ||| shl1 i = fullMask orders.length
      · have hi64 : i ≠ 64 := by
          intro h
          rw [h, shl1_of_ge (le_refl 64), Nat.or_zero] at hfull
          exact hv hfull
        have hmem2 : 64 ∈ is := by
          rcases List.mem_cons.mp hmem with h | h
          · exact absurd h.symm hi64
          · exact h
        rcases dp_full_or s orders fuel i with h | h
        · simp only [DynamicProgrammingStrategy.dpLoopBody, hvis, if_true, hfull, h, bind,
            Except.bind]
        · simp only [DynamicProgrammingStrategy.dpLoopBody, hvis, if_true, hfull, h,
            indexOrder_orderAt hl, indexOrder_orderAt hi, bind, Except.bind, pure, Except.pure]
          exact ihl _ hmem2 hlt2
      · simp only [DynamicProgrammingStrategy.dpLoopBody, hvis, if_true, ih _ i hfull hi, bind,
          Except.bind]
    · have hi64 : i ≠ 64 := by
        intro h
        rw [h, shl1_of_ge (le_refl 64), Nat.and_zero] at hvis
        exact hvis rfl
      have hmem2 : 64 ∈ is := by
        rcases List.mem_cons.mp hmem with h | h
        · exact absurd h.symm hi64
        · exact h
      simp only [DynamicProgrammingStrategy.dpLoopBody, hvis, if_false, bind, Except.bind, pure,
        Except.pure]
      exact ihl res hmem2 hlt2

theorem dp_diverges (s : DynamicProgrammingStrategy) (orders : List Order)
    (hn : 65 ≤ orders.length) :
    ∀ (fuel v l : Nat), v ≠ fullMask orders.length → l < orders.length →
      s.dp orders fuel [] v l = Except.error Fault.outOfFuel := by
  intro fuel
  induction fuel with
  | zero =>
    intro v l _ _
    rfl
  | succ fuel ih =>
    intro v l hv hl
    have h := dpLoop_diverges s orders fuel v l hv hl ih (List.range orders.length) MaxFloat64
      (List.mem_range.mpr (by omega)) (fun i hi => List.mem_range.mp hi)
    rw [DynamicProgrammingStrategy.dp, if_neg hv]
    simp only [List.lookup, h, bind, Except.bind]

theorem findOptimalRoute_diverges (s : DynamicProgrammingStrategy) (orders : List Order)
    (start : GeoLocation) (hn : 65 ≤ orders.length) (fuel : Nat) :
    s.findOptimalRoute fuel orders start = Except.error Fault.outOfFuel := by
  have hlen : orders.length ≠ 0 := by omega
  have h1 : shl1 0 ≠ fullMask orders.length := by
    rw [fullMask_of_gt hn]
    decide
  have hdp := dp_diverges s orders hn fuel (shl1 0) 0 h1 (by omega)
  obtain ⟨k, hk⟩ : ∃ k, orders.length = k + 1 := ⟨orders.length - 1, by omega⟩
  have hrange : List.range orders.length = 0 :: (List.range k).map Nat.succ := by
    rw [hk, List.range_succ_eq_map]
  simp only [DynamicProgrammingStrategy.findOptimalRoute, hlen, if_false,
    DynamicProgrammingStrategy.selectFirst, hrange, List.foldlM_cons,
    DynamicProgrammingStrategy.selectFirstBody, hdp, bind, Except.bind]

theorem CalculateRoute_diverges (s : DynamicProgrammingStrategy) (orders : List Order)
    (start : GeoLocation) (hn : 65 ≤ orders.length) (fuel : Nat) :
    s.CalculateRoute fuel orders start = Except.error Fault.outOfFuel := by
  have hlen : orders.length ≠ 0 := by omega
  simp only [DynamicProgrammingStrategy.CalculateRoute, hlen, if_false,
    findOptimalRoute_diverges s orders start hn fuel, bind, Except.bind]


/-! ## Route steps and the result of the dynamic-programming strategy -/

theorem generateRouteSteps_eq (orders : List Order) (route : List Nat)
    (h : ∀ i ∈ route, i < orders.length) :
    generateRouteSteps orders route = Except.ok (expandRoute orders route) := by
  induction route with
  | nil => rfl
  | cons i route ih =>
    have hi : i < orders.length := h i (List.mem_cons_self _ _)
    have ih2 := ih (fun j hj => h j (List.mem_cons_of_mem _ hj))
    unfold expandRoute at ih2 ⊢
    simp only [generateRouteSteps, indexOrder_orderAt hi, ih2, bind, Except.bind,
      List.flatMap_cons, getElem?_orderAt hi, pure, Except.pure, List.cons_append,
      List.nil_append]

theorem CalculateRoute_of_findOptimalRoute (s : DynamicProgrammingStrategy) (orders : List Order)
    (start : GeoLocation) (hne : orders ≠ []) (fuel : Nat) (route : List Nat) (t : ℚ)
    (hlt : ∀ i ∈ route, i < orders.length)
    (h : s.findOptimalRoute fuel orders start = Except.ok (some route, t, none)) :
    s.CalculateRoute fuel orders start =
      Except.ok (if t > maxReasonableTravelTime then ⟨-1, none, some GoError.ErrRouteImpossible⟩
        else ⟨t, some (expandRoute orders route), none⟩) := by
  have hlen : orders.length ≠ 0 := by
    simpa [List.length_eq_zero] using hne
  simp only [DynamicProgrammingStrategy.CalculateRoute, hlen, if_false, h, bind, Except.bind,
    Option.isSome_none, Bool.false_eq_true, Option.getD_some, generateRouteSteps_eq orders route hlt]
  by_cases ht : t > maxReasonableTravelTime
  · simp only [ht, if_true]; rfl
  · simp only [ht, if_false]; rfl

theorem findOptimalRoute_spec (s : DynamicProgrammingStrategy) (orders : List Order)
    (start : GeoLocation) (hne : orders ≠ []) (hn : orders.length ≤ 64)
    (hc : CostsBelowSentinel s.travelTimeCalculator orders start) :
    ∃ (route : List Nat) (t : ℚ),
      (∀ fuel, orders.length ≤ fuel →
        s.findOptimalRoute fuel orders start = Except.ok (some route, t, none)) ∧
      (∀ i ∈ route, i < orders.length) ∧
      (∃ p : List Nat, p.Perm (List.range orders.length) ∧
        routeCost s.travelTimeCalculator orders start p = t) ∧
      (∀ p : List Nat, p.Perm (List.range orders.length) →
        t ≤ routeCost s.travelTimeCalculator orders start p) ∧
      t < MaxFloat64 ∧
      route.Perm (List.range orders.length) ∧
      routeCost s.travelTimeCalculator orders start route = t := by
  obtain ⟨first, q, hf, hfirst, hperm, hcost, hbelow, hval⟩ :=
    bestFirst_attained s.travelTimeCalculator orders start hne hn hc
  have hnot : first ∉ unvisited orders.length (shl1 first) := by
    rw [unvisited_shl1 hn hf]
    exact fun h => ((List.nodup_range _).mem_erase_iff.mp h).1 rfl
  have hlen : (unvisited orders.length (shl1 first)).length < orders.length := by
    rw [unvisited_shl1 hn hf, erase_range_length hf]
    have := List.length_pos.mpr hne
    omega
  obtain ⟨ext, he1, he2, he3⟩ := routeFrom_spec s.travelTimeCalculator orders hn (costs_tails hc)
    orders.length (shl1 first) first hf hnot hlen
  refine ⟨routeFrom s.travelTimeCalculator orders orders.length (shl1 first) first,
    (bestFirst s.travelTimeCalculator orders start).2, ?_, ?_, ⟨first :: q, hperm, hcost.symm⟩,
    ?_, hbelow, ?_, ?_⟩
  · intro fuel hfuel
    exact findOptimalRoute_eq s orders start hne hn fuel hfuel first hfirst hf
  · exact routeFrom_lt s.travelTimeCalculator orders orders.length (shl1 first) first hf
  · intro p hp
    exact bestFirst_le s.travelTimeCalculator orders start hne hn p hp
  · rw [he1, unvisited_shl1 hn hf] at *
    exact (List.Perm.cons first he2).trans (List.perm_cons_erase (List.mem_range.mpr hf)).symm
  · rw [he1, routeCost_cons s.travelTimeCalculator start ext hf, he3, hval]
    ring

/-! ## Bounds on route costs, for the samples -/

theorem routeCost_le (ttc : TravelTimeCalculator) (orders : List Order) (bound : ℚ)
    (hb : 0 ≤ bound) (hleg : ∀ o ∈ orders, ∀ src, legCost ttc src o ≤ bound) :
    ∀ (q : List Nat) (src : GeoLocation), routeCost ttc orders src q ≤ bound * q.length := by
  intro q
  induction q with
  | nil =>
    intro src
    simp [routeCost]
  | cons i q ih =>
    intro src
    rw [routeCost]
    cases ho : orders[i]? with
    | none =>
      simp only [List.length_cons, Nat.cast_add, Nat.cast_one]
      have : (0 : ℚ) ≤ (q.length : ℚ) := Nat.cast_nonneg _
      nlinarith
    | some o =>
      have h1 := hleg o (List.getElem?_mem ho) src
      have h2 := ih o.Consumer
      simp only [List.length_cons, Nat.cast_add, Nat.cast_one]
      linarith

theorem costsBelowSentinel_of_bound (ttc : TravelTimeCalculator) (orders : List Order)
    (start : GeoLocation) (bound : ℚ) (hb : 0 ≤ bound)
    (hleg : ∀ o ∈ orders, ∀ src, legCost ttc src o ≤ bound)
    (hsmall : bound * orders.length ≤ 2 ^ 64) : CostsBelowSentinel ttc orders start := by
  intro pre suf hp
  have h1 := routeCost_le ttc orders bound hb hleg suf (endOf orders start pre)
  have h2 : suf.length ≤ orders.length := by
    have := hp.length_eq
    rw [List.length_append, List.length_range] at this
    omega
  have h3 : (suf.length : ℚ) ≤ (orders.length : ℚ) := Nat.cast_le.mpr h2
  apply lt_MaxFloat64
  calc routeCost ttc orders (endOf orders start pre) suf ≤ bound * suf.length := h1
    _ ≤ bound * orders.length := mul_le_mul_of_nonneg_left h3 hb
    _ ≤ 2 ^ 64 := hsmall

theorem sample_costs : CostsBelowSentinel zeroModel [orderA, orderB] (sampleLoc 0 0) := by
  apply costsBelowSentinel_of_bound zeroModel [orderA, orderB] (sampleLoc 0 0) 100 (by norm_num)
  · intro o ho src
    simp only [List.mem_cons, List.mem_singleton, List.mem_nil_iff, or_false] at ho
    rcases ho with rfl | rfl <;>
      norm_num [legCost, TravelTimeCalculator.Calculate, zeroModel, orderA, orderB]
  · norm_num

theorem replicate_costs (o : Order) (ho : o.PrepTime ≤ 100) (start : GeoLocation) :
    CostsBelowSentinel zeroModel (List.replicate 65 o) start := by
  apply costsBelowSentinel_of_bound zeroModel (List.replicate 65 o) start 100 (by norm_num)
  · intro o2 ho2 src
    rw [List.eq_of_mem_replicate ho2]
    simp only [legCost, TravelTimeCalculator.Calculate, zeroModel]
    norm_num
    exact ho
  · norm_num


theorem sample_bestFirst :
    bestFirst zeroModel [orderA, orderB] (sampleLoc 0 0) = (some 0, 101) := by
  have h1 : min MaxFloat64 100 = 100 := min_eq_right (le_of_lt (lt_MaxFloat64 (by norm_num)))
  have h2 : min MaxFloat64 1 = 1 := min_eq_right (le_of_lt (lt_MaxFloat64 (by norm_num)))
  have h3 : (101 : ℚ) < MaxFloat64 := lt_MaxFloat64 (by norm_num)
  simp [bestFirst, pickBest, firstCands, stateValue, unvisited, optRest, stepCost, legCost,
    orderAt, TravelTimeCalculator.Calculate, zeroModel, orderA, orderB, shl1, List.range,
    List.range.loop, h1, h2]
  norm_num [h3]

theorem sample_routeFrom :
    routeFrom zeroModel [orderA, orderB] 2 (shl1 0) 0 = [0, 1] := by
  have h1 : min MaxFloat64 100 = 100 := min_eq_right (le_of_lt (lt_MaxFloat64 (by norm_num)))
  have h4 : (100 : ℚ) < MaxFloat64 := lt_MaxFloat64 (by norm_num)
  simp [routeFrom, pickBest, nextCands, stateValue, unvisited, optRest, stepCost, legCost,
    orderAt, TravelTimeCalculator.Calculate, zeroModel, orderA, orderB, shl1, List.range,
    List.range.loop, h1, h4]

theorem sample_findOptimalRoute (k : Nat) :
    (DynamicProgrammingStrategy.mk zeroModel).findOptimalRoute (2 + k) [orderA, orderB]
        (sampleLoc 0 0) = Except.ok (some [0, 1], 101, none) := by
  have h := findOptimalRoute_eq (DynamicProgrammingStrategy.mk zeroModel) [orderA, orderB]
    (sampleLoc 0 0) (by simp) (by simp) (2 + k) (by simp) 0
    (by rw [sample_bestFirst]) (by simp)
  rw [h, sample_bestFirst]
  have hr := sample_routeFrom
  simp only [List.length_cons, List.length_nil, Nat.reduceAdd] at hr ⊢
  rw [hr]

/-! ## The main results on the dynamic-programming strategy -/

/-- C1, as stated, fails for more than 64 orders: on 65 copies of order A with
legs that take no time (every route cost is at most 65) findOptimalRoute returns
no total time, whatever the recursion budget: the mask `1 << 64` is zero, so the
order of index 64 never counts as visited and `dp` calls itself without end. -/
theorem findOptimalRoute_sixty_five_orders :
    List.replicate 65 orderA ≠ [] ∧
      CostsBelowSentinel zeroModel (List.replicate 65 orderA) (sampleLoc 0 0) ∧
      ∀ fuel, (DynamicProgrammingStrategy.mk zeroModel).findOptimalRoute fuel
        (List.replicate 65 orderA) (sampleLoc 0 0) = Except.error Fault.outOfFuel :=
  ⟨by simp, replicate_costs orderA (by norm_num [orderA]) _,
    fun fuel => findOptimalRoute_diverges _ _ _ (by simp) fuel⟩

/-- C1, amended: for every list of 1 to 64 orders, every start and every cost
model such that every route cost (of a whole visiting order and of what remains of
it after any number of visits; with non-negative durations the bound on the whole
visiting orders is enough, see `costsBelowSentinel_of_nonneg`) is below the
MaxFloat64 sentinel, findOptimalRoute returns, for every recursion budget of at
least n, one and the same total time, and this total time is the minimum of the
route cost over all permutations of the order indices 0..n-1: it is the cost of
one of them and at most the cost of any. -/
theorem findOptimalRoute_minimum (s : DynamicProgrammingStrategy) (orders : List Order)
    (start : GeoLocation) (hne : orders ≠ []) (hn : orders.length ≤ 64)
    (hc : CostsBelowSentinel s.travelTimeCalculator orders start) :
    ∃ t : ℚ,
      (∃ route : List Nat, ∀ fuel, orders.length ≤ fuel →
        s.findOptimalRoute fuel orders start = Except.ok (some route, t, none)) ∧
      (∃ p : List Nat, p.Perm (List.range orders.length) ∧
        routeCost s.travelTimeCalculator orders start p = t) ∧
      (∀ p : List Nat, p.Perm (List.range orders.length) →
        t ≤ routeCost s.travelTimeCalculator orders start p) := by
  obtain ⟨route, t, h1, -, h3, h4, -, -, -⟩ := findOptimalRoute_spec s orders start hne hn hc
  exact ⟨t, ⟨route, h1⟩, h3, h4⟩

theorem findOptimalRoute_minimum_witness :
    ∃ t : ℚ,
      (∃ route : List Nat, ∀ fuel, [orderA, orderB].length ≤ fuel →
        (DynamicProgrammingStrategy.mk zeroModel).findOptimalRoute fuel [orderA, orderB]
          (sampleLoc 0 0) = Except.ok (some route, t, none)) ∧
      (∃ p : List Nat, p.Perm (List.range [orderA, orderB].length) ∧
        routeCost (DynamicProgrammingStrategy.mk zeroModel).travelTimeCalculator
          [orderA, orderB] (sampleLoc 0 0) p = t) ∧
      (∀ p : List Nat, p.Perm (List.range [orderA, orderB].length) →
        t ≤ routeCost (DynamicProgrammingStrategy.mk zeroModel).travelTimeCalculator
          [orderA, orderB] (sampleLoc 0 0) p) :=
  findOptimalRoute_minimum (DynamicProgrammingStrategy.mk zeroModel) [orderA, orderB]
    (sampleLoc 0 0) (by simp) (by simp) sample_costs

/-- C2: on the orders A and B with legs that take no time the two strategies
report different total times: the brute-force strategy 2 (it visits A twice, under
every schedule), the dynamic-programming strategy 101 (it visits A, then B); both
return steps and no error. -/
theorem strategies_disagree :
    (∀ sched : List Nat,
      (ConcurrentNaiveStrategy.mk zeroModel).CalculateRoute sched [orderA, orderB]
          (sampleLoc 0 0) =
        Except.ok ⟨2, some [⟨"Pick up from Restaurant A", sampleLoc 2 2⟩,
            ⟨"Deliver to Consumer A", sampleLoc 1 1⟩, ⟨"Pick up from Restaurant A", sampleLoc 2 2⟩,
            ⟨"Deliver to Consumer A", sampleLoc 1 1⟩], none⟩) ∧
      ∀ k : Nat,
        (DynamicProgrammingStrategy.mk zeroModel).CalculateRoute (2 + k) [orderA, orderB]
            (sampleLoc 0 0) =
          Except.ok ⟨101, some [⟨"Pick up from Restaurant A", sampleLoc 2 2⟩,
            ⟨"Deliver to Consumer A", sampleLoc 1 1⟩, ⟨"Pick up from Restaurant B", sampleLoc 4 4⟩,
            ⟨"Deliver to Consumer B", sampleLoc 3 3⟩], none⟩ := by
  refine ⟨naive_sample, fun k => ?_⟩
  rw [CalculateRoute_of_findOptimalRoute _ _ _ (by simp) _ [0, 1] 101 (by simp)
    (sample_findOptimalRoute k)]
  have h : ¬ (101 : ℚ) > maxReasonableTravelTime := by norm_num [maxReasonableTravelTime]
  rw [if_neg h]
  rfl

/-- C6, as stated, fails for more than 64 orders: on 65 copies of order B with
legs that take no time CalculateRoute of the dynamic-programming strategy returns
neither ErrRouteImpossible nor a route, whatever the recursion budget. -/
theorem CalculateRoute_sixty_five_orders :
    List.replicate 65 orderB ≠ [] ∧
      CostsBelowSentinel zeroModel (List.replicate 65 orderB) (sampleLoc 0 0) ∧
      ∀ fuel, (DynamicProgrammingStrategy.mk zeroModel).CalculateRoute fuel
        (List.replicate 65 orderB) (sampleLoc 0 0) = Except.error Fault.outOfFuel :=
  ⟨by simp, replicate_costs orderB (by norm_num [orderB]) _,
    fun fuel => CalculateRoute_diverges _ _ _ (by simp) fuel⟩

/-- C6, amended: for every list of 1 to 64 orders, every start and every cost
model with every route cost below the MaxFloat64 sentinel, findOptimalRoute
returns a route and a total time t, and for every recursion budget of at least n
CalculateRoute returns ErrRouteImpossible with total -1 and nil steps if and only
if t exceeds 1440 minutes; otherwise it returns a nil error, the total t and the
step sequence of that route. -/
theorem CalculateRoute_ceiling (s : DynamicProgrammingStrategy) (orders : List Order)
    (start : GeoLocation) (hne : orders ≠ []) (hn : orders.length ≤ 64)
    (hc : CostsBelowSentinel s.travelTimeCalculator orders start) :
    ∃ (route : List Nat) (t : ℚ),
      (∀ fuel, orders.length ≤ fuel →
        s.findOptimalRoute fuel orders start = Except.ok (some route, t, none)) ∧
      generateRouteSteps orders route = Except.ok (expandRoute orders route) ∧
      ∀ fuel, orders.length ≤ fuel →
        (s.CalculateRoute fuel orders start =
            Except.ok ⟨-1, none, some GoError.ErrRouteImpossible⟩ ↔
          t > maxReasonableTravelTime) ∧
        (t ≤ maxReasonableTravelTime →
          s.CalculateRoute fuel orders start =
            Except.ok ⟨t, some (expandRoute orders route), none⟩) := by
  obtain ⟨route, t, h1, h2, -, -, -, -, -⟩ := findOptimalRoute_spec s orders start hne hn hc
  refine ⟨route, t, h1, generateRouteSteps_eq orders route h2, fun fuel hfuel => ?_⟩
  have h := CalculateRoute_of_findOptimalRoute s orders start hne fuel route t h2 (h1 fuel hfuel)
  by_cases ht : t > maxReasonableTravelTime
  · rw [if_pos ht] at h
    exact ⟨⟨fun _ => ht, fun _ => h⟩, fun hle => absurd ht (not_lt.mpr hle)⟩
  · rw [if_neg ht] at h
    refine ⟨⟨fun h2 => ?_, fun h2 => absurd h2 ht⟩, fun _ => h⟩
    rw [h] at h2
    simp only [Except.ok.injEq, RouteResult.mk.injEq] at h2
    exact absurd h2.2.2 (by simp)

theorem CalculateRoute_ceiling_witness :
    ∃ (route : List Nat) (t : ℚ),
      (∀ fuel, [orderA, orderB].length ≤ fuel →
        (DynamicProgrammingStrategy.mk zeroModel).findOptimalRoute fuel [orderA, orderB]
          (sampleLoc 0 0) = Except.ok (some route, t, none)) ∧
      generateRouteSteps [orderA, orderB] route =
        Except.ok (expandRoute [orderA, orderB] route) ∧
      ∀ fuel, [orderA, orderB].length ≤ fuel →
        ((DynamicProgrammingStrategy.mk zeroModel).CalculateRoute fuel [orderA, orderB]
            (sampleLoc 0 0) = Except.ok ⟨-1, none, some GoError.ErrRouteImpossible⟩ ↔
          t > maxReasonableTravelTime) ∧
        (t ≤ maxReasonableTravelTime →
          (DynamicProgrammingStrategy.mk zeroModel).CalculateRoute fuel [orderA, orderB]
            (sampleLoc 0 0) = Except.ok ⟨t, some (expandRoute [orderA, orderB] route), none⟩) :=
  CalculateRoute_ceiling (DynamicProgrammingStrategy.mk zeroModel) [orderA, orderB]
    (sampleLoc 0 0) (by simp) (by simp) sample_costs


/-! ## Non-negative durations: the bound on whole routes bounds their tails -/

theorem endOf_cons (orders : List Order) (src : GeoLocation) (i : Nat) (pre : List Nat)
    (hi : i < orders.length) (hpre : ∀ j ∈ pre, j < orders.length) :
    endOf orders src (i :: pre) = endOf orders (orderAt orders i).Consumer pre := by
  cases pre with
  | nil => simp [endOf, getElem?_orderAt hi]
  | cons j pre =>
    have hne : j :: pre ≠ [] := List.cons_ne_nil _ _
    have hlast : (j :: pre).getLast hne ∈ j :: pre := List.getLast_mem hne
    have hlt := hpre _ hlast
    simp only [endOf, List.getLast?_cons_cons, List.getLast?_eq_getLast _ hne,
      getElem?_orderAt hlt]

theorem routeCost_append (ttc : TravelTimeCalculator) (orders : List Order) :
    ∀ (pre : List Nat) (src : GeoLocation) (suf : List Nat), (∀ i ∈ pre, i < orders.length) →
      routeCost ttc orders src (pre ++ suf) =
        routeCost ttc orders src pre + routeCost ttc orders (endOf orders src pre) suf := by
  intro pre
  induction pre with
  | nil =>
    intro src suf _
    simp [routeCost, endOf]
  | cons i pre ih =>
    intro src suf h
    have hi : i < orders.length := h i (List.mem_cons_self _ _)
    have hpre : ∀ j ∈ pre, j < orders.length := fun j hj => h j (List.mem_cons_of_mem _ hj)
    rw [List.cons_append, routeCost_cons ttc src _ hi, routeCost_cons ttc src _ hi,
      ih _ suf hpre, endOf_cons orders src i pre hi hpre]
    ring

theorem routeCost_nonneg (ttc : TravelTimeCalculator) (orders : List Order)
    (hnn : ∀ o ∈ orders, ∀ src, 0 ≤ legCost ttc src o) :
    ∀ (q : List Nat) (src : GeoLocation), 0 ≤ routeCost ttc orders src q := by
  intro q
  induction q with
  | nil =>
    intro src
    simp [routeCost]
  | cons i q ih =>
    intro src
    rw [routeCost]
    cases ho : orders[i]? with
    | none => exact le_refl _
    | some o =>
      have h1 := hnn o (List.getElem?_mem ho) src
      have h2 := ih o.Consumer
      simp only
      linarith

theorem costsBelowSentinel_of_nonneg (ttc : TravelTimeCalculator) (orders : List Order)
    (start : GeoLocation) (hnn : ∀ o ∈ orders, ∀ src, 0 ≤ legCost ttc src o)
    (hwhole : ∀ p : List Nat, p.Perm (List.range orders.length) →
      routeCost ttc orders start p < MaxFloat64) :
    CostsBelowSentinel ttc orders start := by
  intro pre suf hp
  have hpre : ∀ i ∈ pre, i < orders.length := fun i hi =>
    List.mem_range.mp (hp.subset (List.mem_append_left _ hi))
  have h1 := routeCost_append ttc orders pre start suf hpre
  have h2 := routeCost_nonneg ttc orders hnn pre start
  have h3 := hwhole _ hp
  linarith


/-! ## The configuration builder -/

theorem build_cases (b : RouteCalculatorBuilder) :
    (b.speed ≤ 0 ∧ b.Build = (none, some GoError.ErrInvalidSpeed)) ∨
      (0 < b.speed ∧ b.distanceCalculator = none ∧
        b.Build = (none, some GoError.ErrNoDistanceCalculatorSet)) ∨
      (0 < b.speed ∧ ∃ dc, b.distanceCalculator = some dc ∧
        b.Build = (some ⟨⟨dc, b.speed⟩,
          some (RouteCalculationStrategy.concurrentNaive ⟨⟨dc, b.speed⟩⟩)⟩, none)) := by
  by_cases hs : b.speed ≤ 0
  · left
    exact ⟨hs, by simp [RouteCalculatorBuilder.Build, hs]⟩
  · right
    cases hd : b.distanceCalculator with
    | none =>
      left
      exact ⟨not_le.mp hs, rfl, by simp [RouteCalculatorBuilder.Build, hs, hd]⟩
    | some dc =>
      right
      exact ⟨not_le.mp hs, dc, rfl, by simp [RouteCalculatorBuilder.Build, hs, hd]⟩

theorem float64_le_zero_false (x : Float64) (h : x ≠ Float64.NaN) :
    Float64.le x (Float64.num 0) = false ↔ Float64.lt (Float64.num 0) x = true := by
  cases x with
  | NaN => exact absurd rfl h
  | negInf => simp [Float64.le, Float64.lt]
  | posInf => simp [Float64.le, Float64.lt]
  | num q => simp [Float64.le, Float64.lt]

theorem build64_cases (b : RouteCalculatorBuilder64) :
    (Float64.le b.speed (Float64.num 0) = true ∧
        b.Build = (none, some GoError.ErrInvalidSpeed)) ∨
      (Float64.le b.speed (Float64.num 0) = false ∧ b.distanceCalculator = none ∧
        b.Build = (none, some GoError.ErrNoDistanceCalculatorSet)) ∨
      (Float64.le b.speed (Float64.num 0) = false ∧ ∃ dc, b.distanceCalculator = some dc ∧
        b.Build = (some ⟨⟨dc, b.speed⟩, ⟨⟨dc, b.speed⟩⟩⟩, none)) := by
  cases hs : Float64.le b.speed (Float64.num 0) with
  | true =>
    left
    exact ⟨rfl, by simp [RouteCalculatorBuilder64.Build, hs]⟩
  | false =>
    right
    cases hd : b.distanceCalculator with
    | none =>
      left
      exact ⟨rfl, rfl, by simp [RouteCalculatorBuilder64.Build, hs, hd]⟩
    | some dc =>
      right
      exact ⟨rfl, dc, rfl, by simp [RouteCalculatorBuilder64.Build, hs, hd]⟩

theorem build64_outcomes (b : RouteCalculatorBuilder64) :
    (b.Build = (none, some GoError.ErrInvalidSpeed) ↔
        Float64.le b.speed (Float64.num 0) = true) ∧
      (b.Build = (none, some GoError.ErrNoDistanceCalculatorSet) ↔
        Float64.le b.speed (Float64.num 0) = false ∧ b.distanceCalculator = none) ∧
      ((∃ rc, b.Build = (some rc, none)) ↔
        Float64.le b.speed (Float64.num 0) = false ∧ b.distanceCalculator ≠ none) := by
  refine ⟨?_, ?_, ?_⟩
  · rcases build64_cases b with ⟨h1, h2⟩ | ⟨h1, -, h2⟩ | ⟨h1, dc, -, h2⟩
    · exact ⟨fun _ => h1, fun _ => h2⟩
    · rw [h2, h1]
      exact ⟨fun h => by simp at h, fun h => by simp at h⟩
    · rw [h2, h1]
      exact ⟨fun h => by simp at h, fun h => by simp at h⟩
  · rcases build64_cases b with ⟨h1, h2⟩ | ⟨h1, h3, h2⟩ | ⟨h1, dc, h3, h2⟩
    · rw [h2, h1]
      exact ⟨fun h => by simp at h, fun h => by simp at h⟩
    · exact ⟨fun _ => ⟨h1, h3⟩, fun _ => h2⟩
    · rw [h2, h3]
      exact ⟨fun h => by simp at h, fun h => by simp at h⟩
  · rcases build64_cases b with ⟨h1, h2⟩ | ⟨h1, h3, h2⟩ | ⟨h1, dc, h3, h2⟩
    · rw [h2, h1]
      exact ⟨fun ⟨rc, h⟩ => by simp at h, fun h => by simp at h⟩
    · rw [h2, h3]
      exact ⟨fun ⟨rc, h⟩ => by simp at h, fun h => absurd rfl h.2⟩
    · rw [h2, h3]
      exact ⟨fun _ => ⟨h1, by simp⟩, fun _ => ⟨_, rfl⟩⟩

/-- On a speed that is a number, Build on the float64 speed and Build of the exact
model return the same error and an orchestrator in the same cases. -/
theorem build_toFloat (b : RouteCalculatorBuilder) :
    b.toFloat.Build.2 = b.Build.2 ∧ b.toFloat.Build.1.isSome = b.Build.1.isSome := by
  rcases build_cases b with ⟨h1, h2⟩ | ⟨h1, h3, h2⟩ | ⟨h1, dc, h3, h2⟩
  · rw [h2]
    simp [RouteCalculatorBuilder64.Build, RouteCalculatorBuilder.toFloat, Float64.le, h1]
  · rw [h2]
    simp [RouteCalculatorBuilder64.Build, RouteCalculatorBuilder.toFloat, Float64.le,
      not_le.mpr h1, h3]
  · rw [h2]
    simp [RouteCalculatorBuilder64.Build, RouteCalculatorBuilder.toFloat, Float64.le,
      not_le.mpr h1, h3]

/-- C11, as stated, fails at a speed that is NaN, for which both `speed <= 0` and
`speed > 0` are false: with a distance function set Build succeeds, and with none
set it fails with ErrNoDistanceCalculatorSet. -/
theorem Build_NaN_speed :
    Float64.le Float64.NaN (Float64.num 0) = false ∧
      Float64.lt (Float64.num 0) Float64.NaN = false ∧
      (∃ rc, ((NewRouteCalculatorBuilder64.SetDistanceCalculator
        (some (fun _ _ => 0))).SetSpeed Float64.NaN).Build = (some rc, none)) ∧
      (NewRouteCalculatorBuilder64.SetSpeed Float64.NaN).Build =
        (none, some GoError.ErrNoDistanceCalculatorSet) :=
  ⟨rfl, rfl, ⟨_, rfl⟩, rfl⟩

/-- C11, amended: for every builder state, with any float64 as speed, Build fails
with ErrInvalidSpeed and no orchestrator exactly when the comparison `speed <= 0`
is true (as on a builder on which SetSpeed was never called, with or without a
distance function), fails with ErrNoDistanceCalculatorSet and no orchestrator
exactly when that comparison is false and no distance function is set, and
succeeds exactly when that comparison is false and a distance function is set.
For a speed that is not NaN the comparison is false exactly when `speed > 0`, so
there the three cases are those of the claim: speed at most 0; speed above 0 and
no distance function; speed above 0 and a distance function. -/
theorem Build_speed_guard (b : RouteCalculatorBuilder64) :
    (b.Build = (none, some GoError.ErrInvalidSpeed) ↔
        Float64.le b.speed (Float64.num 0) = true) ∧
      (b.Build = (none, some GoError.ErrNoDistanceCalculatorSet) ↔
        Float64.le b.speed (Float64.num 0) = false ∧ b.distanceCalculator = none) ∧
      ((∃ rc, b.Build = (some rc, none)) ↔
        Float64.le b.speed (Float64.num 0) = false ∧ b.distanceCalculator ≠ none) ∧
      (b.speed ≠ Float64.NaN →
        (b.Build = (none, some GoError.ErrNoDistanceCalculatorSet) ↔
          Float64.lt (Float64.num 0) b.speed = true ∧ b.distanceCalculator = none) ∧
        ((∃ rc, b.Build = (some rc, none)) ↔
          Float64.lt (Float64.num 0) b.speed = true ∧ b.distanceCalculator ≠ none)) ∧
      (∀ calculator : Option DistanceCalculator,
        (NewRouteCalculatorBuilder64.SetDistanceCalculator calculator).Build =
          (none, some GoError.ErrInvalidSpeed)) ∧
      NewRouteCalculatorBuilder64.Build = (none, some GoError.ErrInvalidSpeed) := by
  obtain ⟨h1, h2, h3⟩ := build64_outcomes b
  refine ⟨h1, h2, h3, ?_, ?_, ?_⟩
  · intro hnan
    rw [h2, h3, float64_le_zero_false b.speed hnan]
    exact ⟨Iff.rfl, Iff.rfl⟩
  · intro calculator
    rfl
  · rfl

/-- C12, as stated, fails on an empty order list: the orchestrator built with a
distance function and the speed 20 answers it with the empty-input error, while
its default brute-force strategy, called on the same input, returns MaxFloat64, nil
steps and a nil error. -/
theorem ComputeBestRoute_default_empty_orders :
    ∃ rc : RouteCalculator,
      ((NewRouteCalculatorBuilder.SetDistanceCalculator (some (fun _ _ => 0))).SetSpeed
        20).Build = (some rc, none) ∧
      rc.ComputeBestRoute ⟨[], 0⟩ [] (sampleLoc 0 0) =
        Except.ok ⟨0, none, some (GoError.New "no orders to process")⟩ ∧
      (ConcurrentNaiveStrategy.mk rc.TravelTimeCalculator).CalculateRoute [] []
        (sampleLoc 0 0) = Except.ok ⟨MaxFloat64, none, none⟩ :=
  ⟨_, build_of_pos _ 20 (by norm_num), rfl,
    CalculateRoute_far _ [] _ (fun o ho => absurd ho (List.not_mem_nil o)) []⟩

/-- C12, amended: whenever Build succeeds, the orchestrator holds a cost model
with exactly the distance function and the speed of the builder (each setter
overwrites its own field only, so these are the values given last), its active
strategy is the brute-force strategy with that same cost model, and on a non-empty
order list and a present start ComputeBestRoute, without any SetRoutingAlgo call,
returns what the brute-force strategy returns. -/
theorem Build_default (b : RouteCalculatorBuilder) (rc : RouteCalculator)
    (h : b.Build = (some rc, none)) :
    (∃ dc, b.distanceCalculator = some dc ∧ rc.TravelTimeCalculator = ⟨dc, b.speed⟩ ∧
        rc.strategy = some (RouteCalculationStrategy.concurrentNaive ⟨⟨dc, b.speed⟩⟩) ∧
        ∀ (env : Env) (orders : List Order) (start : GeoLocation), orders ≠ [] →
          start.IsNil = false →
          rc.ComputeBestRoute env orders start =
            (ConcurrentNaiveStrategy.mk ⟨dc, b.speed⟩).CalculateRoute env.sched orders start) ∧
      (∀ (b0 : RouteCalculatorBuilder) (calculator : Option DistanceCalculator) (speed : ℚ),
        (b0.SetSpeed speed).speed = speed ∧
        (b0.SetSpeed speed).distanceCalculator = b0.distanceCalculator ∧
        (b0.SetDistanceCalculator calculator).distanceCalculator = calculator ∧
        (b0.SetDistanceCalculator calculator).speed = b0.speed) := by
  refine ⟨?_, fun _ _ _ => ⟨rfl, rfl, rfl, rfl⟩⟩
  rcases build_cases b with ⟨-, h2⟩ | ⟨-, -, h2⟩ | ⟨-, dc, h3, h2⟩
  · rw [h2] at h
    simp at h
  · rw [h2] at h
    simp at h
  · rw [h2] at h
    simp only [Prod.mk.injEq, Option.some.injEq, and_true] at h
    subst h
    refine ⟨dc, h3, rfl, rfl, ?_⟩
    intro env orders start hne hstart
    rw [computeBestRoute_of_strategy _ env orders start hne hstart _ rfl]
    rfl

theorem Build_default_witness :
    (∃ dc, ((NewRouteCalculatorBuilder.SetDistanceCalculator
          (some mockModel.DistanceCalculator)).SetSpeed 10).distanceCalculator = some dc ∧
        (RouteCalculator.mk ⟨mockModel.DistanceCalculator, 10⟩
          (some (RouteCalculationStrategy.concurrentNaive
            ⟨⟨mockModel.DistanceCalculator, 10⟩⟩))).TravelTimeCalculator =
          ⟨dc, ((NewRouteCalculatorBuilder.SetDistanceCalculator
            (some mockModel.DistanceCalculator)).SetSpeed 10).speed⟩ ∧
        (RouteCalculator.mk ⟨mockModel.DistanceCalculator, 10⟩
          (some (RouteCalculationStrategy.concurrentNaive
            ⟨⟨mockModel.DistanceCalculator, 10⟩⟩))).strategy =
          some (RouteCalculationStrategy.concurrentNaive
            ⟨⟨dc, ((NewRouteCalculatorBuilder.SetDistanceCalculator
              (some mockModel.DistanceCalculator)).SetSpeed 10).speed⟩⟩) ∧
        ∀ (env : Env) (orders : List Order) (start : GeoLocation), orders ≠ [] →
          start.IsNil = false →
          (RouteCalculator.mk ⟨mockModel.DistanceCalculator, 10⟩
            (some (RouteCalculationStrategy.concurrentNaive
              ⟨⟨mockModel.DistanceCalculator, 10⟩⟩))).ComputeBestRoute env orders start =
            (ConcurrentNaiveStrategy.mk
              ⟨dc, ((NewRouteCalculatorBuilder.SetDistanceCalculator
                (some mockModel.DistanceCalculator)).SetSpeed 10).speed⟩).CalculateRoute
              env.sched orders start) ∧
      (∀ (b0 : RouteCalculatorBuilder) (calculator : Option DistanceCalculator) (speed : ℚ),
        (b0.SetSpeed speed).speed = speed ∧
        (b0.SetSpeed speed).distanceCalculator = b0.distanceCalculator ∧
        (b0.SetDistanceCalculator calculator).distanceCalculator = calculator ∧
        (b0.SetDistanceCalculator calculator).speed = b0.speed) :=
  Build_default
    ((NewRouteCalculatorBuilder.SetDistanceCalculator
      (some mockModel.DistanceCalculator)).SetSpeed 10)
    (RouteCalculator.mk ⟨mockModel.DistanceCalculator, 10⟩
      (some (RouteCalculationStrategy.concurrentNaive ⟨⟨mockModel.DistanceCalculator, 10⟩⟩)))
    (build_of_pos _ 10 (by norm_num))


/-! ## Validation of orders -/

theorem validateOrdersLoop_eq_none (orders : List Order64) :
    ValidateOrdersLoop orders = none ↔
      ∀ o ∈ orders, o.ConsumerName ≠ "" ∧ o.RestaurantName ≠ "" ∧
        o.Restaurant.IsNil = false ∧ o.Consumer.IsNil = false ∧
        Float64.le o.PrepTime (Float64.num 0) = false := by
  induction orders with
  | nil => simp [ValidateOrdersLoop]
  | cons o rest ih =>
    rw [ValidateOrdersLoop]
    by_cases h1 : o.ConsumerName = "" ∨ o.RestaurantName = ""
    · rw [if_pos h1]
      constructor
      · intro h; cases h
      · intro h
        have := h o (List.mem_cons_self _ _)
        rcases h1 with h1 | h1
        · exact absurd h1 this.1
        · exact absurd h1 this.2.1
    · rw [if_neg h1]
      have h1' : o.ConsumerName ≠ "" ∧ o.RestaurantName ≠ "" := not_or.mp h1
      by_cases h2 : (o.Restaurant.IsNil || o.Consumer.IsNil) = true
      · rw [if_pos h2]
        constructor
        · intro h; cases h
        · intro h
          have := h o (List.mem_cons_self _ _)
          rw [this.2.2.1, this.2.2.2.1] at h2
          simp at h2
      · rw [if_neg h2]
        have h2' : o.Restaurant.IsNil = false ∧ o.Consumer.IsNil = false := by
          simpa using h2
        by_cases h3 : Float64.le o.PrepTime (Float64.num 0) = true
        · rw [if_pos h3]
          constructor
          · intro h; cases h
          · intro h
            have := h o (List.mem_cons_self _ _)
            rw [this.2.2.2.2] at h3
            cases h3
        · rw [if_neg h3, ih]
          constructor
          · intro h x hx
            rcases List.mem_cons.mp hx with rfl | hx
            · exact ⟨h1'.1, h1'.2, h2'.1, h2'.2, by simpa using h3⟩
            · exact h x hx
          · intro h x hx
            exact h x (List.mem_cons_of_mem _ hx)

theorem geoLocation_isNil_false (g : GeoLocation) :
    g.IsNil = false ↔ (g.Lat ≠ none ∧ g.Lon ≠ none) := by
  cases hlat : g.Lat <;> cases hlon : g.Lon <;> simp [GeoLocation.IsNil, hlat, hlon]

theorem validateOrders_eq_none (orders : List Order64) :
    ValidateOrders orders = none ↔
      orders ≠ [] ∧ ∀ o ∈ orders, o.ConsumerName ≠ "" ∧ o.RestaurantName ≠ "" ∧
        (o.Restaurant.Lat ≠ none ∧ o.Restaurant.Lon ≠ none) ∧
        (o.Consumer.Lat ≠ none ∧ o.Consumer.Lon ≠ none) ∧
        Float64.le o.PrepTime (Float64.num 0) = false := by
  unfold ValidateOrders
  by_cases h0 : orders.length = 0
  · rw [if_pos h0]
    have : orders = [] := List.length_eq_zero.mp h0
    constructor
    · intro h; cases h
    · intro h; exact absurd this h.1
  · rw [if_neg h0, validateOrdersLoop_eq_none]
    have hne : orders ≠ [] := fun h => h0 (by rw [h]; rfl)
    constructor
    · intro h
      refine ⟨hne, fun o ho => ?_⟩
      obtain ⟨a, b, c, d, e⟩ := h o ho
      exact ⟨a, b, (geoLocation_isNil_false _).mp c, (geoLocation_isNil_false _).mp d, e⟩
    · intro h o ho
      obtain ⟨a, b, c, d, e⟩ := h.2 o ho
      exact ⟨a, b, (geoLocation_isNil_false _).mpr c, (geoLocation_isNil_false _).mpr d, e⟩

/-- On orders of the exact model, whose preparation times are numbers,
ValidateOrders accepts exactly the non-empty lists of orders with names,
coordinates and a strictly positive preparation time. -/
theorem validateOrders_toFloat (orders : List Order) :
    ValidateOrders (orders.map Order.toFloat) = none ↔
      orders ≠ [] ∧ ∀ o ∈ orders, o.ConsumerName ≠ "" ∧ o.RestaurantName ≠ "" ∧
        (o.Restaurant.Lat ≠ none ∧ o.Restaurant.Lon ≠ none) ∧
        (o.Consumer.Lat ≠ none ∧ o.Consumer.Lon ≠ none) ∧ 0 < o.PrepTime := by
  rw [validateOrders_eq_none]
  constructor
  · rintro ⟨hne, h⟩
    refine ⟨fun h0 => hne (by rw [h0]; rfl), fun o ho => ?_⟩
    obtain ⟨a, b, c, d, e⟩ := h o.toFloat (List.mem_map_of_mem _ ho)
    exact ⟨a, b, c, d, by simpa [Order.toFloat, Float64.le] using e⟩
  · rintro ⟨hne, h⟩
    refine ⟨fun h0 => hne (List.map_eq_nil_iff.mp h0), fun o ho => ?_⟩
    obtain ⟨x, hx, rfl⟩ := List.mem_map.mp ho
    obtain ⟨a, b, c, d, e⟩ := h x hx
    exact ⟨a, b, c, d, by simpa [Order.toFloat, Float64.le] using e⟩

/-- C13, as stated, fails at a preparation time that is NaN, for which both
`PrepTime <= 0` and `PrepTime > 0` are false: ValidateOrders returns no error on a
list of one order with names, coordinates and the preparation time NaN, which is
not strictly positive. -/
theorem ValidateOrders_NaN_PrepTime :
    ValidateOrders [orderNaN] = none ∧
      orderNaN.PrepTime = Float64.NaN ∧
      Float64.lt (Float64.num 0) orderNaN.PrepTime = false ∧
      Float64.le orderNaN.PrepTime (Float64.num 0) = false := by
  refine ⟨?_, rfl, rfl, rfl⟩
  simp [ValidateOrders, ValidateOrdersLoop, orderNaN, GeoLocation.IsNil, Float64.le]

/-- C13, amended: for every order list, with any float64 as preparation time,
ValidateOrders returns no error exactly when the list is non-empty and every order
has a non-empty consumer name, a non-empty restaurant name, a restaurant
coordinate and a consumer coordinate with latitude and longitude present, and a
preparation time on which the comparison `PrepTime <= 0` is false; in every other
case it returns an error.  When no preparation time of the list is NaN, the
comparison is false exactly when the preparation time is strictly positive, and
the condition is that of the claim. -/
theorem ValidateOrders_PrepTime_guard (orders : List Order64) :
    (ValidateOrders orders = none ↔
      orders ≠ [] ∧ ∀ o ∈ orders, o.ConsumerName ≠ "" ∧ o.RestaurantName ≠ "" ∧
        (o.Restaurant.Lat ≠ none ∧ o.Restaurant.Lon ≠ none) ∧
        (o.Consumer.Lat ≠ none ∧ o.Consumer.Lon ≠ none) ∧
        Float64.le o.PrepTime (Float64.num 0) = false) ∧
      ((∀ o ∈ orders, o.PrepTime ≠ Float64.NaN) →
        (ValidateOrders orders = none ↔
          orders ≠ [] ∧ ∀ o ∈ orders, o.ConsumerName ≠ "" ∧ o.RestaurantName ≠ "" ∧
            (o.Restaurant.Lat ≠ none ∧ o.Restaurant.Lon ≠ none) ∧
            (o.Consumer.Lat ≠ none ∧ o.Consumer.Lon ≠ none) ∧
            Float64.lt (Float64.num 0) o.PrepTime = true)) ∧
      (ValidateOrders orders ≠ none ↔ ∃ e, ValidateOrders orders = some e) := by
  refine ⟨validateOrders_eq_none orders, ?_, ?_⟩
  · intro hnan
    rw [validateOrders_eq_none]
    constructor
    · rintro ⟨hne, h⟩
      refine ⟨hne, fun o ho => ?_⟩
      obtain ⟨a, b, c, d, e⟩ := h o ho
      exact ⟨a, b, c, d, (float64_le_zero_false _ (hnan o ho)).mp e⟩
    · rintro ⟨hne, h⟩
      refine ⟨hne, fun o ho => ?_⟩
      obtain ⟨a, b, c, d, e⟩ := h o ho
      exact ⟨a, b, c, d, (float64_le_zero_false _ (hnan o ho)).mpr e⟩
  · cases ValidateOrders orders with
    | none => simp
    | some e => simp

/-! ## The cost model -/

/-- C14: for a speed above 0, Calculate is the distance divided by the speed,
times 60; a distance of 118.26 at the speed 20 gives 354.78 minutes; the result is
non-negative when the distance is; and two cost models with the same speed whose
distance functions agree on the pair of coordinates give the same travel time. -/
theorem Calculate_formula (ttc : TravelTimeCalculator) (a b : GeoLocation)
    (hs : 0 < ttc.Speed) :
    ttc.Calculate a b = (ttc.DistanceCalculator a b / ttc.Speed) * 60 ∧
      (0 ≤ ttc.DistanceCalculator a b → 0 ≤ ttc.Calculate a b) ∧
      (∀ ttc2 : TravelTimeCalculator, ttc2.Speed = ttc.Speed →
        ttc2.DistanceCalculator a b = ttc.DistanceCalculator a b →
        ttc2.Calculate a b = ttc.Calculate a b) ∧
      (ttc.DistanceCalculator a b = 11826 / 100 → ttc.Speed = 20 →
        ttc.Calculate a b = 35478 / 100) := by
  refine ⟨rfl, ?_, ?_, ?_⟩
  · intro hd
    unfold TravelTimeCalculator.Calculate
    positivity
  · intro ttc2 h1 h2
    unfold TravelTimeCalculator.Calculate
    rw [h1, h2]
  · intro h1 h2
    unfold TravelTimeCalculator.Calculate
    rw [h1, h2]
    norm_num

theorem Calculate_formula_witness :
    (TravelTimeCalculator.mk (fun _ _ => 11826 / 100) 20).Calculate (sampleLoc 1 1)
        (sampleLoc 2 2) =
        ((TravelTimeCalculator.mk (fun _ _ => 11826 / 100) 20).DistanceCalculator
          (sampleLoc 1 1) (sampleLoc 2 2) /
          (TravelTimeCalculator.mk (fun _ _ => 11826 / 100) 20).Speed) * 60 ∧
      (0 ≤ (TravelTimeCalculator.mk (fun _ _ => 11826 / 100) 20).DistanceCalculator
          (sampleLoc 1 1) (sampleLoc 2 2) →
        0 ≤ (TravelTimeCalculator.mk (fun _ _ => 11826 / 100) 20).Calculate
          (sampleLoc 1 1) (sampleLoc 2 2)) ∧
      (∀ ttc2 : TravelTimeCalculator,
        ttc2.Speed = (TravelTimeCalculator.mk (fun _ _ => 11826 / 100) 20).Speed →
        ttc2.DistanceCalculator (sampleLoc 1 1) (sampleLoc 2 2) =
          (TravelTimeCalculator.mk (fun _ _ => 11826 / 100) 20).DistanceCalculator
            (sampleLoc 1 1) (sampleLoc 2 2) →
        ttc2.Calculate (sampleLoc 1 1) (sampleLoc 2 2) =
          (TravelTimeCalculator.mk (fun _ _ => 11826 / 100) 20).Calculate
            (sampleLoc 1 1) (sampleLoc 2 2)) ∧
      ((TravelTimeCalculator.mk (fun _ _ => 11826 / 100) 20).DistanceCalculator
          (sampleLoc 1 1) (sampleLoc 2 2) = 11826 / 100 →
        (TravelTimeCalculator.mk (fun _ _ => 11826 / 100) 20).Speed = 20 →
        (TravelTimeCalculator.mk (fun _ _ => 11826 / 100) 20).Calculate
          (sampleLoc 1 1) (sampleLoc 2 2) = 35478 / 100) :=
  Calculate_formula (TravelTimeCalculator.mk (fun _ _ => 11826 / 100) 20)
    (sampleLoc 1 1) (sampleLoc 2 2) (by norm_num)


/-! ## The time and the steps of a candidate sequence -/

theorem generatePermutations_lt {n : Nat} {p : List Nat} (h : p ∈ generatePermutations n) :
    ∀ i ∈ p, i < n := by
  induction n using Nat.strong_induction_on generalizing p with
  | _ n ih =>
    match n, h, ih with
    | 1, h, _ =>
      simp [generatePermutations] at h
      subst h
      intro i hi
      simp at hi
      omega
    | 0, h, _ => simp [generatePermutations] at h
    | n + 2, h, ih =>
      rw [generatePermutations_succ_succ] at h
      simp only [List.mem_flatMap, List.mem_map, List.mem_range] at h
      obtain ⟨i, hi, q, hq, rfl⟩ := h
      intro j hj
      rcases List.mem_cons.mp hj with rfl | hj
      · exact hi
      · have := ih (n + 1) (by omega) hq j hj
        omega

theorem expandRoute_cons (orders : List Order) {i : Nat} (rest : List Nat)
    (hi : i < orders.length) :
    expandRoute orders (i :: rest) =
      ⟨"Pick up from " ++ (orderAt orders i).RestaurantName, (orderAt orders i).Restaurant⟩ ::
        ⟨"Deliver to " ++ (orderAt orders i).ConsumerName, (orderAt orders i).Consumer⟩ ::
          expandRoute orders rest := by
  unfold expandRoute
  simp only [List.flatMap_cons, getElem?_orderAt hi, List.cons_append, List.nil_append]

theorem calculateRouteTimeLoop_spec (s : ConcurrentNaiveStrategy) (orders : List Order) :
    ∀ (rest : List Nat) (t : ℚ) (loc : GeoLocation) (steps : Option (List RouteStep)),
      (∀ i ∈ rest, i < orders.length) →
      s.calculateRouteTimeLoop orders rest t loc steps =
          Except.ok ⟨-1, none, some GoError.ErrRouteImpossible⟩ ∨
        s.calculateRouteTimeLoop orders rest t loc steps =
          Except.ok ⟨t + routeCost s.travelTimeCalculator orders loc rest,
            if rest = [] then steps else some (steps.getD [] ++ expandRoute orders rest),
            none⟩ := by
  intro rest
  induction rest with
  | nil =>
    intro t loc steps _
    right
    simp [ConcurrentNaiveStrategy.calculateRouteTimeLoop, routeCost]
    rfl
  | cons i rest ih =>
    intro t loc steps h
    have hi : i < orders.length := h i (List.mem_cons_self _ _)
    have hrest : ∀ j ∈ rest, j < orders.length := fun j hj => h j (List.mem_cons_of_mem _ hj)
    rw [ConcurrentNaiveStrategy.calculateRouteTimeLoop]
    simp only [indexOrder_orderAt hi, bind, Except.bind]
    by_cases hc : t + s.travelTimeCalculator.Calculate loc (orderAt orders i).Restaurant >
        maxReasonableTravelTime
    · left
      rw [if_pos hc]
      rfl
    · rw [if_neg hc]
      rcases ih (t + s.travelTimeCalculator.Calculate loc (orderAt orders i).Restaurant +
          (orderAt orders i).PrepTime +
          s.travelTimeCalculator.Calculate (orderAt orders i).Restaurant
            (orderAt orders i).Consumer)
        (orderAt orders i).Consumer
        (appendStep (appendStep steps
          ⟨"Pick up from " ++ (orderAt orders i).RestaurantName, (orderAt orders i).Restaurant⟩)
          ⟨"Deliver to " ++ (orderAt orders i).ConsumerName, (orderAt orders i).Consumer⟩)
        hrest with h1 | h1
      · left
        exact h1
      · right
        rw [h1, routeCost_cons s.travelTimeCalculator loc rest hi, expandRoute_cons orders rest hi]
        have hcost : t + s.travelTimeCalculator.Calculate loc (orderAt orders i).Restaurant +
            (orderAt orders i).PrepTime +
            s.travelTimeCalculator.Calculate (orderAt orders i).Restaurant
              (orderAt orders i).Consumer +
            routeCost s.travelTimeCalculator orders (orderAt orders i).Consumer rest =
            t + (stepCost s.travelTimeCalculator orders loc i +
              routeCost s.travelTimeCalculator orders (orderAt orders i).Consumer rest) := by
          unfold stepCost legCost
          ring
        rw [hcost]
        by_cases hr : rest = []
        · subst hr
          simp [appendStep, expandRoute]
        · simp [appendStep, hr]

theorem calculateRouteTime_spec (s : ConcurrentNaiveStrategy) (orders : List Order)
    (start : GeoLocation) (r : List Nat) (h : ∀ i ∈ r, i < orders.length) :
    s.calculateRouteTime r orders start =
        Except.ok ⟨-1, none, some GoError.ErrRouteImpossible⟩ ∨
      s.calculateRouteTime r orders start =
        Except.ok ⟨routeCost s.travelTimeCalculator orders start r,
          if r = [] then none else some (expandRoute orders r), none⟩ := by
  have := calculateRouteTimeLoop_spec s orders r 0 start none h
  unfold ConcurrentNaiveStrategy.calculateRouteTime
  simpa using this

theorem expandRoute_length (orders : List Order) (r : List Nat)
    (h : ∀ i ∈ r, i < orders.length) : (expandRoute orders r).length = 2 * r.length := by
  induction r with
  | nil => rfl
  | cons i r ih =>
    rw [expandRoute_cons orders r (h i (List.mem_cons_self _ _)), List.length_cons,
      List.length_cons, ih (fun j hj => h j (List.mem_cons_of_mem _ hj)), List.length_cons]
    omega

theorem expandRoute_getElem (orders : List Order) :
    ∀ (r : List Nat), (∀ i ∈ r, i < orders.length) → ∀ (k i : Nat), r[k]? = some i →
      (expandRoute orders r)[2 * k]? =
          some ⟨"Pick up from " ++ (orderAt orders i).RestaurantName,
            (orderAt orders i).Restaurant⟩ ∧
        (expandRoute orders r)[2 * k + 1]? =
          some ⟨"Deliver to " ++ (orderAt orders i).ConsumerName,
            (orderAt orders i).Consumer⟩ := by
  intro r
  induction r with
  | nil =>
    intro _ k i hk
    simp at hk
  | cons j r ih =>
    intro h k i hk
    rw [expandRoute_cons orders r (h j (List.mem_cons_self _ _))]
    cases k with
    | zero =>
      simp only [List.getElem?_cons_zero, Option.some.injEq] at hk
      subst hk
      simp
    | succ k =>
      simp only [List.getElem?_cons_succ] at hk
      have := ih (fun x hx => h x (List.mem_cons_of_mem _ hx)) k i hk
      have e1 : 2 * (k + 1) = (2 * k + 1) + 1 := by ring
      rw [e1]
      simpa [List.getElem?_cons_succ] using this


/-- C15: for a sequence r of valid order indices on which calculateRouteTime
returns no error, the steps it built and the steps generateRouteSteps builds are
the same sequence (for an empty r the former is a nil slice, the latter an empty
one): 2 * len(r) steps, step 2k the pick-up at the restaurant of orders[r[k]] and
step 2k+1 the delivery to its consumer, with their names and coordinates. -/
theorem steps_agree (s : ConcurrentNaiveStrategy) (orders : List Order) (start : GeoLocation)
    (r : List Nat) (hvalid : ∀ i ∈ r, i < orders.length) (res : RouteResult)
    (hres : s.calculateRouteTime r orders start = Except.ok res) (herr : res.err = none) :
    generateRouteSteps orders r = Except.ok (res.steps.getD []) ∧
      (r ≠ [] → res.steps = some (expandRoute orders r)) ∧
      (r = [] → res.steps = none) ∧
      (res.steps.getD []).length = 2 * r.length ∧
      ∀ (k i : Nat), r[k]? = some i →
        ∃ order, orders[i]? = some order ∧
          (res.steps.getD [])[2 * k]? =
            some ⟨"Pick up from " ++ order.RestaurantName, order.Restaurant⟩ ∧
          (res.steps.getD [])[2 * k + 1]? =
            some ⟨"Deliver to " ++ order.ConsumerName, order.Consumer⟩ := by
  have hsteps : res.steps = if r = [] then none else some (expandRoute orders r) := by
    rcases calculateRouteTime_spec s orders start r hvalid with h | h
    · rw [h] at hres
      simp only [Except.ok.injEq] at hres
      rw [← hres] at herr
      simp at herr
    · rw [h] at hres
      simp only [Except.ok.injEq] at hres
      rw [← hres]
  have hget : res.steps.getD [] = expandRoute orders r := by
    rw [hsteps]
    by_cases hr : r = []
    · subst hr
      rfl
    · simp [hr]
  refine ⟨?_, ?_, ?_, ?_, ?_⟩
  · rw [hget]
    exact generateRouteSteps_eq orders r hvalid
  · intro hr
    rw [hsteps, if_neg hr]
  · intro hr
    rw [hsteps, if_pos hr]
  · rw [hget]
    exact expandRoute_length orders r hvalid
  · intro k i hk
    have hi : i < orders.length := hvalid i (List.getElem?_mem hk)
    rw [hget]
    exact ⟨orderAt orders i, getElem?_orderAt hi, expandRoute_getElem orders r hvalid k i hk⟩

theorem steps_agree_witness :
    generateRouteSteps [orderA, orderB] [1, 0] =
        Except.ok ((RouteResult.mk 101 (some (expandRoute [orderA, orderB] [1, 0]))
          none).steps.getD []) ∧
      (([1, 0] : List Nat) ≠ [] →
        (RouteResult.mk 101 (some (expandRoute [orderA, orderB] [1, 0])) none).steps =
          some (expandRoute [orderA, orderB] [1, 0])) ∧
      (([1, 0] : List Nat) = [] →
        (RouteResult.mk 101 (some (expandRoute [orderA, orderB] [1, 0])) none).steps = none) ∧
      ((RouteResult.mk 101 (some (expandRoute [orderA, orderB] [1, 0]))
        none).steps.getD []).length = 2 * ([1, 0] : List Nat).length ∧
      ∀ (k i : Nat), ([1, 0] : List Nat)[k]? = some i →
        ∃ order, [orderA, orderB][i]? = some order ∧
          ((RouteResult.mk 101 (some (expandRoute [orderA, orderB] [1, 0]))
            none).steps.getD [])[2 * k]? =
            some ⟨"Pick up from " ++ order.RestaurantName, order.Restaurant⟩ ∧
          ((RouteResult.mk 101 (some (expandRoute [orderA, orderB] [1, 0]))
            none).steps.getD [])[2 * k + 1]? =
            some ⟨"Deliver to " ++ order.ConsumerName, order.Consumer⟩ :=
  steps_agree (ConcurrentNaiveStrategy.mk zeroModel) [orderA, orderB] (sampleLoc 0 0) [1, 0]
    (by decide) (RouteResult.mk 101 (some (expandRoute [orderA, orderB] [1, 0])) none)
    (by
      simp [ConcurrentNaiveStrategy.calculateRouteTime,
        ConcurrentNaiveStrategy.calculateRouteTimeLoop, indexOrder, zeroModel, orderA, orderB,
        TravelTimeCalculator.Calculate, maxReasonableTravelTime, appendStep, expandRoute]
      norm_num
      rfl)
    rfl


/-! ## The reduction does not depend on the arrival order -/

theorem workerSends_eq (s : ConcurrentNaiveStrategy) (orders : List Order) (start : GeoLocation)
    (perms : List (List Nat)) (h : ∀ p ∈ perms, ∀ i ∈ p, i < orders.length) :
    s.workerSends orders start perms =
      Except.ok (feasibleCandidates s orders start perms) := by
  induction perms with
  | nil => rfl
  | cons p perms ih =>
    have ih2 := ih (fun q hq => h q (List.mem_cons_of_mem _ hq))
    have hp := h p (List.mem_cons_self _ _)
    unfold feasibleCandidates at ih2 ⊢
    rcases calculateRouteTime_spec s orders start p hp with h1 | h1
    · simp only [ConcurrentNaiveStrategy.workerSends, h1, ih2, bind, Except.bind,
        List.filterMap_cons, Option.isSome_some, if_true]
      rfl
    · simp only [ConcurrentNaiveStrategy.workerSends, h1, ih2, bind, Except.bind,
        List.filterMap_cons, Option.isSome_none, Bool.false_eq_true, if_false]
      rfl

theorem mem_feasibleCandidates (s : ConcurrentNaiveStrategy) (orders : List Order)
    (start : GeoLocation) (perms : List (List Nat)) (c : ℚ × Option (List RouteStep)) :
    c ∈ feasibleCandidates s orders start perms ↔
      ∃ p ∈ perms, s.calculateRouteTime p orders start = Except.ok ⟨c.1, c.2, none⟩ := by
  unfold feasibleCandidates
  rw [List.mem_filterMap]
  constructor
  · rintro ⟨p, hp, hc⟩
    refine ⟨p, hp, ?_⟩
    cases hres : s.calculateRouteTime p orders start with
    | error e =>
      rw [hres] at hc
      simp at hc
    | ok r =>
      rw [hres] at hc
      simp only at hc
      cases herr : r.err with
      | some e =>
        rw [herr] at hc
        simp at hc
      | none =>
        rw [herr] at hc
        simp only [Option.isSome_none, Bool.false_eq_true, if_false, Option.some.injEq] at hc
        rw [← hc]
        simp only
        rw [← herr]
  · rintro ⟨p, hp, hc⟩
    exact ⟨p, hp, by rw [hc]; simp⟩

theorem CalculateRoute_eq_reduceBest (s : ConcurrentNaiveStrategy) (orders : List Order)
    (start : GeoLocation) (sched : List Nat) :
    s.CalculateRoute sched orders start =
      Except.ok ⟨(reduceBest (interleave sched (List.replicate numWorkers
          (feasibleCandidates s orders start (generatePermutations orders.length))))).1,
        (reduceBest (interleave sched (List.replicate numWorkers
          (feasibleCandidates s orders start (generatePermutations orders.length))))).2,
        none⟩ := by
  have hw := workerSends_eq s orders start (generatePermutations orders.length)
    (fun p hp => generatePermutations_lt hp)
  simp only [ConcurrentNaiveStrategy.CalculateRoute, hw, bind, Except.bind]
  rfl

theorem reduceBest_same_members (sends received : List (ℚ × Option (List RouteStep)))
    (hmem : ∀ x, x ∈ received ↔ x ∈ sends) :
    (reduceBest received).1 = (reduceBest sends).1 ∧
      (∀ c ∈ sends, (reduceBest received).1 ≤ c.1) ∧
      ((∃ c ∈ sends, c.1 < MaxFloat64) → reduceBest received ∈ sends) ∧
      ((∀ c ∈ sends, MaxFloat64 ≤ c.1) → reduceBest received = (MaxFloat64, none)) := by
  obtain ⟨h1, h2, h3⟩ := reduceBest_spec received
  obtain ⟨g1, g2, g3⟩ := reduceBest_spec sends
  have h3' : ∀ c ∈ sends, (reduceBest received).1 ≤ c.1 :=
    fun c hc => h3 c ((hmem c).mpr hc)
  refine ⟨le_antisymm ?_ ?_, h3', ?_, ?_⟩
  · rcases g1 with g1 | ⟨g1, -⟩
    · rw [g1]
      exact h2
    · exact h3' _ g1
  · rcases h1 with h1 | ⟨h1, -⟩
    · rw [h1]
      exact g2
    · exact g3 _ ((hmem _).mp h1)
  · rintro ⟨c, hc, hlt⟩
    rcases h1 with h1 | ⟨h1, -⟩
    · have := h3' c hc
      rw [h1] at this
      exact absurd hlt (not_lt.mpr this)
    · exact (hmem _).mp h1
  · intro hall
    rcases h1 with h1 | ⟨h1, hlt⟩
    · exact h1
    · have := hall _ ((hmem _).mp h1)
      exact absurd hlt (not_lt.mpr this)

theorem mem_of_perm_replicate {α : Type} (sends received : List α)
    (h : received.Perm (List.replicate numWorkers sends).flatten) (x : α) :
    x ∈ received ↔ x ∈ sends := by
  rw [h.mem_iff]
  simp [numWorkers, List.mem_flatten]

/-- C19, as stated, fails when no candidate is feasible: with every distance
1000000 and the speed 10 (the no-route test of the repository) a worker submits
nothing, and the reduction reports MaxFloat64 with nil steps under every schedule:
the total is the time of no candidate and the steps belong to none. -/
theorem CalculateRoute_without_candidates :
    (ConcurrentNaiveStrategy.mk mockModel).workerSends [orderA] (sampleLoc 0 0)
        (generatePermutations 1) = Except.ok [] ∧
      ∀ sched : List Nat,
        (ConcurrentNaiveStrategy.mk mockModel).CalculateRoute sched [orderA] (sampleLoc 0 0) =
          Except.ok ⟨MaxFloat64, none, none⟩ := by
  have hfar : ∀ o ∈ [orderA],
      (ConcurrentNaiveStrategy.mk mockModel).travelTimeCalculator.Calculate (sampleLoc 0 0)
        o.Restaurant > maxReasonableTravelTime := by
    intro o _
    norm_num [TravelTimeCalculator.Calculate, mockModel, maxReasonableTravelTime]
  exact ⟨workerSends_far _ [orderA] _ hfar _ (fun p hp => generatePermutations_head hp),
    fun sched => CalculateRoute_far _ [orderA] _ hfar sched⟩

/-- C19, amended: with the result channel modelled as the list of the results
received, each of the five workers submits the result of every candidate of
generatePermutations(n) that calculateRouteTime returns without error, and for
every arrival order the reduction reports the total time that one sequential pass
over the submissions of a single worker reports; this total is at most the total
of every feasible candidate; when some feasible candidate has a total below
MaxFloat64 the total and the steps returned are those of one feasible candidate
(so the total is the minimum over the feasible candidates); when none has, the
result is MaxFloat64 with nil steps.  The list received is a rearrangement of the
five workers' submissions, and the reduction of any rearrangement of them gives the
same total. -/
theorem CalculateRoute_any_arrival_order (s : ConcurrentNaiveStrategy) (orders : List Order)
    (start : GeoLocation) (sched : List Nat) :
    ∃ sends : List (ℚ × Option (List RouteStep)),
      s.workerSends orders start (generatePermutations orders.length) = Except.ok sends ∧
      (∀ c, c ∈ sends ↔ ∃ p ∈ generatePermutations orders.length,
        s.calculateRouteTime p orders start = Except.ok ⟨c.1, c.2, none⟩) ∧
      ∃ (t : ℚ) (steps : Option (List RouteStep)),
        s.CalculateRoute sched orders start = Except.ok ⟨t, steps, none⟩ ∧
        t = (reduceBest sends).1 ∧
        (∀ c ∈ sends, t ≤ c.1) ∧
        ((∃ c ∈ sends, c.1 < MaxFloat64) → (t, steps) ∈ sends) ∧
        ((∀ c ∈ sends, MaxFloat64 ≤ c.1) → t = MaxFloat64 ∧ steps = none) ∧
        (interleave sched (List.replicate numWorkers sends)).Perm
          (List.replicate numWorkers sends).flatten ∧
        ∀ received : List (ℚ × Option (List RouteStep)),
          received.Perm (List.replicate numWorkers sends).flatten →
          (reduceBest received).1 = t ∧
            ((∃ c ∈ sends, c.1 < MaxFloat64) → reduceBest received ∈ sends) := by
  obtain ⟨h1, h2, h3, h4⟩ := reduceBest_same_members
    (feasibleCandidates s orders start (generatePermutations orders.length))
    (interleave sched (List.replicate numWorkers
      (feasibleCandidates s orders start (generatePermutations orders.length))))
    (mem_interleave_replicate sched _)
  refine ⟨feasibleCandidates s orders start (generatePermutations orders.length),
    workerSends_eq s orders start _ (fun p hp => generatePermutations_lt hp),
    mem_feasibleCandidates s orders start _, _, _,
    CalculateRoute_eq_reduceBest s orders start sched, h1, h2, h3, ?_, interleave_perm _ _, ?_⟩
  · intro hall
    have := h4 hall
    rw [this]
    exact ⟨rfl, rfl⟩
  · intro received hperm
    obtain ⟨g1, -, g3, -⟩ := reduceBest_same_members
      (feasibleCandidates s orders start (generatePermutations orders.length)) received
      (mem_of_perm_replicate _ _ hperm)
    exact ⟨g1.trans h1.symm, g3⟩


/-! ## The selection of the first and of the next order -/

theorem selectFirst_eq (s : DynamicProgrammingStrategy) (orders : List Order)
    (start : GeoLocation) (hn : orders.length ≤ 64) (fuel : Nat) (hfuel : orders.length ≤ fuel) :
    ∃ memo, s.selectFirst fuel orders start =
        Except.ok ((bestFirst s.travelTimeCalculator orders start).1,
          (bestFirst s.travelTimeCalculator orders start).2, memo) ∧
      MemoOK s.travelTimeCalculator orders memo :=
  selectFirst_loop s orders start hn fuel hfuel (List.range orders.length)
    (none, MaxFloat64, []) (fun _ hi => List.mem_range.mp hi) (memoOK_nil _ _)

theorem selectNext_eq (s : DynamicProgrammingStrategy) (orders : List Order)
    (hn : orders.length ≤ 64) (fuel v last : Nat) (memo : Memo) (hv : v < 2 ^ orders.length)
    (hl : last < orders.length) (hfuel : (unvisited orders.length v).length ≤ fuel)
    (hm : MemoOK s.travelTimeCalculator orders memo) :
    ∃ memo2, s.selectNext fuel orders v last memo =
        Except.ok
          ((pickBest (nextCands s.travelTimeCalculator orders v last
            (List.range orders.length)) (none, MaxFloat64)).1,
            (pickBest (nextCands s.travelTimeCalculator orders v last
              (List.range orders.length)) (none, MaxFloat64)).2, memo2) ∧
      MemoOK s.travelTimeCalculator orders memo2 :=
  selectNext_loop s orders hn fuel v last hv hl hfuel (List.range orders.length)
    (none, MaxFloat64, memo) (fun _ hi => List.mem_range.mp hi) hm

theorem pickBest_next_none (ttc : TravelTimeCalculator) (orders : List Order) (v last : Nat)
    (h : unvisited orders.length v = []) :
    (pickBest (nextCands ttc orders v last (List.range orders.length)) (none, MaxFloat64)).1 =
      none := by
  have hc : nextCands ttc orders v last (List.range orders.length) = [] := by
    unfold nextCands
    have : (List.range orders.length).filter (fun i => v &&& shl1 i = 0) = [] := h
    rw [this]
    rfl
  rw [hc]
  rfl

theorem pickBest_next_some (ttc : TravelTimeCalculator) (orders : List Order)
    (hn : orders.length ≤ 64) (hb : TailsBelowSentinel ttc orders) (v last : Nat)
    (hl : last < orders.length) (hnot : last ∉ unvisited orders.length v)
    (h : unvisited orders.length v ≠ []) :
    ∃ j ∈ unvisited orders.length v,
      (pickBest (nextCands ttc orders v last (List.range orders.length)) (none, MaxFloat64)).1 =
        some j := by
  obtain ⟨ext, he1, he2, -⟩ := routeFrom_spec ttc orders hn hb
    ((unvisited orders.length v).length + 1) v last hl hnot (Nat.lt_succ_self _)
  rw [routeFrom] at he1
  cases hbest : (pickBest (nextCands ttc orders v last (List.range orders.length))
      (none, MaxFloat64)).1 with
  | none =>
    rw [hbest] at he1
    simp only [List.cons.injEq, true_and] at he1
    rw [← he1] at he2
    exact absurd he2.symm.eq_nil h
  | some j => exact ⟨j, pickBest_next_mem hbest, rfl⟩

theorem replicate_costs_of_le (m : Nat) (hm : m ≤ 1000) (o : Order) (ho : o.PrepTime ≤ 100)
    (start : GeoLocation) : CostsBelowSentinel zeroModel (List.replicate m o) start := by
  apply costsBelowSentinel_of_bound zeroModel (List.replicate m o) start 100 (by norm_num)
  · intro o2 ho2 src
    rw [List.eq_of_mem_replicate ho2]
    simp only [legCost, TravelTimeCalculator.Calculate, zeroModel]
    norm_num
    exact ho
  · rw [List.length_replicate]
    have : (m : ℚ) ≤ 1000 := by exact_mod_cast hm
    have h2 : (100 : ℚ) * 1000 ≤ 2 ^ 64 := by norm_num
    linarith

theorem single_costs : CostsBelowSentinel zeroModel [orderA] (sampleLoc 0 0) :=
  replicate_costs_of_le 1 (by norm_num) orderA (by norm_num [orderA]) _

theorem single_bestFirst : bestFirst zeroModel [orderA] (sampleLoc 0 0) = (some 0, 1) := by
  have h2 : (1 : ℚ) < MaxFloat64 := lt_MaxFloat64 (by norm_num)
  simp [bestFirst, pickBest, firstCands, stateValue, unvisited, optRest, stepCost, legCost,
    orderAt, TravelTimeCalculator.Calculate, zeroModel, orderA, shl1, List.range,
    List.range.loop, h2]

theorem single_routeFrom : routeFrom zeroModel [orderA] 1 (shl1 0) 0 = [0] := by
  simp [routeFrom, pickBest, nextCands, shl1, List.range, List.range.loop]

theorem single_findOptimalRoute (k : Nat) :
    (DynamicProgrammingStrategy.mk zeroModel).findOptimalRoute (1 + k) [orderA]
        (sampleLoc 0 0) = Except.ok (some [0], 1, none) := by
  have h := findOptimalRoute_eq (DynamicProgrammingStrategy.mk zeroModel) [orderA]
    (sampleLoc 0 0) (by simp) (by simp) (1 + k) (by simp) 0
    (by rw [single_bestFirst]) (by simp)
  rw [h, single_bestFirst]
  have hr := single_routeFrom
  simp only [List.length_cons, List.length_nil, Nat.reduceAdd] at hr ⊢
  rw [hr]

theorem single_selectNext (k : Nat) (memo : Memo) :
    (DynamicProgrammingStrategy.mk zeroModel).selectNext (1 + k) [orderA] (shl1 0) 0 memo =
      Except.ok (none, MaxFloat64, memo) := by
  simp [DynamicProgrammingStrategy.selectNext, DynamicProgrammingStrategy.selectNextBody, shl1,
    List.range, List.range.loop]
  rfl

theorem single_reconstruct (k : Nat) (memo : Memo) :
    (DynamicProgrammingStrategy.mk zeroModel).reconstruct (1 + k) [orderA] 1 [] (shl1 0)
      (some 0) memo = Except.ok [0] := by
  rw [DynamicProgrammingStrategy.reconstruct]
  simp only [List.length_nil, List.length_cons, Nat.zero_lt_one, Nat.reduceAdd, if_true,
    single_selectNext k memo, bind, Except.bind, List.nil_append]
  rfl

/-! ## The route of the dynamic program is complete and costs the best time -/

/-- C18, as stated, fails in two ways.  With the single order A the inner loop of
the reconstruction, run after order 0 has been appended, finds no unvisited order:
`bestNext` stays -1 and the second break is taken, on a route that is complete.
With 66 orders (every route cost at most 6600) findOptimalRoute does not return,
whatever the recursion budget. -/
theorem findOptimalRoute_break_taken :
    (∀ k : Nat, (DynamicProgrammingStrategy.mk zeroModel).findOptimalRoute (1 + k) [orderA]
        (sampleLoc 0 0) = Except.ok (some [0], 1, none)) ∧
      (∀ (k : Nat) (memo : Memo),
        (DynamicProgrammingStrategy.mk zeroModel).selectNext (1 + k) [orderA] (shl1 0) 0 memo =
          Except.ok (none, MaxFloat64, memo)) ∧
      (∀ (k : Nat) (memo : Memo),
        (DynamicProgrammingStrategy.mk zeroModel).reconstruct (1 + k) [orderA] 1 [] (shl1 0)
          (some 0) memo = Except.ok [0]) ∧
      CostsBelowSentinel zeroModel (List.replicate 66 orderA) (sampleLoc 0 0) ∧
      ∀ fuel, (DynamicProgrammingStrategy.mk zeroModel).findOptimalRoute fuel
        (List.replicate 66 orderA) (sampleLoc 0 0) = Except.error Fault.outOfFuel :=
  ⟨single_findOptimalRoute, single_selectNext, single_reconstruct,
    replicate_costs_of_le 66 (by norm_num) orderA (by norm_num [orderA]) _,
    fun fuel => findOptimalRoute_diverges _ _ _ (by simp) fuel⟩

/-- C18, amended: for every list of 1 to 64 orders and every start, with every
route cost below the MaxFloat64 sentinel, findOptimalRoute always selects a first
order (the selection loop ends with an index, not with -1, so the shift is never
taken with a negative count and the first break is not reached), and in the
reconstruction the inner loop finds a next order exactly as long as an unvisited
order is left; the second break is therefore taken only once every order is on the
route, and the returned route has length n and contains each index 0..n-1 exactly
once. -/
theorem findOptimalRoute_complete (s : DynamicProgrammingStrategy) (orders : List Order)
    (start : GeoLocation) (hne : orders ≠ []) (hn : orders.length ≤ 64)
    (hc : CostsBelowSentinel s.travelTimeCalculator orders start) :
    ∃ (first : Nat) (route : List Nat) (t : ℚ),
      first < orders.length ∧
      (∀ fuel, orders.length ≤ fuel →
        ∃ memo, s.selectFirst fuel orders start = Except.ok (some first, t, memo)) ∧
      (∀ fuel, orders.length ≤ fuel →
        s.findOptimalRoute fuel orders start = Except.ok (some route, t, none)) ∧
      route.length = orders.length ∧
      route.Perm (List.range orders.length) ∧
      (∀ i, i < orders.length → route.count i = 1) ∧
      ∀ (fuel v last : Nat) (memo : Memo), orders.length ≤ fuel → v < 2 ^ orders.length →
        last < orders.length → last ∉ unvisited orders.length v →
        MemoOK s.travelTimeCalculator orders memo →
        ∃ (bestNext : Option Nat) (bestNextTime : ℚ) (memo2 : Memo),
          s.selectNext fuel orders v last memo = Except.ok (bestNext, bestNextTime, memo2) ∧
          (bestNext = none ↔ unvisited orders.length v = []) ∧
          (∀ j, bestNext = some j → j ∈ unvisited orders.length v) := by
  obtain ⟨first, q, hf, hfirst, -, -, -, -⟩ :=
    bestFirst_attained s.travelTimeCalculator orders start hne hn hc
  obtain ⟨route, t, h1, -, -, -, -, hperm, -⟩ := findOptimalRoute_spec s orders start hne hn hc
  have ht : t = (bestFirst s.travelTimeCalculator orders start).2 := by
    have e1 := h1 orders.length (le_refl _)
    rw [findOptimalRoute_eq s orders start hne hn orders.length (le_refl _) first hfirst hf] at e1
    simp only [Except.ok.injEq, Prod.mk.injEq, and_true] at e1
    exact e1.2.symm
  refine ⟨first, route, t, hf, ?_, h1, ?_, hperm, ?_, ?_⟩
  · intro fuel hfuel
    obtain ⟨memo, hm, -⟩ := selectFirst_eq s orders start hn fuel hfuel
    exact ⟨memo, by rw [hm, hfirst, ht]⟩
  · rw [hperm.length_eq, List.length_range]
  · intro i hi
    rw [hperm.count_eq]
    exact List.count_eq_one_of_mem (List.nodup_range _) (List.mem_range.mpr hi)
  · intro fuel v last memo hfuel hv hl hnot hm
    have hlen : (unvisited orders.length v).length ≤ fuel := by
      have : (unvisited orders.length v).length ≤ orders.length := by
        unfold unvisited
        exact (List.length_filter_le _ _).trans (by rw [List.length_range])
      omega
    obtain ⟨memo2, h2, -⟩ := selectNext_eq s orders hn fuel v last memo hv hl hlen hm
    refine ⟨_, _, memo2, h2, ?_, fun j hj => pickBest_next_mem hj⟩
    constructor
    · intro hnone
      by_contra hU
      obtain ⟨j, -, hj⟩ := pickBest_next_some s.travelTimeCalculator orders hn (costs_tails hc)
        v last hl hnot hU
      rw [hj] at hnone
      cases hnone
    · intro hU
      exact pickBest_next_none s.travelTimeCalculator orders v last hU


/-- C20, as stated, fails for more than 64 orders: on 70 copies of order B with
legs that take no time (every route cost at most 7000) findOptimalRoute returns
neither a route nor a total time, whatever the recursion budget. -/
theorem findOptimalRoute_seventy_orders :
    List.replicate 70 orderB ≠ [] ∧
      CostsBelowSentinel zeroModel (List.replicate 70 orderB) (sampleLoc 0 0) ∧
      ∀ fuel, (DynamicProgrammingStrategy.mk zeroModel).findOptimalRoute fuel
        (List.replicate 70 orderB) (sampleLoc 0 0) = Except.error Fault.outOfFuel :=
  ⟨by simp, replicate_costs_of_le 70 (by norm_num) orderB (by norm_num [orderB]) _,
    fun fuel => findOptimalRoute_diverges _ _ _ (by simp) fuel⟩

/-- C20, amended: for every list of 1 to 64 orders and every start, with every
route cost below the MaxFloat64 sentinel, findOptimalRoute returns, for every
recursion budget of at least n, a route r and a total time t that agree: the cost
of r evaluated leg by leg (from the start to the first restaurant, then for each
order its preparation time and the leg from restaurant to consumer, and the leg
from each consumer to the next restaurant) equals t. -/
theorem findOptimalRoute_consistent (s : DynamicProgrammingStrategy) (orders : List Order)
    (start : GeoLocation) (hne : orders ≠ []) (hn : orders.length ≤ 64)
    (hc : CostsBelowSentinel s.travelTimeCalculator orders start) :
    ∃ (r : List Nat) (t : ℚ),
      (∀ fuel, orders.length ≤ fuel →
        s.findOptimalRoute fuel orders start = Except.ok (some r, t, none)) ∧
      routeCost s.travelTimeCalculator orders start r = t := by
  obtain ⟨route, t, h1, -, -, -, -, -, hcost⟩ := findOptimalRoute_spec s orders start hne hn hc
  exact ⟨route, t, h1, hcost⟩

theorem findOptimalRoute_consistent_witness :
    ∃ (r : List Nat) (t : ℚ),
      (∀ fuel, [orderA, orderB].length ≤ fuel →
        (DynamicProgrammingStrategy.mk zeroModel).findOptimalRoute fuel [orderA, orderB]
          (sampleLoc 0 0) = Except.ok (some r, t, none)) ∧
      routeCost (DynamicProgrammingStrategy.mk zeroModel).travelTimeCalculator [orderA, orderB]
        (sampleLoc 0 0) r = t :=
  findOptimalRoute_consistent (DynamicProgrammingStrategy.mk zeroModel) [orderA, orderB]
    (sampleLoc 0 0) (by simp) (by simp) sample_costs

theorem findOptimalRoute_complete_witness :
    ∃ (first : Nat) (route : List Nat) (t : ℚ),
      first < [orderA, orderB].length ∧
      (∀ fuel, [orderA, orderB].length ≤ fuel →
        ∃ memo, (DynamicProgrammingStrategy.mk zeroModel).selectFirst fuel [orderA, orderB]
          (sampleLoc 0 0) = Except.ok (some first, t, memo)) ∧
      (∀ fuel, [orderA, orderB].length ≤ fuel →
        (DynamicProgrammingStrategy.mk zeroModel).findOptimalRoute fuel [orderA, orderB]
          (sampleLoc 0 0) = Except.ok (some route, t, none)) ∧
      route.length = [orderA, orderB].length ∧
      route.Perm (List.range [orderA, orderB].length) ∧
      (∀ i, i < [orderA, orderB].length → route.count i = 1) ∧
      ∀ (fuel v last : Nat) (memo : Memo), [orderA, orderB].length ≤ fuel →
        v < 2 ^ [orderA, orderB].length →
        last < [orderA, orderB].length → last ∉ unvisited [orderA, orderB].length v →
        MemoOK (DynamicProgrammingStrategy.mk zeroModel).travelTimeCalculator
          [orderA, orderB] memo →
        ∃ (bestNext : Option Nat) (bestNextTime : ℚ) (memo2 : Memo),
          (DynamicProgrammingStrategy.mk zeroModel).selectNext fuel [orderA, orderB] v last
            memo = Except.ok (bestNext, bestNextTime, memo2) ∧
          (bestNext = none ↔ unvisited [orderA, orderB].length v = []) ∧
          (∀ j, bestNext = some j → j ∈ unvisited [orderA, orderB].length v) :=
  findOptimalRoute_complete (DynamicProgrammingStrategy.mk zeroModel) [orderA, orderB]
    (sampleLoc 0 0) (by simp) (by simp) sample_costs


/-! ## The candidate sequences stay within the order list -/

theorem generatePermutations_length {n : Nat} {p : List Nat} (h : p ∈ generatePermutations n) :
    p.length = n := by
  induction n using Nat.strong_induction_on generalizing p with
  | _ n ih =>
    match n, h, ih with
    | 1, h, _ =>
      simp [generatePermutations] at h
      subst h
      rfl
    | 0, h, _ => simp [generatePermutations] at h
    | n + 2, h, ih =>
      rw [generatePermutations_succ_succ] at h
      simp only [List.mem_flatMap, List.mem_map, List.mem_range] at h
      obtain ⟨i, _, q, hq, rfl⟩ := h
      rw [List.length_cons, ih (n + 1) (by omega) hq]

/-- C21: generatePermutations is a total function (its recursion is on n - 1 and
stops at 1, and for n = 0 the loop body never runs); it is empty for n = 0; every
sequence it returns has length n and entries below n; hence, on an order list of
length n, every lookup orders[index] on an entry of such a sequence succeeds,
calculateRouteTime returns on each of them without a panic, and so does the loop
of a worker over all of them. -/
theorem generatePermutations_in_bounds :
    generatePermutations 0 = [] ∧
      (∀ (n : Nat), ∃ l : List (List Nat), generatePermutations n = l ∧
        ∀ p ∈ l, p.length = n ∧ ∀ i ∈ p, 0 ≤ i ∧ i < n) ∧
      (∀ (s : ConcurrentNaiveStrategy) (orders : List Order) (start : GeoLocation),
        (∀ p ∈ generatePermutations orders.length,
          (∀ i ∈ p, ∃ order, orders[i]? = some order ∧ indexOrder orders i = Except.ok order) ∧
          ∃ res, s.calculateRouteTime p orders start = Except.ok res) ∧
        ∃ sends, s.workerSends orders start (generatePermutations orders.length) =
          Except.ok sends) := by
  refine ⟨rfl, ?_, ?_⟩
  · intro n
    exact ⟨_, rfl, fun p hp =>
      ⟨generatePermutations_length hp, fun i hi => ⟨Nat.zero_le i, generatePermutations_lt hp i hi⟩⟩⟩
  · intro s orders start
    refine ⟨fun p hp => ⟨fun i hi => ?_, ?_⟩, ?_⟩
    · have hlt := generatePermutations_lt hp i hi
      exact ⟨orderAt orders i, getElem?_orderAt hlt, indexOrder_orderAt hlt⟩
    · rcases calculateRouteTime_spec s orders start p (generatePermutations_lt hp) with h | h
      · exact ⟨_, h⟩
      · exact ⟨_, h⟩
    · exact ⟨_, workerSends_eq s orders start _ (fun p hp => generatePermutations_lt hp)⟩

end RouteOptimizer
